import Mathlib

/-!
# Skald: the turntable MIDI processor

A shallow embedding of `Source/PluginProcessor.h` and `Source/PluginProcessor.cpp`
(class `TurntableMIDIProcessor`) and of the scratch drag of `Source/PluginEditor.cpp`,
followed by theorems about them.

Modelling conventions

* `float` and `double` values are exact rationals (`ℚ`): every arithmetic step of the
  source is performed without rounding, and a float literal such as `0.01f` is the
  rational it denotes in decimal.
* `int`, `size_t` and `juce::int64` values are unbounded integers; `static_cast<int>` of a
  floating value is truncation toward zero and `(juce::uint8) v` is `v % 256`. In the swing
  step, where the delay in samples can exceed the range of `int`, the conversion and the
  sum are those of the 32-bit `int` (`truncToInt32`, `addInt32`).
* `juce::MidiBuffer` is the list of the events handed to `addEvent` by one call of
  `processBlock`, in call order, each with its intra-block sample position.
* `juce::Random` is a fixed stream of `nextFloat()` results together with the number of
  draws made so far; `juce::Time::currentTimeMillis()` is a per-block stream of clock reads.
* `juce::Point<float>` is a pair of rationals; its `getDistanceFromOrigin`, a square root,
  is a parameter of the drag handler.
* The locks guard single-threaded sections of this model and are not represented.
-/

namespace Skald

/-! ## JUCE and libm helpers used by the source -/

/-- `juce::jmin (a, b)`: the smaller of two values (`b < a ? b : a`). -/
def jmin {α : Type} [LinearOrder α] (a b : α) : α := if b < a then b else a

/-- `juce::jmax (a, b)`: the larger of two values (`a < b ? b : a`). -/
def jmax {α : Type} [LinearOrder α] (a b : α) : α := if a < b then b else a

/-- `juce::jlimit (lower, upper, value)`:
`value < lower ? lower : (upper < value ? upper : value)`. -/
def jlimit {α : Type} [LinearOrder α] (lower upper value : α) : α :=
  if value < lower then lower else if upper < value then upper else value

/-- `static_cast<int>` / `static_cast<juce::int64>` of a floating value: truncation toward
zero. -/
def truncToInt (q : ℚ) : Int := Int.tdiv q.num q.den

/-- `static_cast<int>` of a floating value on the 32-bit `int`: truncation toward zero when
the truncated value lies between `INT_MIN` and `INT_MAX`. Outside that range the conversion
is undefined in C++; the value taken here is `INT_MIN`, which the conversion instruction of
x86-64 returns. -/
def truncToInt32 (q : ℚ) : Int :=
  if -2147483648 ≤ truncToInt q ∧ truncToInt q ≤ 2147483647 then truncToInt q
  else -2147483648

/-- `a + b` on the 32-bit `int`: the sum of two values of the range of `int`, wrapped into
that range when it leaves it (two's complement; signed overflow is undefined in C++).
Operands outside the range, which an `int` cannot hold, are added as they are. -/
def addInt32 (a b : Int) : Int :=
  if (-2147483648 ≤ a ∧ a ≤ 2147483647) ∧ (-2147483648 ≤ b ∧ b ≤ 2147483647) then
    (a + b + 2147483648) % 4294967296 - 2147483648
  else a + b

/-- `std::fmod (x, y)`: `x - trunc (x / y) * y`. -/
def fmod (x y : ℚ) : ℚ := x - (truncToInt (x / y) : ℚ) * y

/-- `(juce::uint8) v`. -/
def toUint8 (v : Int) : Int := v % 256

/-! ## Data model (`PluginProcessor.h`) -/

/-- `enum class ScaleType`: the underlying integer value of the enumeration. -/
structure ScaleType where
  raw : Int
  deriving DecidableEq, Repr

namespace ScaleType
def Major : ScaleType := ⟨0⟩
def Minor : ScaleType := ⟨1⟩
def HarmonicMinor : ScaleType := ⟨2⟩
def MelodicMinor : ScaleType := ⟨3⟩
def Pentatonic : ScaleType := ⟨4⟩
def PentatonicMinor : ScaleType := ⟨5⟩
def Blues : ScaleType := ⟨6⟩
def Dorian : ScaleType := ⟨7⟩
def Phrygian : ScaleType := ⟨8⟩
def Lydian : ScaleType := ⟨9⟩
def Mixolydian : ScaleType := ⟨10⟩
def Locrian : ScaleType := ⟨11⟩
def Chromatic : ScaleType := ⟨12⟩
end ScaleType

/-- `struct TurntableDot`; `color` is the ARGB value of the `juce::Colour`. -/
structure TurntableDot where
  angle : ℚ
  ringIndex : Int
  color : Nat
  active : Bool
  deriving DecidableEq, Repr

/-- `struct TurntableMIDIProcessor::TriggeredDotInfo`. -/
structure TriggeredDotInfo where
  dotIndex : Int
  timestamp : Int
  velocity : Int
  gateTimeMs : ℚ
  wasTriggered : Bool
  beatCount : Int
  deriving DecidableEq, Repr

/-- `struct TurntableMIDIProcessor::ActiveNote`. -/
structure ActiveNote where
  midiNote : Int
  channel : Int
  noteOffSample : Int
  deriving DecidableEq, Repr

/-- `struct TurntableMIDIProcessor::PreviewNote`. -/
structure PreviewNote where
  midiNote : Int
  timeStamp : Int
  deriving DecidableEq, Repr

/-- The two `juce::MidiMessage` kinds the processor creates, with the arguments given to
`MidiMessage::noteOn` / `MidiMessage::noteOff`. -/
inductive MidiMessage where
  | noteOn (channel : Int) (noteNumber : Int) (velocity : Int)
  | noteOff (channel : Int) (noteNumber : Int) (velocity : Int)
  deriving DecidableEq, Repr

/-- One `midiMessages.addEvent (message, samplePosition)` call. -/
structure MidiEvent where
  message : MidiMessage
  samplePosition : Int
  deriving DecidableEq, Repr

/-- The member variables of `TurntableMIDIProcessor`, in the order of the header. -/
structure Processor where
  activeNotes : List ActiveNote
  totalSamplesProcessed : Int
  dots : List TurntableDot
  currentRotation : ℚ
  speed : ℚ
  hostBPM : ℚ
  sampleRate : ℚ
  globalVelocity : Int
  gateTimeMs : ℚ
  isReversed : Bool
  motorRunning : Bool
  currentSpeedMultiplier : ℚ
  scratchVelocity : ℚ
  isBeingScratched : Bool
  probability : ℚ
  velocityVariation : ℚ
  swing : ℚ
  isPlayingStandalone : Bool
  standaloneBPM : ℚ
  currentScale : ScaleType
  rootNote : Int
  baseOctave : Int
  octaveShift : Int
  scaleNotes : List Int
  triggeredThisRotation : List Bool
  previewNotesToSend : List PreviewNote
  recentlyTriggeredDots : List TriggeredDotInfo
  random : Nat → ℚ
  randomDraws : Nat
  swingBeatCounter : Int

/-- What `playHead->getPosition()` yields: an optional tempo and the play state. -/
structure PositionInfo where
  bpm : Option ℚ
  isPlaying : Bool

/-- The inputs of one `processBlock` call: the buffer length, the host position (absent
when there is no play head or it reports no position) and the clock reads of the block. -/
structure BlockInput where
  numSamples : Int
  position : Option PositionInfo
  clock : Nat → Int

/-- The state threaded through the body of `processBlock`: the processor, the events added
to `midiMessages` so far and the number of clock reads made so far. -/
structure BlockState where
  proc : Processor
  midi : List MidiEvent
  clockReads : Nat

/-! ## Scale system -/

/-- `TurntableMIDIProcessor::getScaleIntervals`. -/
def getScaleIntervals (scale : ScaleType) : List Int :=
  match scale.raw with
  | 0 => [0, 2, 4, 5, 7, 9, 11, 12]
  | 1 => [0, 2, 3, 5, 7, 8, 10, 12]
  | 2 => [0, 2, 3, 5, 7, 8, 11, 12]
  | 3 => [0, 2, 3, 5, 7, 9, 11, 12]
  | 4 => [0, 2, 4, 7, 9, 12]
  | 5 => [0, 3, 5, 7, 10, 12]
  | 6 => [0, 3, 5, 6, 7, 10, 12]
  | 7 => [0, 2, 3, 5, 7, 9, 10, 12]
  | 8 => [0, 1, 3, 5, 7, 8, 10, 12]
  | 9 => [0, 2, 4, 6, 7, 9, 11, 12]
  | 10 => [0, 2, 4, 5, 7, 9, 10, 12]
  | 11 => [0, 1, 3, 5, 6, 8, 10, 12]
  | 12 => [0, 1, 2, 3, 4, 5, 6, 7, 8, 9, 10, 11, 12]
  | _ => [0, 2, 4, 7, 9, 12]

/-- The loop of `updateScaleNotes`: one note per interval, skipping the octave repeat. -/
def scaleNotesFrom (baseMIDI : Int) : List Int → List Int
  | [] => []
  | interval :: rest =>
    if interval = 12 then scaleNotesFrom baseMIDI rest
    else (baseMIDI + interval) :: scaleNotesFrom baseMIDI rest

/-- `TurntableMIDIProcessor::updateScaleNotes`. -/
def updateScaleNotes (s : Processor) : Processor :=
  { s with scaleNotes :=
      scaleNotesFrom (s.rootNote + s.baseOctave * 12) (getScaleIntervals s.currentScale) }

/-- `TurntableMIDIProcessor::ringToMidiNote`. -/
def ringToMidiNote (s : Processor) (ringIndex : Int) : Int :=
  if ringIndex ≥ 0 ∧ ringIndex < (s.scaleNotes.length : Int) then
    s.scaleNotes.getD ringIndex.toNat 0 + s.octaveShift * 12
  else 60

/-! ## Dot editing -/

/-- `std::vector<bool>::resize (n, false)`. -/
def resizeFlags (flags : List Bool) (n : Nat) : List Bool :=
  flags.take n ++ List.replicate (n - flags.length) false

/-- `TurntableMIDIProcessor::addDot`. -/
def addDot (s : Processor) (angle : ℚ) (ringIndex : Int) (color : Nat) : Processor :=
  let dots := s.dots ++ [{ angle := angle, ringIndex := ringIndex, color := color, active := true }]
  { s with dots := dots, triggeredThisRotation := resizeFlags s.triggeredThisRotation dots.length }

/-- `TurntableMIDIProcessor::prepareToPlay`. -/
def prepareToPlay (s : Processor) (sampleRate : ℚ) : Processor :=
  { s with sampleRate := sampleRate,
           triggeredThisRotation := resizeFlags s.triggeredThisRotation s.dots.length }

/-- The constructor `TurntableMIDIProcessor::TurntableMIDIProcessor`: the default member
initialisers of the header, then `updateScaleNotes` and the four initial dots. The random
stream is whatever the generator will produce. -/
def Processor.new (random : Nat → ℚ) : Processor :=
  let s0 : Processor :=
    { activeNotes := [], totalSamplesProcessed := 0, dots := [], currentRotation := 0,
      speed := 1, hostBPM := 120, sampleRate := 44100, globalVelocity := 100,
      gateTimeMs := 100, isReversed := false, motorRunning := true,
      currentSpeedMultiplier := 1, scratchVelocity := 0, isBeingScratched := false,
      probability := 100, velocityVariation := 0, swing := 0, isPlayingStandalone := false,
      standaloneBPM := 120, currentScale := ScaleType.Pentatonic, rootNote := 0,
      baseOctave := 4, octaveShift := 0, scaleNotes := [], triggeredThisRotation := [],
      previewNotesToSend := [], recentlyTriggeredDots := [], random := random,
      randomDraws := 0, swingBeatCounter := 0 }
  let s1 := updateScaleNotes s0
  let s2 := addDot s1 0 0 0xffff6b35
  let s3 := addDot s2 90 2 0xffff6b35
  let s4 := addDot s3 180 4 0xffff6b35
  addDot s4 270 2 0xffff6b35

/-! ## `processBlock` -/

/-- The note-off scan at the start of `processBlock`: the loop over `activeNotes` that
fills `midiMessages` and `notesToKeep`. -/
def scanActiveNotes (totalSamplesProcessed numSamples : Int) :
    List ActiveNote → List MidiEvent × List ActiveNote
  | [] => ([], [])
  | note :: rest =>
    let noteOffInBuffer := note.noteOffSample - totalSamplesProcessed
    let r := scanActiveNotes totalSamplesProcessed numSamples rest
    if noteOffInBuffer < numSamples ∧ noteOffInBuffer ≥ 0 then
      (⟨MidiMessage.noteOff note.channel note.midiNote (toUint8 0), noteOffInBuffer⟩ :: r.1, r.2)
    else if noteOffInBuffer ≥ numSamples then
      (r.1, note :: r.2)
    else r

/-- The preview drain: one note-on at sample 0 and one pending note per queued preview. -/
def drainPreviewNotes (totalSamplesProcessed : Int) (sampleRate : ℚ) :
    List PreviewNote → List MidiEvent × List ActiveNote
  | [] => ([], [])
  | previewNote :: rest =>
    let noteOffSample := totalSamplesProcessed + truncToInt (sampleRate * (1 / 10))
    let r := drainPreviewNotes totalSamplesProcessed sampleRate rest
    (⟨MidiMessage.noteOn 1 previewNote.midiNote (toUint8 100), 0⟩ :: r.1,
     ⟨previewNote.midiNote, 1, noteOffSample⟩ :: r.2)

/-- The play state used by the block: the standalone flag, overridden by a playing host. -/
def shouldPlayOf (s : Processor) (inp : BlockInput) : Bool :=
  match inp.position with
  | some positionInfo => if positionInfo.isPlaying then true else s.isPlayingStandalone
  | none => s.isPlayingStandalone

/-- The tempo used by the block: the standalone BPM, overridden by the host tempo. -/
def currentBPMOf (s : Processor) (inp : BlockInput) : ℚ :=
  match inp.position with
  | some positionInfo =>
    match positionInfo.bpm with
    | some bpm => bpm
    | none => s.standaloneBPM
  | none => s.standaloneBPM

/-- The motor ramp step: the new `currentSpeedMultiplier`. -/
def rampSpeedMultiplier (s : Processor) (numSamples : Int) : ℚ :=
  let rampUpRate : ℚ := 3
  let rampDownRate : ℚ := 4 / 10
  let rampStep : ℚ := 1 / s.sampleRate
  if s.motorRunning then
    if s.currentSpeedMultiplier < 1 then
      jmin 1 (s.currentSpeedMultiplier + rampUpRate * rampStep * numSamples)
    else s.currentSpeedMultiplier
  else
    if s.currentSpeedMultiplier > 0 then
      jmax 0 (s.currentSpeedMultiplier - rampDownRate * rampStep * numSamples)
    else s.currentSpeedMultiplier

/-- The scratch friction step: the new `scratchVelocity`. -/
def decayScratchVelocity (s : Processor) (numSamples : Int) : ℚ :=
  if !s.isBeingScratched ∧ |s.scratchVelocity| > 1 / 100 then
    let scratchDecayRate : ℚ := 4 / 10
    let decayStep := scratchDecayRate / s.sampleRate
    let velocityReduction := decayStep * numSamples
    let v :=
      if s.scratchVelocity > 0 then
        jmax 0 (s.scratchVelocity - |s.scratchVelocity| * velocityReduction)
      else
        jmin 0 (s.scratchVelocity + |s.scratchVelocity| * velocityReduction)
    if |v| < 1 / 10 then 0 else v
  else s.scratchVelocity

/-- The increment added to `currentRotation` by the block, if the rotation is advanced:
the scratch-momentum increment, else the tempo-driven one, else none. The processor passed
in already carries the ramped multiplier and the decayed scratch velocity. -/
def rotationIncrementOf (s : Processor) (numSamples : Int) (shouldPlay : Bool)
    (currentBPM : ℚ) : Option ℚ :=
  if !s.isBeingScratched ∧ |s.scratchVelocity| > 1 / 100 then
    some (s.scratchVelocity * (numSamples / s.sampleRate))
  else if !s.isBeingScratched ∧ |s.scratchVelocity| < 1 / 100 ∧
      (shouldPlay ∨ s.currentSpeedMultiplier > 0) then
    let beatsPerSecond := currentBPM / 60
    let effectiveSpeed := if s.isReversed then -s.speed else s.speed
    let effectiveSpeed := effectiveSpeed * s.currentSpeedMultiplier
    let rotationsPerSecond := (beatsPerSecond / 8) * effectiveSpeed
    let degreesPerSample := (rotationsPerSecond * 360) / s.sampleRate
    some (degreesPerSample * numSamples)
  else none

/-- The wrap applied after `currentRotation += increment`, identical on the scratch and
the motor path: the wrapped angle and the flags, cleared on a wrap. -/
def wrapRotation (rotation : ℚ) (flags : List Bool) : ℚ × List Bool :=
  if rotation < 0 then
    (rotation + 360, List.replicate flags.length false)
  else if rotation ≥ 360 then
    (fmod rotation 360, List.replicate flags.length false)
  else (rotation, flags)

/-- The rotation update of the block: the new `currentRotation` and
`triggeredThisRotation`. -/
def advanceRotation (s : Processor) (numSamples : Int) (shouldPlay : Bool)
    (currentBPM : ℚ) : ℚ × List Bool :=
  match rotationIncrementOf s numSamples shouldPlay currentBPM with
  | some increment => wrapRotation (s.currentRotation + increment) s.triggeredThisRotation
  | none => (s.currentRotation, s.triggeredThisRotation)

/-- The crossing test of the dot loop: the value of `crossed` for a dot at `triggerAngle`
(`false` when the loop skips the dot for lack of movement). -/
def crossed (previousRotation currentRotation triggerAngle : ℚ) : Bool :=
  let rotationDelta := currentRotation - previousRotation
  let tolerance : ℚ := 1 / 2
  let rotationDelta :=
    if rotationDelta > 180 then rotationDelta - 360
    else if rotationDelta < -180 then rotationDelta + 360
    else rotationDelta
  if |rotationDelta| < 1 / 1000 then false
  else if rotationDelta > 0 then
    let diff := triggerAngle - previousRotation
    let diff := if diff < 0 then diff + 360 else diff
    decide (diff ≥ -tolerance ∧ diff ≤ rotationDelta + tolerance)
  else if rotationDelta < 0 then
    let diff := previousRotation - triggerAngle
    let diff := if diff < 0 then diff + 360 else diff
    decide (diff ≥ -tolerance ∧ diff ≤ -rotationDelta + tolerance)
  else false

/-- The sample offset of a crossing before swing: `triggerSample` as computed from the
fraction of the block's rotation, 0 in the wrap-around case. -/
def crossingSample (previousRotation currentRotation triggerAngle : ℚ) (numSamples : Int) :
    Int :=
  if previousRotation < currentRotation then
    let rotationRange := currentRotation - previousRotation
    let rotationToCrossing := triggerAngle - previousRotation
    if rotationRange > 0 then
      let fraction := rotationToCrossing / rotationRange
      jlimit 0 (numSamples - 1) (truncToInt (fraction * numSamples))
    else 0
  else 0

/-- The swing step: `triggerSample` after the delay of odd 16th subdivisions. The locals
`sixteenthNote` and `swingOffset` are 32-bit `int`s converted from floating values, and
`triggerSample + swingOffset` is a sum of two `int`s. -/
def applySwing (swing currentRotation currentBPM sampleRate : ℚ) (numSamples : Int)
    (triggerSample : Int) : Int :=
  if swing > 0 then
    let rotationProgress := currentRotation / 360
    let sixteenthNote := Int.tmod (truncToInt32 (rotationProgress * 32)) 32
    if Int.tmod sixteenthNote 2 = 1 then
      let secondsPerBeat := 60 / currentBPM
      let sixteenthNoteDuration := secondsPerBeat / 4
      let swingRatio := swing / 100
      let delayRatio := (swingRatio - 1 / 2) * 2
      let delayRatio := jlimit 0 1 delayRatio
      let swingDelaySec := sixteenthNoteDuration * delayRatio
      let swingOffset := truncToInt32 (swingDelaySec * sampleRate)
      jmin (numSamples - 1) (addInt32 triggerSample swingOffset)
    else triggerSample
  else triggerSample

/-- The velocity of a fired note given the variation draw (`random.nextFloat()`). -/
def variedVelocity (globalVelocity : Int) (velocityVariation draw : ℚ) : Int :=
  let variation := (draw * 2 - 1) * (velocityVariation / 100)
  jlimit 1 127 (truncToInt ((globalVelocity : ℚ) * (1 + variation * (1 / 2))))

/-- The clean-up of the feedback records: entries older than 1000 ms are erased. -/
def eraseOld (currentTime : Int) (records : List TriggeredDotInfo) : List TriggeredDotInfo :=
  records.filter (fun entry => !decide (currentTime - entry.timestamp > 1000))

/-- The probability-miss branch of the dot loop for dot `i`. -/
def missDot (inp : BlockInput) (i : Nat) (st : BlockState) : BlockState :=
  let s := st.proc
  let currentTime := inp.clock st.clockReads
  let record : TriggeredDotInfo :=
    { dotIndex := i, timestamp := currentTime, velocity := 0, gateTimeMs := 0,
      wasTriggered := false, beatCount := s.swingBeatCounter }
  { proc := { s with
      recentlyTriggeredDots := eraseOld currentTime (s.recentlyTriggeredDots ++ [record]),
      triggeredThisRotation := s.triggeredThisRotation.set i true,
      randomDraws := s.randomDraws + 1 },
    midi := st.midi,
    clockReads := st.clockReads + 1 }

/-- The firing branch of the dot loop for dot `i`: timing, swing, note, velocity, the
note-on, the pending note-off, the flag and the feedback record. -/
def fireDot (inp : BlockInput) (currentBPM previousRotation : ℚ) (i : Nat)
    (dot : TurntableDot) (st : BlockState) : BlockState :=
  let s := st.proc
  let triggerSample := crossingSample previousRotation s.currentRotation dot.angle inp.numSamples
  let swingBeatCounter := s.swingBeatCounter + 1
  let triggerSample :=
    applySwing s.swing s.currentRotation currentBPM s.sampleRate inp.numSamples triggerSample
  let midiNote := ringToMidiNote s dot.ringIndex
  let finalVelocity :=
    if s.velocityVariation > 0 then
      variedVelocity s.globalVelocity s.velocityVariation (s.random (s.randomDraws + 1))
    else s.globalVelocity
  let randomDraws := if s.velocityVariation > 0 then s.randomDraws + 2 else s.randomDraws + 1
  let absoluteNoteOffSample :=
    s.totalSamplesProcessed + triggerSample + truncToInt (s.sampleRate * (s.gateTimeMs / 1000))
  let currentTime := inp.clock st.clockReads
  let record : TriggeredDotInfo :=
    { dotIndex := i, timestamp := currentTime, velocity := finalVelocity,
      gateTimeMs := s.gateTimeMs, wasTriggered := true, beatCount := swingBeatCounter }
  { proc := { s with
      activeNotes := s.activeNotes ++ [⟨midiNote, 1, absoluteNoteOffSample⟩],
      triggeredThisRotation := s.triggeredThisRotation.set i true,
      recentlyTriggeredDots := eraseOld currentTime (s.recentlyTriggeredDots ++ [record]),
      randomDraws := randomDraws,
      swingBeatCounter := swingBeatCounter },
    midi := st.midi ++ [⟨MidiMessage.noteOn 1 midiNote (toUint8 finalVelocity), triggerSample⟩],
    clockReads := st.clockReads + 1 }

/-- One iteration of the dot loop of `processBlock`, for the dot at index `i`. -/
def processDot (inp : BlockInput) (currentBPM previousRotation : ℚ) (i : Nat)
    (dot : TurntableDot) (st : BlockState) : BlockState :=
  let s := st.proc
  if !dot.active then st
  else if crossed previousRotation s.currentRotation dot.angle ∧
      !s.triggeredThisRotation.getD i false then
    let probRoll := s.random s.randomDraws * 100
    let passedProbability := decide (probRoll ≤ s.probability)
    if !passedProbability then missDot inp i st
    else fireDot inp currentBPM previousRotation i dot st
  else st

/-- The dot loop `for (size_t i = 0; i < dots.size(); ++i)`, from index `i` over the
remaining dots. -/
def dotLoop (inp : BlockInput) (currentBPM previousRotation : ℚ) :
    Nat → List TurntableDot → BlockState → BlockState
  | _, [], st => st
  | i, dot :: rest, st =>
    dotLoop inp currentBPM previousRotation (i + 1) rest
      (processDot inp currentBPM previousRotation i dot st)

/-- The first part of `processBlock`, up to the rotation update: note-off scan, preview
drain, motor ramp and scratch friction. -/
def beforeRotation (s : Processor) (inp : BlockInput) : BlockState :=
  let scan := scanActiveNotes s.totalSamplesProcessed inp.numSamples s.activeNotes
  let preview := drainPreviewNotes s.totalSamplesProcessed s.sampleRate s.previewNotesToSend
  let s1 : Processor :=
    { s with activeNotes := scan.2 ++ preview.2, previewNotesToSend := [],
             currentSpeedMultiplier := rampSpeedMultiplier s inp.numSamples }
  let s2 : Processor := { s1 with scratchVelocity := decayScratchVelocity s1 inp.numSamples }
  { proc := s2, midi := scan.1 ++ preview.1, clockReads := 0 }

/-- The state right after the rotation update (advance and wrap) and before the crossing
detection. -/
def beforeDetection (s : Processor) (inp : BlockInput) : BlockState :=
  let st := beforeRotation s inp
  let rot := advanceRotation st.proc inp.numSamples (shouldPlayOf s inp) (currentBPMOf s inp)
  { st with proc := { st.proc with currentRotation := rot.1, triggeredThisRotation := rot.2 } }

/-- The state at the end of the dot loop, before the sample counter is advanced. -/
def afterDetection (s : Processor) (inp : BlockInput) : BlockState :=
  let st := beforeDetection s inp
  let previousRotation := s.currentRotation
  if previousRotation ≠ st.proc.currentRotation then
    dotLoop inp (currentBPMOf s inp) previousRotation 0 st.proc.dots st
  else st

/-- `TurntableMIDIProcessor::processBlock`: the processor after the block and the events
added to `midiMessages`. -/
def processBlock (s : Processor) (inp : BlockInput) : Processor × List MidiEvent :=
  let st := afterDetection s inp
  ({ st.proc with totalSamplesProcessed := st.proc.totalSamplesProcessed + inp.numSamples },
   st.midi)

/-- Runs `processBlock` over a sequence of blocks, collecting each block's events. -/
def runBlocks (s : Processor) : List BlockInput → Processor × List (List MidiEvent)
  | [] => (s, [])
  | inp :: rest =>
    let r := processBlock s inp
    let q := runBlocks r.1 rest
    (q.1, r.2 :: q.2)

/-! ## Swing and velocity values named in the firing branch -/

/-- The local `delayRatio` of the swing computation:
`jlimit (0.0f, 1.0f, (swing / 100.0f - 0.5f) * 2.0f)`. -/
def swingDelayRatio (swing : ℚ) : ℚ := jlimit 0 1 ((swing / 100 - 1 / 2) * 2)

/-- The local `swingOffset` of the swing computation, a 32-bit `int`:
`static_cast<int> (sixteenthNoteDuration * delayRatio * sampleRate)`. -/
def swingOffsetOf (swing currentBPM sampleRate : ℚ) : Int :=
  truncToInt32 (60 / currentBPM / 4 * swingDelayRatio swing * sampleRate)

/-! ## Parameter setters (`PluginProcessor.h`, `PluginProcessor.cpp`) -/

/-- `setGlobalVelocity`. -/
def setGlobalVelocity (s : Processor) (vel : Int) : Processor :=
  { s with globalVelocity := jlimit 1 127 vel }

/-- `setGateTime`. -/
def setGateTime (s : Processor) (timeMs : ℚ) : Processor :=
  { s with gateTimeMs := jmax 10 timeMs }

/-- `setProbability`. -/
def setProbability (s : Processor) (prob : ℚ) : Processor :=
  { s with probability := jlimit 0 100 prob }

/-- `setVelocityVariation`. -/
def setVelocityVariation (s : Processor) (var : ℚ) : Processor :=
  { s with velocityVariation := jlimit 0 100 var }

/-- `setSwing`. -/
def setSwing (s : Processor) (sw : ℚ) : Processor :=
  { s with swing := jlimit 0 100 sw }

/-- `TurntableMIDIProcessor::setScale`. -/
def setScale (s : Processor) (newScale : ScaleType) : Processor :=
  updateScaleNotes { s with currentScale := newScale }

/-- `TurntableMIDIProcessor::setRootNote`. -/
def setRootNote (s : Processor) (newRoot : Int) : Processor :=
  updateScaleNotes { s with rootNote := jlimit 0 11 newRoot }

/-- `TurntableMIDIProcessor::setOctaveShift`. -/
def setOctaveShift (s : Processor) (shift : Int) : Processor :=
  { s with octaveShift := jlimit (-2) 2 shift }

/-! ## Persisted state

The blob is a list of bytes (naturals below 256). `juce::MemoryOutputStream` appends the
bytes of each write; `juce::MemoryInputStream` is the list of the bytes not yet read. A read
that finds fewer bytes than it needs consumes what is left and yields 0. -/

/-- The bit-level encoding of `float` used by `writeFloat` / `readFloat` (IEEE-754 binary32
in JUCE) is not part of the repository and floats are rationals here, so the encoding is a
parameter: `bits` gives the 32-bit pattern of a float as an `int`, `value` the float of a
pattern. -/
structure FloatCodec where
  bits : ℚ → Int
  value : Int → ℚ

/-- The value of an `int` with the given unsigned 32-bit pattern (two's complement). -/
def toInt32 (m : Nat) : Int :=
  if m % 4294967296 ≥ 2147483648 then ((m % 4294967296 : Nat) : Int) - 4294967296
  else ((m % 4294967296 : Nat) : Int)

/-- The unsigned 32-bit pattern of an `int`; also `static_cast<juce::uint32>`. -/
def toUint32 (n : Int) : Nat := (n % 4294967296).toNat

/-- `OutputStream::writeInt`: four bytes, little-endian. -/
def writeInt (n : Int) : List Nat :=
  let m := toUint32 n
  [m % 256, m / 256 % 256, m / 65536 % 256, m / 16777216 % 256]

/-- `OutputStream::writeFloat`: the bit pattern written as an `int`. -/
def writeFloat (c : FloatCodec) (q : ℚ) : List Nat := writeInt (c.bits q)

/-- `OutputStream::writeBool`: one byte, 1 or 0. -/
def writeBool (b : Bool) : List Nat := [if b then 1 else 0]

/-- `InputStream::readInt`: the next four bytes as a little-endian `int`, or 0 when fewer
than four bytes are left (which are consumed). -/
def readInt (stream : List Nat) : Int × List Nat :=
  match stream with
  | b0 :: b1 :: b2 :: b3 :: rest =>
    (toInt32 (b0 % 256 + b1 % 256 * 256 + b2 % 256 * 65536 + b3 % 256 * 16777216), rest)
  | _ => (0, [])

/-- `InputStream::readFloat`: the float whose bit pattern is the next `int`. -/
def readFloat (c : FloatCodec) (stream : List Nat) : ℚ × List Nat :=
  let r := readInt stream
  (c.value r.1, r.2)

/-- `InputStream::readBool`: the next byte is not 0 (`false` at the end of the stream). -/
def readBool (stream : List Nat) : Bool × List Nat :=
  match stream with
  | b :: rest => (decide (b % 256 ≠ 0), rest)
  | [] => (false, [])

/-- `InputStream::isExhausted`. -/
def isExhausted (stream : List Nat) : Bool := stream.isEmpty

/-- The bytes of one dot as written by the loop of `getStateInformation`. -/
def writeDot (c : FloatCodec) (dot : TurntableDot) : List Nat :=
  writeFloat c dot.angle ++ writeInt dot.ringIndex ++ writeInt dot.color ++ writeBool dot.active

/-- The loop of `getStateInformation` over the dots. -/
def writeDots (c : FloatCodec) : List TurntableDot → List Nat
  | [] => []
  | dot :: rest => writeDot c dot ++ writeDots c rest

/-- `TurntableMIDIProcessor::getStateInformation`: the bytes written to `destData`. -/
def getStateInformation (c : FloatCodec) (s : Processor) : List Nat :=
  writeFloat c s.speed ++ writeInt s.currentScale.raw ++ writeInt s.rootNote ++
    writeInt s.dots.length ++ writeDots c s.dots ++
    writeInt s.globalVelocity ++ writeFloat c s.gateTimeMs ++ writeBool s.isReversed ++
    writeFloat c s.probability ++ writeFloat c s.velocityVariation ++ writeFloat c s.swing

/-- One iteration of the dot loop of `setStateInformation`: the dot read and the rest of
the stream. -/
def readDot (c : FloatCodec) (stream : List Nat) : TurntableDot × List Nat :=
  let angle := readFloat c stream
  let ringIndex := readInt angle.2
  let color := readInt ringIndex.2
  let active := readBool color.2
  ({ angle := angle.1, ringIndex := ringIndex.1, color := toUint32 color.1,
     active := active.1 }, active.2)

/-- The dot loop of `setStateInformation` for `numDots` iterations. -/
def readDots (c : FloatCodec) : Nat → List Nat → List TurntableDot × List Nat
  | 0, stream => ([], stream)
  | n + 1, stream =>
    let dot := readDot c stream
    let rest := readDots c n dot.2
    (dot.1 :: rest.1, rest.2)

/-- `TurntableMIDIProcessor::setStateInformation` on the bytes `data`. -/
def setStateInformation (c : FloatCodec) (s : Processor) (data : List Nat) : Processor :=
  let speed := readFloat c data
  let scale := readInt speed.2
  let root := readInt scale.2
  let s1 := updateScaleNotes
    { s with speed := speed.1, currentScale := ⟨scale.1⟩, rootNote := root.1 }
  let numDots := readInt root.2
  let dots := readDots c numDots.1.toNat numDots.2
  let s2 : Processor :=
    { s1 with dots := dots.1,
              triggeredThisRotation := resizeFlags s1.triggeredThisRotation dots.1.length }
  if !isExhausted dots.2 then
    let globalVelocity := readInt dots.2
    let gateTimeMs := readFloat c globalVelocity.2
    let isReversed := readBool gateTimeMs.2
    let probability := readFloat c isReversed.2
    let velocityVariation := readFloat c probability.2
    let swing := readFloat c velocityVariation.2
    { s2 with globalVelocity := globalVelocity.1, gateTimeMs := gateTimeMs.1,
              isReversed := isReversed.1, probability := probability.1,
              velocityVariation := velocityVariation.1, swing := swing.1 }
  else s2

/-! ## Dot removal, previews and direct control (`PluginProcessor.h`, `PluginProcessor.cpp`) -/

/-- `TurntableMIDIProcessor::removeDot`. -/
def removeDot (s : Processor) (index : Int) : Processor :=
  if index ≥ 0 ∧ index < (s.dots.length : Int) then
    let dots := s.dots.eraseIdx index.toNat
    { s with dots := dots, triggeredThisRotation := resizeFlags s.triggeredThisRotation dots.length }
  else s

/-- `TurntableMIDIProcessor::clearAllDots`. -/
def clearAllDots (s : Processor) : Processor :=
  { s with dots := [], triggeredThisRotation := [] }

/-- `TurntableMIDIProcessor::triggerPreviewNote`. -/
def triggerPreviewNote (s : Processor) (ringIndex : Int) : Processor :=
  let midiNote := ringToMidiNote s ringIndex
  { s with previewNotesToSend := s.previewNotesToSend ++ [{ midiNote := midiNote, timeStamp := 0 }] }

/-- `setScratchVelocity`. -/
def setScratchVelocity (s : Processor) (velocity : ℚ) : Processor :=
  { s with scratchVelocity := velocity }

/-- `setBeingScratched`. -/
def setBeingScratched (s : Processor) (scratching : Bool) : Processor :=
  { s with isBeingScratched := scratching }

/-- `setRotationDirect`. -/
def setRotationDirect (s : Processor) (angle : ℚ) : Processor :=
  { s with currentRotation := angle }

/-! ## The scratch drag of the editor (`PluginEditor.cpp`) -/

/-- The scratching state of `TurntableMIDIEditor` and the turntable centre. -/
structure Editor where
  turntableCenter : ℚ × ℚ
  isScratching : Bool
  lastScratchTime : Int
  lastScratchPos : ℚ × ℚ
  scratchVelocity : ℚ

/-- The scratch branch of `TurntableMIDIEditor::mouseDrag` (the body of
`if (isScratching)`), for a pointer at `position` at clock time `currentTime`.
`distance` stands for `juce::Point<float>::getDistanceFromOrigin`, the Euclidean length,
which is not rational and is a parameter. -/
def mouseDragScratch (distance : ℚ × ℚ → ℚ) (ed : Editor) (s : Processor) (currentTime : Int)
    (position : ℚ × ℚ) : Editor × Processor :=
  let deltaTime : ℚ := ((currentTime - ed.lastScratchTime : Int) : ℚ) / 1000
  if deltaTime > 0 then
    let currentPos := position
    let deltaPos : ℚ × ℚ := (currentPos.1 - ed.lastScratchPos.1, currentPos.2 - ed.lastScratchPos.2)
    let mouseVelocity : ℚ × ℚ := (deltaPos.1 / deltaTime, deltaPos.2 / deltaTime)
    let delta : ℚ × ℚ := (currentPos.1 - ed.turntableCenter.1, currentPos.2 - ed.turntableCenter.2)
    let radius := distance delta
    let moved : Editor × Processor :=
      if radius > 1 then
        let tangent : ℚ × ℚ := (-delta.2, delta.1)
        let tangentLength := distance tangent
        if tangentLength > 1 / 100 then
          let tangent : ℚ × ℚ := (tangent.1 / tangentLength, tangent.2 / tangentLength)
          let tangentialSpeed := mouseVelocity.1 * tangent.1 + mouseVelocity.2 * tangent.2
          let angularVelocityDeg := (tangentialSpeed / radius) * (572958 / 10000)
          let scratchVelocity := -angularVelocityDeg
          let scratchVelocity := jlimit (-720) 720 scratchVelocity
          let deltaAngle := scratchVelocity * deltaTime
          let newRotation := s.currentRotation + deltaAngle
          let newRotation :=
            if newRotation < 0 then newRotation + 360
            else if newRotation ≥ 360 then fmod newRotation 360
            else newRotation
          ({ ed with scratchVelocity := scratchVelocity },
           setScratchVelocity (setRotationDirect s newRotation) scratchVelocity)
        else (ed, s)
      else (ed, s)
    ({ moved.1 with lastScratchPos := currentPos, lastScratchTime := currentTime }, moved.2)
  else (ed, s)

/-! ## Vocabulary of the statements -/

/-- Whether an event is a note-on. -/
def isNoteOn (e : MidiEvent) : Bool :=
  match e.message with
  | MidiMessage.noteOn _ _ _ => true
  | MidiMessage.noteOff _ _ _ => false

/-- Whether an event is a note-off. -/
def isNoteOff (e : MidiEvent) : Bool :=
  match e.message with
  | MidiMessage.noteOn _ _ _ => false
  | MidiMessage.noteOff _ _ _ => true

/-- The dot loop changes only these members of the processor: `b` is `a` up to the pending
notes, the flags, the feedback records, the draw count and the swing counter. -/
def LoopFrame (a b : Processor) : Prop :=
  b = { a with activeNotes := b.activeNotes, triggeredThisRotation := b.triggeredThisRotation,
               recentlyTriggeredDots := b.recentlyTriggeredDots, randomDraws := b.randomDraws,
               swingBeatCounter := b.swingBeatCounter }

/-- The note-off event of a pending note in a block that starts at sample `S`. -/
def noteOffEvent (S : Int) (note : ActiveNote) : MidiEvent :=
  ⟨MidiMessage.noteOff note.channel note.midiNote 0, note.noteOffSample - S⟩

/-- The angle the rotation update reaches before wrapping, when the block advances the
rotation at all. -/
def rawRotationOf (s : Processor) (inp : BlockInput) : Option ℚ :=
  let st := beforeRotation s inp
  match rotationIncrementOf st.proc inp.numSamples (shouldPlayOf s inp) (currentBPMOf s inp) with
  | some increment => some (st.proc.currentRotation + increment)
  | none => none

/-- The rotation update of the block wraps: it takes the angle below 0 or to 360 or above. -/
def blockWraps (s : Processor) (inp : BlockInput) : Bool :=
  match rawRotationOf s inp with
  | some r => decide (r < 0 ∨ r ≥ 360)
  | none => false

/-- The state of the dot loop of the block when it reaches index `i`. -/
def stateAtDot (s : Processor) (inp : BlockInput) (i : Nat) : BlockState :=
  dotLoop inp (currentBPMOf s inp) s.currentRotation 0
    ((beforeDetection s inp).proc.dots.take i) (beforeDetection s inp)

/-- The iteration of the dot loop of the block for the dot `dot` at index `i`. -/
def dotStep (s : Processor) (inp : BlockInput) (i : Nat) (dot : TurntableDot) : BlockState :=
  processDot inp (currentBPMOf s inp) s.currentRotation i dot (stateAtDot s inp i)

/-- The feedback records of dot `i`. -/
def recordsOf (i : Nat) (records : List TriggeredDotInfo) : List TriggeredDotInfo :=
  records.filter (fun r => decide (r.dotIndex = (i : Int)))

/-- No block of the run wraps the rotation. -/
def noWrapRun (s : Processor) : List BlockInput → Prop
  | [] => True
  | inp :: rest => blockWraps s inp = false ∧ noWrapRun (processBlock s inp).1 rest

/-- The events of consecutive blocks of `numSamples` samples, each with its absolute
sample position, the first block starting at sample `start`. -/
def absoluteEvents (numSamples : Int) : Int → List (List MidiEvent) → List (MidiMessage × Int)
  | _, [] => []
  | start, block :: rest =>
    block.map (fun e => (e.message, start + e.samplePosition)) ++
      absoluteEvents numSamples (start + numSamples) rest

/-- The signed rotation of a block from angle `p` to angle `c`, taken the short way round:
`c - p` wrapped as the crossing test wraps it. -/
def wrappedDelta (p c : ℚ) : ℚ :=
  let d := c - p
  if d > 180 then d - 360 else if d < -180 then d + 360 else d

/-- The angle `a` lies on the arc swept from `p` to `c`: it is `p` moved by some `x`
between 0 and the size of the wrapped rotation in the direction of rotation, modulo 360. -/
def onSweptArc (p c a : ℚ) : Prop :=
  ∃ x : ℚ, 0 ≤ x ∧ x ≤ |wrappedDelta p c| ∧
    if wrappedDelta p c > 0 then (a = p + x ∨ a = p + x - 360)
    else (a = p - x ∨ a = p - x + 360)

/-- A generator whose every draw is `0.0`, the smallest value `nextFloat()` can return. -/
def zeroRandom : Nat → ℚ := fun _ => 0

/-- A block of `numSamples` samples in a standalone run: no host position, clock at 0. -/
def standaloneBlock (numSamples : Int) : BlockInput :=
  { numSamples := numSamples, position := none, clock := fun _ => 0 }

/-- The processor `b` is `a` up to the members that depend on chance and on the clock: the
generator, the number of draws and the feedback records. -/
def SameUpToChance (a b : Processor) : Prop :=
  ∃ (random : Nat → ℚ) (draws : Nat) (records : List TriggeredDotInfo),
    b = { a with random := random, randomDraws := draws, recentlyTriggeredDots := records }

/-- Every roll passes the probability gate and no velocity draw is made: probability 100,
no velocity variation, and draws below 1. -/
def Certain (a : Processor) : Prop :=
  a.probability = 100 ∧ a.velocityVariation = 0 ∧ ∀ k, a.random k < 1

/-- The blocks `a` and `b` agree on what the audio path reads: length and host position. -/
def SameBlock (a b : BlockInput) : Prop :=
  b.numSamples = a.numSamples ∧ b.position = a.position

/-- The default processor with the gate time at its minimum of 10 ms. -/
def shortGateProcessor : Processor := { Processor.new zeroRandom with gateTimeMs := 10 }

/-- The default processor reversed at speed 4, the fastest setting of the editor. -/
def fastReverseProcessor : Processor :=
  { Processor.new zeroRandom with isReversed := true, speed := 4 }

/-- A block of 8192 samples from a host playing at 999 BPM. -/
def fastHostBlock : BlockInput :=
  { numSamples := 8192, position := some { bpm := some 999, isPlaying := true },
    clock := fun _ => 0 }

/-- The default processor with probability 0 and every draw 0. -/
def zeroProbabilityProcessor : Processor := { Processor.new zeroRandom with probability := 0 }

/-- The default processor with the flag of the first dot set. -/
def firstFlaggedProcessor : Processor :=
  { Processor.new zeroRandom with triggeredThisRotation := [true, false, false, false] }

/-- The default processor with probability 50 and every draw 0.75. -/
def halfProbabilityProcessor : Processor :=
  { Processor.new (fun _ => 3 / 4) with probability := 50 }

/-- The default processor half a degree before the wrap, every flag set. -/
def nearWrapProcessor : Processor :=
  { Processor.new zeroRandom with
    triggeredThisRotation := [true, true, true, true], currentRotation := 719 / 2 }

/-- The number of note-ons in the events of a run of blocks. -/
def noteOnCount (blocks : List (List MidiEvent)) : Nat :=
  (blocks.map (fun block => (block.filter isNoteOn).length)).sum

/-- The reference definition of the ring-to-note map: inside the ring range the root note,
twelve semitones per base octave, the interval of the ring in the current scale and twelve
semitones per octave of shift; middle C outside. -/
def ringToMidiNoteSpec (s : Processor) (r : Int) : Int :=
  if 0 ≤ r ∧ r < ((getScaleIntervals s.currentScale).length : Int) - 1 then
    s.rootNote + 12 * s.baseOctave + (getScaleIntervals s.currentScale).getD r.toNat 0 +
      12 * s.octaveShift
  else 60

/-- The event lies inside a block of `numSamples` samples. -/
def inBlock (numSamples : Int) (e : MidiEvent) : Prop :=
  0 ≤ e.samplePosition ∧ e.samplePosition ≤ numSamples - 1

/-- The swing delay in samples, added to the last offset of a block of `numSamples` samples,
lies in the range of the 32-bit `int`: neither the conversion of the delay nor the sum with
a trigger sample of the block overflows. -/
def SwingFits (swing currentBPM sampleRate : ℚ) (numSamples : Int) : Prop :=
  numSamples - 1 + truncToInt (60 / currentBPM / 4 * swingDelayRatio swing * sampleRate) ≤
    2147483647

/-- The index of the 16th-note subdivision (32 per rotation, 11.25 degrees each) in which
a rotation angle lies. -/
def sixteenthOf (rotation : ℚ) : Int := ⌊rotation / (360 / 32)⌋

/-- The power of two `2^k` for an integer exponent. -/
def pow2 (k : Int) : ℚ :=
  if 0 ≤ k then ((2 ^ k.toNat : Nat) : ℚ) else 1 / ((2 ^ (-k).toNat : Nat) : ℚ)

/-- The value of an IEEE-754 binary32 bit pattern given as an `int`; infinities and NaNs,
which have no rational value, decode to 0. -/
def binary32Value (n : Int) : ℚ :=
  let m := toUint32 n
  let sign : ℚ := if m / 2147483648 = 1 then -1 else 1
  let e := m / 8388608 % 256
  let f := m % 8388608
  if e = 255 then 0
  else if e = 0 then sign * (f : ℚ) * pow2 (-149)
  else sign * ((8388608 + f : Nat) : ℚ) * pow2 ((e : Int) - 150)

/-- The IEEE-754 binary32 bit pattern of a rational, as an `int`: exact when the rational
is a binary32 value, rounded toward zero otherwise (overflow gives the infinity pattern). -/
def binary32Bits (q : ℚ) : Int :=
  if q = 0 then 0
  else
    let a := |q|
    let signBit : Nat := if q < 0 then 2147483648 else 0
    let k0 : Int := (Nat.log2 a.num.toNat : Int) - (Nat.log2 a.den : Int)
    let k : Int := if pow2 k0 ≤ a then k0 else k0 - 1
    let e : Int := k + 127
    if e ≥ 255 then toInt32 (signBit + 2139095040)
    else if e ≤ 0 then toInt32 (signBit + (truncToInt (a * pow2 149)).toNat)
    else
      toInt32 (signBit + e.toNat * 8388608 + ((truncToInt (a * pow2 (23 - k))).toNat - 8388608))

/-- The IEEE-754 binary32 codec. -/
def binary32 : FloatCodec := { bits := binary32Bits, value := binary32Value }

/-- A processor at full swing with one dot at 12 degrees and the rotation at 11.5 degrees,
so that the first block of 512 samples crosses the dot and ends in subdivision 1. -/
def swungProcessor : Processor :=
  { Processor.new zeroRandom with
    dots := [⟨12, 0, 0xffff6b35, true⟩], triggeredThisRotation := [false], swing := 100,
    currentRotation := (23 / 2 : ℚ) }

/-- The swung processor thrown by hand: released from a scratch at 90 degrees per second. -/
def thrownSwungProcessor : Processor := setScratchVelocity swungProcessor 90

/-- A block of 512 samples from a host that plays at a tempo of 0.0001 BPM. -/
def slowHostBlock : BlockInput :=
  { numSamples := 512, position := some { bpm := some (1 / 10000), isPlaying := true },
    clock := fun _ => 0 }

/-- The default processor after loading a saved state whose velocity field holds 0. -/
def zeroVelocityProcessor : Processor :=
  setStateInformation binary32 (Processor.new zeroRandom)
    (getStateInformation binary32 { Processor.new zeroRandom with globalVelocity := 0 })

/-- The default processor with a velocity variation of 50 percent. -/
def variedProcessor : Processor := { Processor.new zeroRandom with velocityVariation := 50 }

/-- The bytes of a legacy state: the fields written before the parameter block existed
(speed, scale, root note, dot count and dots). -/
def legacyStateInformation (c : FloatCodec) (s : Processor) : List Nat :=
  writeFloat c s.speed ++ writeInt s.currentScale.raw ++ writeInt s.rootNote ++
    writeInt s.dots.length ++ writeDots c s.dots

/-- The default processor after the user set velocity 64, gate time 250 ms, probability 50,
velocity variation 30 and swing 60. -/
def tweakedProcessor : Processor :=
  setSwing (setVelocityVariation (setProbability (setGateTime
    (setGlobalVelocity (Processor.new zeroRandom) 64) 250) 50) 30) 60

/-- The integer fits the 32-bit `int`. -/
def isInt32 (n : Int) : Prop := -2147483648 ≤ n ∧ n < 2147483648

instance isInt32.decidable (n : Int) : Decidable (isInt32 n) := by
  unfold isInt32
  infer_instance

/-- The rational is a float of the codec: writing and reading its bit pattern gives it
back. -/
def Representable (c : FloatCodec) (q : ℚ) : Prop :=
  isInt32 (c.bits q) ∧ c.value (c.bits q) = q

/-- The dot holds values of its C++ types: a float angle, an `int` ring index and a 32-bit
colour. -/
def StorableDot (c : FloatCodec) (dot : TurntableDot) : Prop :=
  Representable c dot.angle ∧ isInt32 dot.ringIndex ∧ dot.color < 4294967296

/-- The persisted members of the processor hold values of their C++ types. -/
def Storable (c : FloatCodec) (s : Processor) : Prop :=
  Representable c s.speed ∧ isInt32 s.currentScale.raw ∧ isInt32 s.rootNote ∧
  (s.dots.length : Int) < 2147483648 ∧ (∀ dot ∈ s.dots, StorableDot c dot) ∧
  isInt32 s.globalVelocity ∧ Representable c s.gateTimeMs ∧ Representable c s.probability ∧
  Representable c s.velocityVariation ∧ Representable c s.swing

/-- The tempo-driven advance of a block in degrees, as a closed formula:
`360 * (BPM / 60 / 8) * speed * sign * multiplier * N / sampleRate`, with the multiplier
after the ramp step of the block. -/
def tempoAdvance (s : Processor) (inp : BlockInput) : ℚ :=
  360 * (currentBPMOf s inp / 60 / 8) * s.speed * (if s.isReversed then -1 else 1) *
    rampSpeedMultiplier s inp.numSamples * inp.numSamples / s.sampleRate

/-- The signed angle the rotation update of the block adds to `currentRotation` before
wrapping, 0 when the block does not advance the rotation. -/
def blockAdvance (s : Processor) (inp : BlockInput) : ℚ :=
  match rotationIncrementOf (beforeRotation s inp).proc inp.numSamples (shouldPlayOf s inp)
    (currentBPMOf s inp) with
  | some increment => increment
  | none => 0

/-- The total signed angle added to `currentRotation` over a run of blocks. -/
def runAdvance (s : Processor) : List BlockInput → ℚ
  | [] => 0
  | inp :: rest => blockAdvance s inp + runAdvance (processBlock s inp).1 rest

/-- The motor runs at full speed with nothing else moving the disc: not scratched, no
scratch velocity, motor on and the ramp multiplier at 1. -/
def FullSpeed (s : Processor) : Prop :=
  s.isBeingScratched = false ∧ s.scratchVelocity = 0 ∧ s.motorRunning = true ∧
    s.currentSpeedMultiplier = 1

/-- The note-on the preview drain emits for a queued preview. -/
def previewNoteOn (p : PreviewNote) : MidiEvent :=
  ⟨MidiMessage.noteOn 1 p.midiNote 100, 0⟩

/-- The default processor at rest (motor off, multiplier 0, transport stopped) after a
click on ring 0 queued a preview note. -/
def restingPreviewProcessor : Processor :=
  triggerPreviewNote
    { Processor.new zeroRandom with motorRunning := false, currentSpeedMultiplier := 0 } 0

/-- The default processor, playing standalone, while the pointer holds the disc. -/
def heldProcessor : Processor :=
  setBeingScratched { Processor.new zeroRandom with isPlayingStandalone := true } true

/-- The calls `triggerPreviewNote (r_1)`, ..., `triggerPreviewNote (r_k)` made one after the
other. -/
def triggerPreviewNotes (s : Processor) (rings : List Int) : Processor :=
  rings.foldl triggerPreviewNote s

/-- The time in seconds between the previous drag event of the scratch and the one at clock
time `currentTime`. -/
def scratchDeltaTime (ed : Editor) (currentTime : Int) : ℚ :=
  ((currentTime - ed.lastScratchTime : Int) : ℚ) / 1000

/-- The distance of the pointer from the centre of the turntable. -/
def scratchRadius (distance : ℚ × ℚ → ℚ) (ed : Editor) (position : ℚ × ℚ) : ℚ :=
  distance (position.1 - ed.turntableCenter.1, position.2 - ed.turntableCenter.2)

/-- The speed of the pointer along the unit tangent of the circle through it, in pixels per
second. -/
def tangentialSpeedOf (distance : ℚ × ℚ → ℚ) (ed : Editor) (currentTime : Int)
    (position : ℚ × ℚ) : ℚ :=
  let dx := position.1 - ed.turntableCenter.1
  let dy := position.2 - ed.turntableCenter.2
  (position.1 - ed.lastScratchPos.1) / scratchDeltaTime ed currentTime *
      (-dy / distance (-dy, dx)) +
    (position.2 - ed.lastScratchPos.2) / scratchDeltaTime ed currentTime *
      (dx / distance (-dy, dx))

/-- The angular velocity of the drag before clamping, in degrees per second:
`-(tangentialSpeed / radius) * 57.2958`. -/
def unclampedScratchVelocity (distance : ℚ × ℚ → ℚ) (ed : Editor) (currentTime : Int)
    (position : ℚ × ℚ) : ℚ :=
  -(tangentialSpeedOf distance ed currentTime position / scratchRadius distance ed position) *
    (572958 / 10000)

/-- A length on the plane that is invariant under quarter turns and is the Euclidean length
on the two axes. -/
def axisDistance (p : ℚ × ℚ) : ℚ := |p.1| + |p.2|

/-- An editor in a scratch that started at the pointer position (100, -10) at time 0, the
turntable centred at the origin. -/
def scratchingEditor : Editor :=
  { turntableCenter := (0, 0), isScratching := true, lastScratchTime := 0,
    lastScratchPos := (100, -10), scratchVelocity := 0 }

/-- The share of the scratch velocity that a block of `N` samples takes away:
`0.4 / sampleRate * N`. -/
def velocityReductionOf (s : Processor) (N : Int) : ℚ := 4 / 10 / s.sampleRate * N

/-- The scratch velocity is either at rest or large enough for the friction to act on it. -/
def Decaying (v : ℚ) : Prop := v = 0 ∨ 1 / 100 < |v|

/-- The default processor with a fifth dot at 0.6 degrees on ring 1. -/
def lateDotProcessor : Processor := addDot (Processor.new zeroRandom) (3 / 5) 1 0xffff6b35

/-- The default processor turned by hand to 358.6 degrees (`setRotationDirect`), every flag
clear as the constructor leaves them. -/
def nearEndProcessor : Processor := setRotationDirect (Processor.new zeroRandom) (3586 / 10)

/-- The loop iteration of the dot `dot` at index `i` fires in the block: it appends one
note-on on channel 1 for the note of the ring of the dot, that note-on is among the events
of the block, and the iteration leaves as last feedback record one for this dot with
`wasTriggered = true` and the emitted velocity. -/
def DotFires (s : Processor) (inp : BlockInput) (i : Nat) (dot : TurntableDot) : Prop :=
  ∃ (finalVelocity sample : Int) (r : TriggeredDotInfo),
    (dotStep s inp i dot).midi = (stateAtDot s inp i).midi ++
      [⟨MidiMessage.noteOn 1 (ringToMidiNote s dot.ringIndex) (toUint8 finalVelocity),
        sample⟩] ∧
    (⟨MidiMessage.noteOn 1 (ringToMidiNote s dot.ringIndex) (toUint8 finalVelocity),
        sample⟩ : MidiEvent) ∈ (processBlock s inp).2 ∧
    (dotStep s inp i dot).proc.recentlyTriggeredDots.getLast? = some r ∧
    r.dotIndex = (i : Int) ∧ r.wasTriggered = true ∧ r.velocity = finalVelocity

/-! ## Lemmas on the note-off scan and the dot loop -/

theorem scanActiveNotes_events (S N : Int) (notes : List ActiveNote) :
    (scanActiveNotes S N notes).1 =
      (notes.filter (fun n => decide (S ≤ n.noteOffSample ∧ n.noteOffSample < S + N))).map
        (noteOffEvent S) := by
  induction notes with
  | nil => rfl
  | cons n rest ih =>
    simp only [scanActiveNotes, List.filter_cons]
    by_cases h1 : n.noteOffSample - S < N ∧ n.noteOffSample - S ≥ 0
    · have h2 : decide (S ≤ n.noteOffSample ∧ n.noteOffSample < S + N) = true :=
        decide_eq_true (by omega)
      rw [if_pos h1, if_pos h2]
      simp [ih, noteOffEvent, toUint8]
    · have h2 : ¬ decide (S ≤ n.noteOffSample ∧ n.noteOffSample < S + N) = true := by
        rw [decide_eq_true_iff]; omega
      rw [if_neg h1, if_neg h2]
      by_cases h3 : n.noteOffSample - S ≥ N
      · rw [if_pos h3]; exact ih
      · rw [if_neg h3]; exact ih

theorem scanActiveNotes_kept (S N : Int) (notes : List ActiveNote) :
    (scanActiveNotes S N notes).2 =
      notes.filter (fun n => decide (S + N ≤ n.noteOffSample)) := by
  induction notes with
  | nil => rfl
  | cons n rest ih =>
    simp only [scanActiveNotes, List.filter_cons]
    by_cases h1 : n.noteOffSample - S < N ∧ n.noteOffSample - S ≥ 0
    · have h2 : ¬ decide (S + N ≤ n.noteOffSample) = true := by
        rw [decide_eq_true_iff]; omega
      rw [if_pos h1, if_neg h2]
      exact ih
    · rw [if_neg h1]
      by_cases h3 : n.noteOffSample - S ≥ N
      · have h2 : decide (S + N ≤ n.noteOffSample) = true := decide_eq_true (by omega)
        rw [if_pos h3, if_pos h2]
        simp [ih]
      · have h2 : ¬ decide (S + N ≤ n.noteOffSample) = true := by
          rw [decide_eq_true_iff]; omega
        rw [if_neg h3, if_neg h2]
        exact ih

theorem LoopFrame.same (a : Processor) : LoopFrame a a := rfl

theorem LoopFrame.chain {a b c : Processor} (h1 : LoopFrame a b) (h2 : LoopFrame b c) :
    LoopFrame a c := by
  unfold LoopFrame at *
  rw [h2, h1]

theorem processDot_cases (inp : BlockInput) (bpm prev : ℚ) (i : Nat) (dot : TurntableDot)
    (st : BlockState) :
    processDot inp bpm prev i dot st = st ∨
    processDot inp bpm prev i dot st = missDot inp i st ∨
    processDot inp bpm prev i dot st = fireDot inp bpm prev i dot st := by
  unfold processDot
  simp only []
  split_ifs <;> simp

theorem missDot_frame (inp : BlockInput) (i : Nat) (st : BlockState) :
    LoopFrame st.proc (missDot inp i st).proc := rfl

theorem fireDot_frame (inp : BlockInput) (bpm prev : ℚ) (i : Nat) (dot : TurntableDot)
    (st : BlockState) : LoopFrame st.proc (fireDot inp bpm prev i dot st).proc := rfl

theorem processDot_frame (inp : BlockInput) (bpm prev : ℚ) (i : Nat) (dot : TurntableDot)
    (st : BlockState) : LoopFrame st.proc (processDot inp bpm prev i dot st).proc := by
  rcases processDot_cases inp bpm prev i dot st with h | h | h <;> rw [h]
  · exact LoopFrame.same _
  · exact missDot_frame inp i st
  · exact fireDot_frame inp bpm prev i dot st

theorem dotLoop_frame (inp : BlockInput) (bpm prev : ℚ) (dots : List TurntableDot) :
    ∀ (i : Nat) (st : BlockState), LoopFrame st.proc (dotLoop inp bpm prev i dots st).proc := by
  induction dots with
  | nil => intro i st; exact LoopFrame.same _
  | cons d ds ih =>
    intro i st
    exact LoopFrame.chain (processDot_frame inp bpm prev i d st) (ih (i + 1) _)

theorem LoopFrame.dots_same {a b : Processor} (h : LoopFrame a b) : b.dots = a.dots := by
  rw [h]
theorem LoopFrame.rotation_same {a b : Processor} (h : LoopFrame a b) :
    b.currentRotation = a.currentRotation := by
  rw [h]
theorem LoopFrame.note_same {a b : Processor} (h : LoopFrame a b) (r : Int) :
    ringToMidiNote b r = ringToMidiNote a r := by
  rw [h]; rfl

/-! ### Flags -/

theorem getD_set_of_true (l : List Bool) (i j : Nat) (h : l.getD j false = true) :
    (l.set i true).getD j false = true := by
  simp only [List.getD_eq_getElem?_getD, List.getElem?_set] at *
  split_ifs with h1 h2
  · simp
  · subst h1
    rw [List.getElem?_eq_none (by omega)] at h
    simp at h
  · exact h

theorem getD_set_ne (l : List Bool) (i j : Nat) (h : j ≠ i) :
    (l.set i true).getD j false = l.getD j false := by
  simp only [List.getD_eq_getElem?_getD, List.getElem?_set]
  rw [if_neg (fun e => h e.symm)]

theorem getD_set_self (l : List Bool) (i : Nat) (h : i < l.length) :
    (l.set i true).getD i false = true := by
  simp [List.getD_eq_getElem?_getD, List.getElem?_set, h]

theorem processDot_of_flagged (inp : BlockInput) (bpm prev : ℚ) (i : Nat) (dot : TurntableDot)
    (st : BlockState) (h : st.proc.triggeredThisRotation.getD i false = true) :
    processDot inp bpm prev i dot st = st := by
  unfold processDot
  simp only [h]
  split_ifs <;> simp_all

theorem processDot_flag_mono (inp : BlockInput) (bpm prev : ℚ) (i : Nat) (dot : TurntableDot)
    (st : BlockState) (j : Nat) (h : st.proc.triggeredThisRotation.getD j false = true) :
    (processDot inp bpm prev i dot st).proc.triggeredThisRotation.getD j false = true := by
  rcases processDot_cases inp bpm prev i dot st with e | e | e <;> rw [e]
  · exact h
  · exact getD_set_of_true _ _ _ h
  · exact getD_set_of_true _ _ _ h

theorem processDot_flag_ne (inp : BlockInput) (bpm prev : ℚ) (i : Nat) (dot : TurntableDot)
    (st : BlockState) (j : Nat) (h : j ≠ i) :
    (processDot inp bpm prev i dot st).proc.triggeredThisRotation.getD j false =
      st.proc.triggeredThisRotation.getD j false := by
  rcases processDot_cases inp bpm prev i dot st with e | e | e <;> rw [e]
  · exact getD_set_ne _ _ _ h
  · exact getD_set_ne _ _ _ h

theorem processDot_flags_length (inp : BlockInput) (bpm prev : ℚ) (i : Nat)
    (dot : TurntableDot) (st : BlockState) :
    (processDot inp bpm prev i dot st).proc.triggeredThisRotation.length =
      st.proc.triggeredThisRotation.length := by
  rcases processDot_cases inp bpm prev i dot st with e | e | e <;> rw [e]
  · simp [missDot]
  · simp [fireDot]

theorem dotLoop_flag_mono (inp : BlockInput) (bpm prev : ℚ) (dots : List TurntableDot)
    (j : Nat) : ∀ (i : Nat) (st : BlockState),
    st.proc.triggeredThisRotation.getD j false = true →
    (dotLoop inp bpm prev i dots st).proc.triggeredThisRotation.getD j false = true := by
  induction dots with
  | nil => intro i st h; exact h
  | cons d ds ih =>
    intro i st h
    exact ih (i + 1) _ (processDot_flag_mono inp bpm prev i d st j h)

theorem dotLoop_flag_before (inp : BlockInput) (bpm prev : ℚ) (dots : List TurntableDot)
    (j : Nat) : ∀ (i : Nat) (st : BlockState), j < i →
    (dotLoop inp bpm prev i dots st).proc.triggeredThisRotation.getD j false =
      st.proc.triggeredThisRotation.getD j false := by
  induction dots with
  | nil => intro i st _; rfl
  | cons d ds ih =>
    intro i st h
    show (dotLoop inp bpm prev (i + 1) ds _).proc.triggeredThisRotation.getD j false = _
    rw [ih (i + 1) _ (by omega), processDot_flag_ne inp bpm prev i d st j (by omega)]

theorem dotLoop_flag_after (inp : BlockInput) (bpm prev : ℚ) (dots : List TurntableDot)
    (j : Nat) : ∀ (i : Nat) (st : BlockState), i + dots.length ≤ j →
    (dotLoop inp bpm prev i dots st).proc.triggeredThisRotation.getD j false =
      st.proc.triggeredThisRotation.getD j false := by
  induction dots with
  | nil => intro i st _; rfl
  | cons d ds ih =>
    intro i st h
    simp only [List.length_cons] at h
    show (dotLoop inp bpm prev (i + 1) ds _).proc.triggeredThisRotation.getD j false = _
    rw [ih (i + 1) _ (by omega), processDot_flag_ne inp bpm prev i d st j (by omega)]

theorem dotLoop_flags_length (inp : BlockInput) (bpm prev : ℚ) (dots : List TurntableDot) :
    ∀ (i : Nat) (st : BlockState),
    (dotLoop inp bpm prev i dots st).proc.triggeredThisRotation.length =
      st.proc.triggeredThisRotation.length := by
  induction dots with
  | nil => intro i st; rfl
  | cons d ds ih =>
    intro i st
    show (dotLoop inp bpm prev (i + 1) ds _).proc.triggeredThisRotation.length = _
    rw [ih, processDot_flags_length]

theorem dotLoop_append (inp : BlockInput) (bpm prev : ℚ) (a b : List TurntableDot) :
    ∀ (i : Nat) (st : BlockState),
    dotLoop inp bpm prev i (a ++ b) st =
      dotLoop inp bpm prev (i + a.length) b (dotLoop inp bpm prev i a st) := by
  induction a with
  | nil => intro i st; rfl
  | cons d ds ih =>
    intro i st
    show dotLoop inp bpm prev (i + 1) (ds ++ b) _ = _
    rw [ih]
    simp only [List.length_cons]
    rw [show i + 1 + ds.length = i + (ds.length + 1) by omega]
    rfl

/-! ### Events and pending notes -/

theorem processDot_midi (inp : BlockInput) (bpm prev : ℚ) (i : Nat) (dot : TurntableDot)
    (st : BlockState) :
    ∃ ev ns, (processDot inp bpm prev i dot st).midi = st.midi ++ ev ∧
      (∀ e ∈ ev, isNoteOn e = true) ∧
      (processDot inp bpm prev i dot st).proc.activeNotes = st.proc.activeNotes ++ ns ∧
      ns.length = ev.length := by
  rcases processDot_cases inp bpm prev i dot st with e | e | e <;> rw [e]
  · exact ⟨[], [], by simp, by simp, by simp, rfl⟩
  · exact ⟨[], [], by simp [missDot], by simp, by simp [missDot], rfl⟩
  · exact ⟨_, _, rfl, by simp [isNoteOn], rfl, rfl⟩

theorem dotLoop_midi (inp : BlockInput) (bpm prev : ℚ) (dots : List TurntableDot) :
    ∀ (i : Nat) (st : BlockState),
    ∃ ev ns, (dotLoop inp bpm prev i dots st).midi = st.midi ++ ev ∧
      (∀ e ∈ ev, isNoteOn e = true) ∧
      (dotLoop inp bpm prev i dots st).proc.activeNotes = st.proc.activeNotes ++ ns ∧
      ns.length = ev.length := by
  induction dots with
  | nil => intro i st; exact ⟨[], [], by simp [dotLoop], by simp, by simp [dotLoop], rfl⟩
  | cons d ds ih =>
    intro i st
    obtain ⟨ev1, ns1, h1, a1, n1, l1⟩ := processDot_midi inp bpm prev i d st
    obtain ⟨ev2, ns2, h2, a2, n2, l2⟩ := ih (i + 1) (processDot inp bpm prev i d st)
    refine ⟨ev1 ++ ev2, ns1 ++ ns2, ?_, ?_, ?_, ?_⟩
    · show (dotLoop inp bpm prev (i + 1) ds _).midi = _
      rw [h2, h1, List.append_assoc]
    · intro e he
      rcases List.mem_append.1 he with h | h
      · exact a1 e h
      · exact a2 e h
    · show (dotLoop inp bpm prev (i + 1) ds _).proc.activeNotes = _
      rw [n2, n1, List.append_assoc]
    · simp [l1, l2]

theorem drainPreviewNotes_noteOn (S : Int) (sr : ℚ) (l : List PreviewNote) :
    (∀ e ∈ (drainPreviewNotes S sr l).1, isNoteOn e = true) ∧
    (drainPreviewNotes S sr l).2.length = (drainPreviewNotes S sr l).1.length := by
  induction l with
  | nil => simp [drainPreviewNotes]
  | cons p rest ih =>
    simp only [drainPreviewNotes, List.mem_cons, List.length_cons]
    refine ⟨?_, by rw [ih.2]⟩
    intro e he
    rcases he with h | h
    · rw [h]; rfl
    · exact ih.1 e h

theorem scanActiveNotes_noteOff (S N : Int) (notes : List ActiveNote) :
    ∀ e ∈ (scanActiveNotes S N notes).1, isNoteOff e = true := by
  rw [scanActiveNotes_events]
  intro e he
  obtain ⟨n, _, rfl⟩ := List.mem_map.1 he
  rfl

theorem isNoteOff_eq_not_isNoteOn (e : MidiEvent) : isNoteOff e = !isNoteOn e := by
  unfold isNoteOff isNoteOn
  cases e.message <;> rfl

theorem beforeDetection_flags (s : Processor) (inp : BlockInput) :
    (beforeDetection s inp).proc.triggeredThisRotation =
      if blockWraps s inp = true then List.replicate s.triggeredThisRotation.length false
      else s.triggeredThisRotation := by
  unfold beforeDetection advanceRotation blockWraps rawRotationOf
  simp only []
  by_cases hnone : rotationIncrementOf (beforeRotation s inp).proc inp.numSamples
      (shouldPlayOf s inp) (currentBPMOf s inp) = none
  · simp only [hnone]
    simp [beforeRotation]
  · obtain ⟨inc, h⟩ := Option.ne_none_iff_exists'.1 hnone
    have hr : (beforeRotation s inp).proc.currentRotation = s.currentRotation := rfl
    have hf : (beforeRotation s inp).proc.triggeredThisRotation = s.triggeredThisRotation := rfl
    simp only [h, wrapRotation, hr, hf]
    by_cases h1 : s.currentRotation + inc < 0
    · simp [h1]
    · by_cases h2 : s.currentRotation + inc ≥ 360
      · simp [h1, h2]
      · simp [h1, h2]

theorem beforeDetection_dots (s : Processor) (inp : BlockInput) :
    (beforeDetection s inp).proc.dots = s.dots := rfl

theorem beforeDetection_midi (s : Processor) (inp : BlockInput) :
    (beforeDetection s inp).midi =
      (scanActiveNotes s.totalSamplesProcessed inp.numSamples s.activeNotes).1 ++
      (drainPreviewNotes s.totalSamplesProcessed s.sampleRate s.previewNotesToSend).1 := rfl

theorem beforeDetection_activeNotes (s : Processor) (inp : BlockInput) :
    (beforeDetection s inp).proc.activeNotes =
      (scanActiveNotes s.totalSamplesProcessed inp.numSamples s.activeNotes).2 ++
      (drainPreviewNotes s.totalSamplesProcessed s.sampleRate s.previewNotesToSend).2 := rfl

theorem afterDetection_midi (s : Processor) (inp : BlockInput) :
    ∃ ev ns, (afterDetection s inp).midi = (beforeDetection s inp).midi ++ ev ∧
      (∀ e ∈ ev, isNoteOn e = true) ∧
      (afterDetection s inp).proc.activeNotes = (beforeDetection s inp).proc.activeNotes ++ ns ∧
      ns.length = ev.length := by
  unfold afterDetection
  simp only []
  split_ifs with h
  · exact dotLoop_midi inp _ _ _ 0 _
  · exact ⟨[], [], by simp, by simp, by simp, rfl⟩

theorem afterDetection_split (s : Processor) (inp : BlockInput) (i : Nat) (dot : TurntableDot)
    (hdot : s.dots[i]? = some dot)
    (hmove : s.currentRotation ≠ (beforeDetection s inp).proc.currentRotation) :
    afterDetection s inp =
      dotLoop inp (currentBPMOf s inp) s.currentRotation (i + 1) (s.dots.drop (i + 1))
        (dotStep s inp i dot) := by
  have hi : i < s.dots.length := by
    rcases Nat.lt_or_ge i s.dots.length with h | h
    · exact h
    · rw [List.getElem?_eq_none h] at hdot; cases hdot
  have hsplit : s.dots = s.dots.take i ++ dot :: s.dots.drop (i + 1) := by
    have h1 : s.dots[i] = dot := by
      rw [List.getElem?_eq_getElem hi] at hdot
      exact Option.some.inj hdot
    rw [← h1, List.getElem_cons_drop _ _ hi, List.take_append_drop]
  unfold afterDetection dotStep stateAtDot
  simp only [beforeDetection_dots]
  rw [if_pos hmove]
  conv_lhs => rw [hsplit]
  rw [dotLoop_append]
  simp only [List.length_take, Nat.zero_add, Nat.min_eq_left (Nat.le_of_lt hi)]
  rfl

theorem stateAtDot_flag (s : Processor) (inp : BlockInput) (i : Nat) :
    (stateAtDot s inp i).proc.triggeredThisRotation.getD i false =
      (beforeDetection s inp).proc.triggeredThisRotation.getD i false := by
  unfold stateAtDot
  apply dotLoop_flag_after
  simp only [List.length_take, Nat.zero_add]
  exact Nat.min_le_left _ _

theorem afterDetection_flag_mono (s : Processor) (inp : BlockInput) (j : Nat)
    (h : (beforeDetection s inp).proc.triggeredThisRotation.getD j false = true) :
    (afterDetection s inp).proc.triggeredThisRotation.getD j false = true := by
  unfold afterDetection
  simp only []
  split_ifs
  · exact dotLoop_flag_mono _ _ _ _ _ _ _ h
  · exact h

theorem processBlock_flags (s : Processor) (inp : BlockInput) :
    (processBlock s inp).1.triggeredThisRotation =
      (afterDetection s inp).proc.triggeredThisRotation := rfl

/-! ### Feedback records -/

theorem eraseOld_sublist (t : Int) (l : List TriggeredDotInfo) : (eraseOld t l).Sublist l :=
  List.filter_sublist l

theorem recordsOf_push_other (i j : Nat) (hij : j ≠ i) (t : Int) (l : List TriggeredDotInfo)
    (r : TriggeredDotInfo) (hr : r.dotIndex = (j : Int)) :
    (recordsOf i (eraseOld t (l ++ [r]))).Sublist (recordsOf i l) := by
  have h1 : recordsOf i (l ++ [r]) = recordsOf i l := by
    unfold recordsOf
    rw [List.filter_append]
    have : ¬ ((j : Int) = (i : Int)) := by omega
    simp [hr, this]
  rw [← h1]
  exact (eraseOld_sublist t _).filter _

theorem processDot_records (inp : BlockInput) (bpm prev : ℚ) (i j : Nat) (dot : TurntableDot)
    (st : BlockState) (h : st.proc.triggeredThisRotation.getD i false = true) :
    (recordsOf i (processDot inp bpm prev j dot st).proc.recentlyTriggeredDots).Sublist
      (recordsOf i st.proc.recentlyTriggeredDots) := by
  by_cases hij : j = i
  · subst hij
    rw [processDot_of_flagged inp bpm prev j dot st h]
  · rcases processDot_cases inp bpm prev j dot st with e | e | e <;> rw [e]
    · exact recordsOf_push_other i j hij _ _ _ rfl
    · exact recordsOf_push_other i j hij _ _ _ rfl

theorem dotLoop_records (inp : BlockInput) (bpm prev : ℚ) (i : Nat)
    (dots : List TurntableDot) : ∀ (j : Nat) (st : BlockState),
    st.proc.triggeredThisRotation.getD i false = true →
    (recordsOf i (dotLoop inp bpm prev j dots st).proc.recentlyTriggeredDots).Sublist
      (recordsOf i st.proc.recentlyTriggeredDots) := by
  induction dots with
  | nil => intro j st _; exact List.Sublist.refl _
  | cons d ds ih =>
    intro j st h
    exact (ih (j + 1) _ (processDot_flag_mono inp bpm prev j d st i h)).trans
      (processDot_records inp bpm prev i j d st h)

/-! ### A flagged dot in a run without wrap -/

theorem flagged_block (s : Processor) (inp : BlockInput) (i : Nat)
    (hflag : s.triggeredThisRotation.getD i false = true)
    (hnowrap : blockWraps s inp = false) :
    (∀ dot, dotStep s inp i dot = stateAtDot s inp i) ∧
    (recordsOf i (processBlock s inp).1.recentlyTriggeredDots).Sublist
      (recordsOf i s.recentlyTriggeredDots) ∧
    (processBlock s inp).1.triggeredThisRotation.getD i false = true := by
  have hb : (beforeDetection s inp).proc.triggeredThisRotation.getD i false = true := by
    rw [beforeDetection_flags, hnowrap]
    simpa using hflag
  refine ⟨?_, ?_, ?_⟩
  · intro dot
    unfold dotStep
    apply processDot_of_flagged
    rw [stateAtDot_flag]
    exact hb
  · show (recordsOf i (afterDetection s inp).proc.recentlyTriggeredDots).Sublist _
    unfold afterDetection
    simp only []
    split_ifs
    · exact dotLoop_records _ _ _ _ _ _ _ hb
    · exact List.Sublist.refl _
  · rw [processBlock_flags]
    exact afterDetection_flag_mono s inp i hb

theorem flagged_run (i : Nat) (pre : List BlockInput) : ∀ (s : Processor) (rest : List BlockInput),
    s.triggeredThisRotation.getD i false = true → noWrapRun s (pre ++ rest) →
    (runBlocks s pre).1.triggeredThisRotation.getD i false = true ∧
    noWrapRun (runBlocks s pre).1 rest := by
  induction pre with
  | nil => intro s rest h hr; exact ⟨h, hr⟩
  | cons inp pre ih =>
    intro s rest h hr
    obtain ⟨hw, hr'⟩ := hr
    exact ih _ rest (flagged_block s inp i h hw).2.2 hr'

/-! ### The crossing test -/

theorem crossed_forward (p c a : ℚ) (hd : wrappedDelta p c > 0)
    (hm : 1 / 1000 ≤ |wrappedDelta p c|) :
    crossed p c a = decide ((if a - p < 0 then a - p + 360 else a - p) ≤ wrappedDelta p c + 1 / 2
      ∧ (if a - p < 0 then a - p + 360 else a - p) ≥ -(1 / 2)) := by
  unfold crossed
  simp only [wrappedDelta] at hd hm ⊢
  rw [if_neg (not_lt.2 hm), if_pos hd]
  simp only [and_comm]
  
theorem crossed_backward (p c a : ℚ) (hd : wrappedDelta p c < 0)
    (hm : 1 / 1000 ≤ |wrappedDelta p c|) :
    crossed p c a = decide ((if p - a < 0 then p - a + 360 else p - a) ≤ -wrappedDelta p c + 1 / 2
      ∧ (if p - a < 0 then p - a + 360 else p - a) ≥ -(1 / 2)) := by
  unfold crossed
  simp only [wrappedDelta] at hd hm ⊢
  rw [if_neg (not_lt.2 hm), if_neg (not_lt.2 hd.le), if_pos hd]
  simp only [and_comm]

theorem wrappedDelta_swap (p c : ℚ) : wrappedDelta c p = -wrappedDelta p c := by
  unfold wrappedDelta
  simp only []
  split_ifs <;> linarith


/-! ### The iteration of one dot inside the block -/

theorem stateAtDot_frame (s : Processor) (inp : BlockInput) (i : Nat) :
    LoopFrame (beforeDetection s inp).proc (stateAtDot s inp i).proc :=
  dotLoop_frame _ _ _ _ _ _

theorem stateAtDot_currentRotation (s : Processor) (inp : BlockInput) (i : Nat) :
    (stateAtDot s inp i).proc.currentRotation = (beforeDetection s inp).proc.currentRotation :=
  (stateAtDot_frame s inp i).rotation_same

theorem stateAtDot_probability (s : Processor) (inp : BlockInput) (i : Nat) :
    (stateAtDot s inp i).proc.probability = s.probability := by
  rw [stateAtDot_frame s inp i]; rfl

theorem stateAtDot_random (s : Processor) (inp : BlockInput) (i : Nat) :
    (stateAtDot s inp i).proc.random = s.random := by
  rw [stateAtDot_frame s inp i]; rfl

theorem stateAtDot_ringToMidiNote (s : Processor) (inp : BlockInput) (i : Nat) (r : Int) :
    ringToMidiNote (stateAtDot s inp i).proc r = ringToMidiNote s r := by
  rw [(stateAtDot_frame s inp i).note_same]; rfl

theorem stateAtDot_gateTimeMs (s : Processor) (inp : BlockInput) (i : Nat) :
    (stateAtDot s inp i).proc.gateTimeMs = s.gateTimeMs := by
  rw [stateAtDot_frame s inp i]; rfl

/-- The iteration of an active, crossed, unflagged dot is the firing branch when the roll
passes the probability gate and the miss branch when it does not. -/
theorem dotStep_of_crossed (s : Processor) (inp : BlockInput) (i : Nat) (dot : TurntableDot)
    (hactive : dot.active = true)
    (hcross : crossed s.currentRotation (beforeDetection s inp).proc.currentRotation
      dot.angle = true)
    (hflag : (beforeDetection s inp).proc.triggeredThisRotation.getD i false = false) :
    dotStep s inp i dot =
      if (stateAtDot s inp i).proc.random (stateAtDot s inp i).proc.randomDraws * 100 ≤
          s.probability then
        fireDot inp (currentBPMOf s inp) s.currentRotation i dot (stateAtDot s inp i)
      else missDot inp i (stateAtDot s inp i) := by
  unfold dotStep processDot
  simp only [stateAtDot_currentRotation, stateAtDot_flag, stateAtDot_probability, hactive,
    hcross, hflag]
  split_ifs <;> simp_all

theorem crossed_moves (p c a : ℚ) (h : crossed p c a = true) : p ≠ c := by
  intro e
  subst e
  unfold crossed at h
  norm_num at h

theorem eraseOld_push (t : Int) (l : List TriggeredDotInfo) (r : TriggeredDotInfo)
    (hr : r.timestamp = t) : eraseOld t (l ++ [r]) = eraseOld t l ++ [r] := by
  unfold eraseOld
  rw [List.filter_append]
  simp [hr]

theorem processBlock_mem_of_dotStep (s : Processor) (inp : BlockInput) (i : Nat)
    (dot : TurntableDot) (hdot : s.dots[i]? = some dot)
    (hmove : s.currentRotation ≠ (beforeDetection s inp).proc.currentRotation)
    (e : MidiEvent) (he : e ∈ (dotStep s inp i dot).midi) : e ∈ (processBlock s inp).2 := by
  show e ∈ (afterDetection s inp).midi
  rw [afterDetection_split s inp i dot hdot hmove]
  obtain ⟨ev, _, h, _⟩ := dotLoop_midi inp (currentBPMOf s inp) s.currentRotation
    (s.dots.drop (i + 1)) (i + 1) (dotStep s inp i dot)
  rw [h]
  exact List.mem_append_left _ he

theorem processBlock_flag_of_dotStep (s : Processor) (inp : BlockInput) (i : Nat)
    (dot : TurntableDot) (hdot : s.dots[i]? = some dot)
    (hmove : s.currentRotation ≠ (beforeDetection s inp).proc.currentRotation) (j : Nat)
    (h : (dotStep s inp i dot).proc.triggeredThisRotation.getD j false = true) :
    (processBlock s inp).1.triggeredThisRotation.getD j false = true := by
  rw [processBlock_flags, afterDetection_split s inp i dot hdot hmove]
  exact dotLoop_flag_mono _ _ _ _ _ _ _ h

theorem stateAtDot_flags_length (s : Processor) (inp : BlockInput) (i : Nat) :
    (stateAtDot s inp i).proc.triggeredThisRotation.length = s.triggeredThisRotation.length := by
  unfold stateAtDot
  rw [dotLoop_flags_length, beforeDetection_flags]
  split_ifs <;> simp

theorem fireDot_shape (inp : BlockInput) (bpm prev : ℚ) (i : Nat) (dot : TurntableDot)
    (st : BlockState) :
    ∃ (finalVelocity sample : Int) (r : TriggeredDotInfo),
      (fireDot inp bpm prev i dot st).midi = st.midi ++
        [⟨MidiMessage.noteOn 1 (ringToMidiNote st.proc dot.ringIndex) (toUint8 finalVelocity),
          sample⟩] ∧
      (fireDot inp bpm prev i dot st).proc.recentlyTriggeredDots.getLast? = some r ∧
      r.dotIndex = (i : Int) ∧ r.wasTriggered = true ∧ r.velocity = finalVelocity ∧
      r.gateTimeMs = st.proc.gateTimeMs := by
  refine ⟨if st.proc.velocityVariation > 0 then
      variedVelocity st.proc.globalVelocity st.proc.velocityVariation
        (st.proc.random (st.proc.randomDraws + 1))
    else st.proc.globalVelocity, _,
    ⟨(i : Int), inp.clock st.clockReads, _, st.proc.gateTimeMs, true,
      st.proc.swingBeatCounter + 1⟩, rfl, ?_, rfl, rfl, rfl, rfl⟩
  simp only [fireDot]
  rw [eraseOld_push (inp.clock st.clockReads) _ _ rfl, List.getLast?_append,
    List.getLast?_singleton]
  rfl


/-! ### Independence of the draws when every roll passes -/

theorem processDot_chance (inp inp' : BlockInput) (bpm prev : ℚ) (i : Nat) (dot : TurntableDot)
    (st st' : BlockState) (hn : inp'.numSamples = inp.numSamples)
    (hs : SameUpToChance st.proc st'.proc) (hm : st'.midi = st.midi)
    (hc : Certain st.proc) (hc' : Certain st'.proc) :
    SameUpToChance (processDot inp bpm prev i dot st).proc
      (processDot inp' bpm prev i dot st').proc ∧
    (processDot inp' bpm prev i dot st').midi = (processDot inp bpm prev i dot st).midi := by
  obtain ⟨p, m, c⟩ := st
  obtain ⟨p', m', c'⟩ := st'
  obtain ⟨r, n, l, hp⟩ := hs
  simp only at hp hm
  subst hp hm
  obtain ⟨h1, h2, h3⟩ := hc
  obtain ⟨_, _, h3'⟩ := hc'
  simp only at h1 h2 h3 h3'
  have hpass : p.random p.randomDraws * 100 ≤ p.probability := by
    rw [h1]; linarith [h3 p.randomDraws]
  have hpass' : r n * 100 ≤ p.probability := by
    rw [h1]; linarith [h3' n]
  unfold processDot
  simp only [hpass, hpass', decide_True, Bool.not_true, Bool.false_eq_true, if_false]
  split_ifs
  · exact ⟨⟨r, n, l, rfl⟩, rfl⟩
  · simp only [fireDot, h2, hn, lt_irrefl, if_false, gt_iff_lt]
    exact ⟨⟨_, _, _, rfl⟩, rfl⟩
  · exact ⟨⟨r, n, l, rfl⟩, rfl⟩

theorem sameUpToChance_self (a : Processor) : SameUpToChance a a := ⟨_, _, _, rfl⟩

theorem SameUpToChance.rotation_eq {a b : Processor} (h : SameUpToChance a b) :
    b.currentRotation = a.currentRotation := by
  obtain ⟨r, n, l, h⟩ := h
  rw [h]

theorem Certain.of_frame {a b : Processor} (h : LoopFrame a b) (hc : Certain a) :
    Certain b := by
  unfold Certain
  rw [h]
  exact hc

theorem dotLoop_chance (inp inp' : BlockInput) (bpm prev : ℚ) (dots : List TurntableDot)
    (hn : inp'.numSamples = inp.numSamples) :
    ∀ (i : Nat) (st st' : BlockState), SameUpToChance st.proc st'.proc → st'.midi = st.midi →
    Certain st.proc → Certain st'.proc →
    SameUpToChance (dotLoop inp bpm prev i dots st).proc (dotLoop inp' bpm prev i dots st').proc ∧
    (dotLoop inp' bpm prev i dots st').midi = (dotLoop inp bpm prev i dots st).midi := by
  induction dots with
  | nil => intro i st st' hs hm _ _; exact ⟨hs, hm⟩
  | cons d ds ih =>
    intro i st st' hs hm hc hc'
    obtain ⟨h1, h2⟩ := processDot_chance inp inp' bpm prev i d st st' hn hs hm hc hc'
    exact ih (i + 1) _ _ h1 h2 (hc.of_frame (processDot_frame inp bpm prev i d st))
      (hc'.of_frame (processDot_frame inp' bpm prev i d st'))

theorem beforeDetection_certain (s : Processor) (inp : BlockInput) (hc : Certain s) :
    Certain (beforeDetection s inp).proc := hc

theorem afterDetection_certain (s : Processor) (inp : BlockInput) (hc : Certain s) :
    Certain (afterDetection s inp).proc := by
  unfold afterDetection
  simp only []
  split_ifs
  · exact (beforeDetection_certain s inp hc).of_frame (dotLoop_frame _ _ _ _ _ _)
  · exact beforeDetection_certain s inp hc

theorem processBlock_certain (s : Processor) (inp : BlockInput) (hc : Certain s) :
    Certain (processBlock s inp).1 := afterDetection_certain s inp hc

theorem processBlock_chance (s s' : Processor) (inp inp' : BlockInput)
    (hb : SameBlock inp inp') (hs : SameUpToChance s s') (hc : Certain s) (hc' : Certain s') :
    SameUpToChance (processBlock s inp).1 (processBlock s' inp').1 ∧
    (processBlock s' inp').2 = (processBlock s inp).2 := by
  have hbefore : SameUpToChance (beforeDetection s inp).proc (beforeDetection s' inp').proc ∧
      (beforeDetection s' inp').midi = (beforeDetection s inp).midi := by
    obtain ⟨r, n, l, rfl⟩ := hs
    obtain ⟨n1, p1, c1⟩ := inp
    obtain ⟨n2, p2, c2⟩ := inp'
    obtain ⟨h1, h2⟩ := hb
    simp only at h1 h2
    subst h1 h2
    exact ⟨⟨r, n, l, rfl⟩, rfl⟩
  have hrot : s'.currentRotation = s.currentRotation := by
    obtain ⟨r, n, l, rfl⟩ := hs; rfl
  have hrot' : (beforeDetection s' inp').proc.currentRotation =
      (beforeDetection s inp).proc.currentRotation := by
    obtain ⟨r, n, l, h⟩ := hbefore.1; rw [h]
  have hdots : (beforeDetection s' inp').proc.dots = (beforeDetection s inp).proc.dots := by
    obtain ⟨r, n, l, h⟩ := hbefore.1; rw [h]
  have hbpm : currentBPMOf s' inp' = currentBPMOf s inp := by
    obtain ⟨r, n, l, rfl⟩ := hs
    unfold currentBPMOf
    rw [hb.2]
  have hafter : SameUpToChance (afterDetection s inp).proc (afterDetection s' inp').proc ∧
      (afterDetection s' inp').midi = (afterDetection s inp).midi := by
    unfold afterDetection
    simp only [hrot, hrot', hdots, hbpm]
    split_ifs
    · exact dotLoop_chance inp inp' _ _ _ hb.1 0 _ _ hbefore.1 hbefore.2
        (beforeDetection_certain s inp hc) (beforeDetection_certain s' inp' hc')
    · exact hbefore
  obtain ⟨⟨r, n, l, h⟩, hm⟩ := hafter
  refine ⟨⟨r, n, l, ?_⟩, hm⟩
  show ({ (afterDetection s' inp').proc with totalSamplesProcessed := _ } : Processor) = _
  rw [h, hb.1]
  rfl

theorem runBlocks_chance (inps inps' : List BlockInput) (hb : List.Forall₂ SameBlock inps inps') :
    ∀ (s s' : Processor), SameUpToChance s s' → Certain s → Certain s' →
    SameUpToChance (runBlocks s inps).1 (runBlocks s' inps').1 ∧
    (runBlocks s' inps').2 = (runBlocks s inps).2 := by
  induction hb with
  | nil => intro s s' hs _ _; exact ⟨hs, rfl⟩
  | cons h _ ih =>
    intro s s' hs hc hc'
    obtain ⟨h1, h2⟩ := processBlock_chance s s' _ _ h hs hc hc'
    obtain ⟨h3, h4⟩ := ih _ _ h1 (processBlock_certain s _ hc) (processBlock_certain s' _ hc')
    refine ⟨h3, ?_⟩
    show (processBlock s' _).2 :: (runBlocks _ _).2 = (processBlock s _).2 :: (runBlocks _ _).2
    rw [h2, h4]

theorem Certain.of_run (inps : List BlockInput) : ∀ (s : Processor), Certain s →
    Certain (runBlocks s inps).1 := by
  induction inps with
  | nil => intro s h; exact h
  | cons inp rest ih => intro s h; exact ih _ (processBlock_certain s inp h)

theorem sameBlock_replicate (numSamples : Int) : ∀ (n : Nat) (inps : List BlockInput),
    inps.length = n → (∀ inp ∈ inps, inp.numSamples = numSamples ∧ inp.position = none) →
    List.Forall₂ SameBlock (List.replicate n (standaloneBlock numSamples)) inps := by
  intro n
  induction n with
  | zero =>
    intro inps hl _
    rw [List.length_eq_zero.1 hl]
    exact List.Forall₂.nil
  | succ n ih =>
    intro inps hl h
    cases inps with
    | nil => cases hl
    | cons a rest =>
      rw [List.replicate_succ]
      refine List.Forall₂.cons ?_ (ih rest (by simpa using hl) ?_)
      · exact ⟨(h a (List.mem_cons_self _ _)).1, (h a (List.mem_cons_self _ _)).2⟩
      · intro inp hin
        exact h inp (List.mem_cons_of_mem _ hin)

/-! ### The four-dot scenario evaluated -/

theorem runBlocks_append (a b : List BlockInput) : ∀ (s : Processor),
    runBlocks s (a ++ b) =
      ((runBlocks (runBlocks s a).1 b).1, (runBlocks s a).2 ++ (runBlocks (runBlocks s a).1 b).2) := by
  induction a with
  | nil => intro s; rfl
  | cons inp rest ih =>
    intro s
    show ((runBlocks (processBlock s inp).1 (rest ++ b)).1,
      (processBlock s inp).2 :: (runBlocks (processBlock s inp).1 (rest ++ b)).2) = _
    rw [ih]
    rfl

theorem runBlocks_length (inps : List BlockInput) : ∀ (s : Processor),
    (runBlocks s inps).2.length = inps.length := by
  induction inps with
  | nil => intro s; rfl
  | cons inp rest ih =>
    intro s
    show ((processBlock s inp).2 :: (runBlocks (processBlock s inp).1 rest).2).length = _
    rw [List.length_cons, ih, List.length_cons]

theorem absoluteEvents_append (numSamples : Int) (a b : List (List MidiEvent)) :
    ∀ (start : Int), absoluteEvents numSamples start (a ++ b) =
      absoluteEvents numSamples start a ++
        absoluteEvents numSamples (start + numSamples * a.length) b := by
  induction a with
  | nil => intro start; simp [absoluteEvents]
  | cons x rest ih =>
    intro start
    show x.map _ ++ absoluteEvents numSamples (start + numSamples) (rest ++ b) =
      (x.map _ ++ absoluteEvents numSamples (start + numSamples) rest) ++ _
    rw [ih, List.append_assoc]
    have h : start + numSamples + numSamples * (rest.length : Int) =
        start + numSamples * ((x :: rest).length : Int) := by
      rw [List.length_cons]
      push_cast
      ring
    rw [h]

theorem noteOnCount_append (a b : List (List MidiEvent)) :
    noteOnCount (a ++ b) = noteOnCount a + noteOnCount b := by
  simp [noteOnCount]

/-- The scenario evaluated with every draw 0: the events of the first 344 blocks, the
rotation reached, the events of the block after them and the number of note-ons. -/
theorem scenario_zero :
    absoluteEvents 512 0
      (runBlocks (Processor.new zeroRandom) (List.replicate 344 (standaloneBlock 512))).2 =
      [(MidiMessage.noteOn 1 48 100, 0), (MidiMessage.noteOff 1 48 0, 4410),
       (MidiMessage.noteOn 1 52 100, 44031), (MidiMessage.noteOff 1 52 0, 48441),
       (MidiMessage.noteOn 1 57 100, 88063), (MidiMessage.noteOff 1 57 0, 92473),
       (MidiMessage.noteOn 1 52 100, 132095), (MidiMessage.noteOff 1 52 0, 136505)] ∧
    (runBlocks (Processor.new zeroRandom)
      (List.replicate 344 (standaloneBlock 512))).1.currentRotation = 88064 / 245 ∧
    (processBlock (runBlocks (Processor.new zeroRandom)
      (List.replicate 344 (standaloneBlock 512))).1 (standaloneBlock 512)).2 =
      [⟨MidiMessage.noteOn 1 48 100, 0⟩] ∧
    noteOnCount
      (runBlocks (Processor.new zeroRandom) (List.replicate 344 (standaloneBlock 512))).2 =
      4 := by
  decide!

/-! ### Clamps, truncation, scales, swing and the persisted state -/

theorem jlimit_eq_clamp {α : Type} [LinearOrder α] (lo hi v : α) (h : lo ≤ hi) :
    jlimit lo hi v = max lo (min hi v) := by
  unfold jlimit
  split_ifs with h1 h2
  · rw [max_eq_left]
    exact le_trans (min_le_right _ _) h1.le
  · rw [min_eq_left h2.le, max_eq_right h]
  · rw [min_eq_right (not_lt.1 h2), max_eq_right (not_lt.1 h1)]

theorem jlimit_mem {α : Type} [LinearOrder α] (lo hi v : α) (h : lo ≤ hi) :
    lo ≤ jlimit lo hi v ∧ jlimit lo hi v ≤ hi := by
  unfold jlimit
  split_ifs with h1 h2
  · exact ⟨le_refl _, h⟩
  · exact ⟨h, le_refl _⟩
  · exact ⟨not_lt.1 h1, not_lt.1 h2⟩

theorem jlimit_of_mem {α : Type} [LinearOrder α] (lo hi v : α) (h1 : lo ≤ v) (h2 : v ≤ hi) :
    jlimit lo hi v = v := by
  unfold jlimit
  rw [if_neg (not_lt.2 h1), if_neg (not_lt.2 h2)]

theorem jlimit_idem {α : Type} [LinearOrder α] (lo hi v : α) (h : lo ≤ hi) :
    jlimit lo hi (jlimit lo hi v) = jlimit lo hi v :=
  jlimit_of_mem lo hi _ (jlimit_mem lo hi v h).1 (jlimit_mem lo hi v h).2

theorem jmax_eq_max {α : Type} [LinearOrder α] (a b : α) : jmax a b = max a b := by
  unfold jmax
  split_ifs with h
  · rw [max_eq_right h.le]
  · rw [max_eq_left (not_lt.1 h)]

theorem jmin_eq_min {α : Type} [LinearOrder α] (a b : α) : jmin a b = min a b := by
  unfold jmin
  split_ifs with h
  · rw [min_eq_right h.le]
  · rw [min_eq_left (not_lt.1 h)]

theorem scale_table (scale : ScaleType) :
    List.Pairwise (fun a b => a < b) (getScaleIntervals scale) ∧
    (getScaleIntervals scale).head? = some 0 ∧
    (getScaleIntervals scale).getLast? = some 12 ∧
    (∀ x ∈ getScaleIntervals scale, 0 ≤ x ∧ x ≤ 12) ∧
    (∀ base : Int, scaleNotesFrom base (getScaleIntervals scale) =
      (getScaleIntervals scale).dropLast.map (fun interval => base + interval)) ∧
    5 ≤ (getScaleIntervals scale).length - 1 ∧ (getScaleIntervals scale).length - 1 ≤ 12 := by
  unfold getScaleIntervals
  split <;>
    exact ⟨by decide, rfl, rfl, by decide, fun base => by simp [scaleNotesFrom], by decide,
      by decide⟩

theorem getD_map_dropLast (L : List Int) (f : Int → Int) (n : Nat) (h : n < L.length - 1) :
    (L.dropLast.map f).getD n 0 = f (L.getD n 0) := by
  have h1 : n < (L.dropLast.map f).length := by
    rw [List.length_map, List.length_dropLast]; exact h
  have h2 : n < L.length := by omega
  rw [List.getD_eq_getElem _ _ h1, List.getD_eq_getElem _ _ h2, List.getElem_map,
    List.getElem_dropLast]

theorem updateScaleNotes_note (s : Processor) (n : Nat)
    (h : n < (getScaleIntervals s.currentScale).length - 1) :
    (updateScaleNotes s).scaleNotes.getD n 0 =
      s.rootNote + s.baseOctave * 12 + (getScaleIntervals s.currentScale).getD n 0 := by
  have h5 := (scale_table s.currentScale).2.2.2.2.1 (s.rootNote + s.baseOctave * 12)
  show (scaleNotesFrom _ _).getD n 0 = _
  rw [h5, getD_map_dropLast _ _ _ h]

theorem updateScaleNotes_length (s : Processor) :
    ((updateScaleNotes s).scaleNotes.length : Int) =
      ((getScaleIntervals s.currentScale).length : Int) - 1 := by
  have h5 := (scale_table s.currentScale).2.2.2.2.1 (s.rootNote + s.baseOctave * 12)
  have h6 := (scale_table s.currentScale).2.2.2.2.2.1
  show ((scaleNotesFrom _ _).length : Int) = _
  rw [h5, List.length_map, List.length_dropLast]
  omega

theorem truncToInt_of_nonneg (q : ℚ) (h : 0 ≤ q) : truncToInt q = ⌊q⌋ := by
  unfold truncToInt
  rw [Rat.floor_def, Int.tdiv_eq_ediv (Rat.num_nonneg.2 h) (Int.natCast_nonneg _)]

theorem truncToInt_nonneg (q : ℚ) (h : 0 ≤ q) : 0 ≤ truncToInt q := by
  rw [truncToInt_of_nonneg q h]
  exact Int.floor_nonneg.2 h

theorem swingDelayRatio_mem (swing : ℚ) :
    0 ≤ swingDelayRatio swing ∧ swingDelayRatio swing ≤ 1 :=
  jlimit_mem 0 1 _ (by norm_num)

theorem truncToInt32_of_fits (q : ℚ) (h : -2147483648 ≤ truncToInt q ∧
    truncToInt q ≤ 2147483647) : truncToInt32 q = truncToInt q := by
  unfold truncToInt32
  rw [if_pos h]

theorem addInt32_of_fits (a b : Int) (ha : 0 ≤ a) (hb : 0 ≤ b) (h : a + b ≤ 2147483647) :
    addInt32 a b = a + b := by
  unfold addInt32
  rw [if_pos ⟨⟨by omega, by omega⟩, ⟨by omega, by omega⟩⟩]
  omega

theorem swingDelay_nonneg (swing bpm sr : ℚ) (hbpm : 0 ≤ bpm) (hsr : 0 ≤ sr) :
    0 ≤ truncToInt (60 / bpm / 4 * swingDelayRatio swing * sr) := by
  apply truncToInt_nonneg
  have h1 : (0 : ℚ) ≤ 60 / bpm / 4 := by positivity
  exact mul_nonneg (mul_nonneg h1 (swingDelayRatio_mem swing).1) hsr

/-- When the swing delay fits, the 32-bit `swingOffset` is the truncated delay. -/
theorem swingOffsetOf_of_fits (swing bpm sr : ℚ) (N : Int) (hN : 1 ≤ N) (hbpm : 0 ≤ bpm)
    (hsr : 0 ≤ sr) (hfit : SwingFits swing bpm sr N) :
    swingOffsetOf swing bpm sr = truncToInt (60 / bpm / 4 * swingDelayRatio swing * sr) := by
  have h0 := swingDelay_nonneg swing bpm sr hbpm hsr
  unfold SwingFits at hfit
  unfold swingOffsetOf
  exact truncToInt32_of_fits _ ⟨by omega, by omega⟩

theorem swingOffsetOf_nonneg (swing bpm sr : ℚ) (N : Int) (hN : 1 ≤ N) (hbpm : 0 ≤ bpm)
    (hsr : 0 ≤ sr) (hfit : SwingFits swing bpm sr N) : 0 ≤ swingOffsetOf swing bpm sr := by
  rw [swingOffsetOf_of_fits swing bpm sr N hN hbpm hsr hfit]
  exact swingDelay_nonneg swing bpm sr hbpm hsr

/-- `applySwing` in terms of the named locals: in an odd subdivision with swing on, the
offset is `jmin (numSamples - 1, triggerSample + swingOffset)` on the 32-bit `int`. -/
theorem applySwing_eq (swing cur bpm sr : ℚ) (N t : Int) :
    applySwing swing cur bpm sr N t =
      if swing > 0 ∧ Int.tmod (Int.tmod (truncToInt32 (cur / 360 * 32)) 32) 2 = 1 then
        jmin (N - 1) (addInt32 t (swingOffsetOf swing bpm sr))
      else t := by
  unfold applySwing swingOffsetOf swingDelayRatio
  by_cases h1 : swing > 0
  · by_cases h2 : Int.tmod (Int.tmod (truncToInt32 (cur / 360 * 32)) 32) 2 = 1
    · simp only [h1, h2, if_true, and_self]
    · simp only [h1, h2, if_true, if_false, and_false]
  · simp only [h1, if_false, false_and]

theorem crossingSample_mem (prev cur angle : ℚ) (N : Int) (hN : 1 ≤ N) :
    0 ≤ crossingSample prev cur angle N ∧ crossingSample prev cur angle N ≤ N - 1 := by
  unfold crossingSample
  simp only []
  split_ifs
  · exact jlimit_mem 0 (N - 1) _ (by omega)
  · omega
  · omega

theorem applySwing_mem (swing cur bpm sr : ℚ) (N t : Int) (hbpm : 0 ≤ bpm) (hsr : 0 ≤ sr)
    (hfit : SwingFits swing bpm sr N) (ht : 0 ≤ t ∧ t ≤ N - 1) :
    0 ≤ applySwing swing cur bpm sr N t ∧ applySwing swing cur bpm sr N t ≤ N - 1 := by
  rw [applySwing_eq]
  split_ifs
  · have hN : 1 ≤ N := by omega
    have h0 := swingOffsetOf_nonneg swing bpm sr N hN hbpm hsr hfit
    have he := swingOffsetOf_of_fits swing bpm sr N hN hbpm hsr hfit
    unfold SwingFits at hfit
    rw [← he] at hfit
    rw [jmin_eq_min, addInt32_of_fits t _ ht.1 h0 (by omega)]
    exact ⟨le_min (by omega) (by omega), min_le_left _ _⟩
  · exact ht

theorem fireDot_event (inp : BlockInput) (bpm prev : ℚ) (i : Nat) (dot : TurntableDot)
    (st : BlockState) :
    (fireDot inp bpm prev i dot st).midi = st.midi ++
      [⟨MidiMessage.noteOn 1 (ringToMidiNote st.proc dot.ringIndex)
          (toUint8 (if st.proc.velocityVariation > 0 then
            variedVelocity st.proc.globalVelocity st.proc.velocityVariation
              (st.proc.random (st.proc.randomDraws + 1))
          else st.proc.globalVelocity)),
        applySwing st.proc.swing st.proc.currentRotation bpm st.proc.sampleRate inp.numSamples
          (crossingSample prev st.proc.currentRotation dot.angle inp.numSamples)⟩] := rfl

theorem processDot_inBlock (inp : BlockInput) (bpm prev : ℚ) (i : Nat) (dot : TurntableDot)
    (st : BlockState) (hN : 1 ≤ inp.numSamples) (hbpm : 0 ≤ bpm)
    (hsr : 0 ≤ st.proc.sampleRate)
    (hfit : SwingFits st.proc.swing bpm st.proc.sampleRate inp.numSamples)
    (h : ∀ e ∈ st.midi, inBlock inp.numSamples e) :
    ∀ e ∈ (processDot inp bpm prev i dot st).midi, inBlock inp.numSamples e := by
  rcases processDot_cases inp bpm prev i dot st with e | e | e <;> rw [e]
  · exact h
  · exact h
  · rw [fireDot_event]
    intro ev hev
    rcases List.mem_append.1 hev with h1 | h1
    · exact h ev h1
    · rw [List.mem_singleton.1 h1]
      exact applySwing_mem _ _ _ _ _ _ hbpm hsr hfit (crossingSample_mem _ _ _ _ hN)

theorem LoopFrame.sampleRate_same {a b : Processor} (h : LoopFrame a b) :
    b.sampleRate = a.sampleRate := by
  rw [h]

theorem LoopFrame.swing_same {a b : Processor} (h : LoopFrame a b) : b.swing = a.swing := by
  rw [h]

theorem dotLoop_inBlock (inp : BlockInput) (bpm prev : ℚ) (hN : 1 ≤ inp.numSamples)
    (hbpm : 0 ≤ bpm) (dots : List TurntableDot) : ∀ (i : Nat) (st : BlockState),
    0 ≤ st.proc.sampleRate →
    SwingFits st.proc.swing bpm st.proc.sampleRate inp.numSamples →
    (∀ e ∈ st.midi, inBlock inp.numSamples e) →
    ∀ e ∈ (dotLoop inp bpm prev i dots st).midi, inBlock inp.numSamples e := by
  induction dots with
  | nil => intro i st _ _ h; exact h
  | cons d ds ih =>
    intro i st hsr hfit h
    apply ih (i + 1) (processDot inp bpm prev i d st)
    · rw [(processDot_frame inp bpm prev i d st).sampleRate_same]; exact hsr
    · rw [(processDot_frame inp bpm prev i d st).sampleRate_same,
        (processDot_frame inp bpm prev i d st).swing_same]
      exact hfit
    · exact processDot_inBlock inp bpm prev i d st hN hbpm hsr hfit h

theorem drainPreviewNotes_inBlock (S : Int) (sr : ℚ) (N : Int) (hN : 1 ≤ N)
    (l : List PreviewNote) : ∀ e ∈ (drainPreviewNotes S sr l).1, inBlock N e := by
  induction l with
  | nil => intro e he; cases he
  | cons p rest ih =>
    intro e he
    simp only [drainPreviewNotes, List.mem_cons] at he
    rcases he with h | h
    · rw [h]; exact ⟨le_refl _, by show (0 : Int) ≤ N - 1; omega⟩
    · exact ih e h

theorem scanActiveNotes_inBlock (S N : Int) (notes : List ActiveNote) :
    ∀ e ∈ (scanActiveNotes S N notes).1, inBlock N e := by
  rw [scanActiveNotes_events]
  intro e he
  obtain ⟨n, hn, rfl⟩ := List.mem_map.1 he
  have := (List.mem_filter.1 hn).2
  simp only [decide_eq_true_eq] at this
  unfold inBlock noteOffEvent
  simp only []
  omega

theorem readInt_writeInt (n : Int) (rest : List Nat) (h : isInt32 n) :
    readInt (writeInt n ++ rest) = (n, rest) := by
  obtain ⟨h1, h2⟩ := h
  unfold writeInt readInt toInt32 toUint32
  simp only [List.cons_append, List.nil_append]
  congr 1
  generalize hm : (n % 4294967296).toNat = m
  have hm1 : (m : Int) = n % 4294967296 := by
    rw [← hm]; exact Int.toNat_of_nonneg (Int.emod_nonneg _ (by norm_num))
  have hm2 : m < 4294967296 := by omega
  have hsum : m % 256 % 256 + m / 256 % 256 % 256 * 256 + m / 65536 % 256 % 256 * 65536 +
      m / 16777216 % 256 % 256 * 16777216 = m := by omega
  rw [hsum]
  split_ifs <;> omega

theorem readFloat_writeFloat (c : FloatCodec) (q : ℚ) (rest : List Nat)
    (h : Representable c q) : readFloat c (writeFloat c q ++ rest) = (q, rest) := by
  unfold readFloat writeFloat
  rw [readInt_writeInt _ _ h.1]
  simp only [h.2]

theorem readBool_writeBool (b : Bool) (rest : List Nat) :
    readBool (writeBool b ++ rest) = (b, rest) := by
  cases b <;> simp [readBool, writeBool]

theorem toUint32_natCast (n : Nat) (h : n < 4294967296) : toUint32 (n : Int) = n := by
  unfold toUint32
  omega

theorem readInt_writeInt_color (n : Nat) (rest : List Nat) (h : n < 4294967296) :
    toUint32 (readInt (writeInt (n : Int) ++ rest)).1 = n ∧
    (readInt (writeInt (n : Int) ++ rest)).2 = rest := by
  unfold writeInt readInt toInt32
  rw [toUint32_natCast n h]
  simp only [List.cons_append, List.nil_append]
  have hsum : n % 256 % 256 + n / 256 % 256 % 256 * 256 + n / 65536 % 256 % 256 * 65536 +
      n / 16777216 % 256 % 256 * 16777216 = n := by omega
  rw [hsum]
  refine ⟨?_, trivial⟩
  unfold toUint32
  split_ifs <;> omega

theorem readDot_writeDot (c : FloatCodec) (dot : TurntableDot) (rest : List Nat)
    (h : StorableDot c dot) : readDot c (writeDot c dot ++ rest) = (dot, rest) := by
  obtain ⟨ha, hr, hc⟩ := h
  unfold readDot writeDot
  simp only [List.append_assoc]
  rw [readFloat_writeFloat c _ _ ha]
  simp only []
  rw [readInt_writeInt _ _ hr]
  simp only []
  rw [(readInt_writeInt_color _ _ hc).1, (readInt_writeInt_color _ _ hc).2,
    readBool_writeBool]

theorem readDots_writeDots (c : FloatCodec) (dots : List TurntableDot) (rest : List Nat)
    (h : ∀ dot ∈ dots, StorableDot c dot) :
    readDots c dots.length (writeDots c dots ++ rest) = (dots, rest) := by
  induction dots with
  | nil => rfl
  | cons d ds ih =>
    simp only [List.length_cons, readDots, writeDots, List.append_assoc]
    rw [readDot_writeDot c d _ (h d (List.mem_cons_self _ _))]
    simp only []
    rw [ih (fun x hx => h x (List.mem_cons_of_mem _ hx))]

theorem storable_default : Storable binary32 (Processor.new zeroRandom) := by
  refine ⟨⟨by decide!, by decide!⟩, by decide!, by decide!, by decide!, ?_, by decide!,
    ⟨by decide!, by decide!⟩, ⟨by decide!, by decide!⟩, ⟨by decide!, by decide!⟩,
    ⟨by decide!, by decide!⟩⟩
  intro dot hdot
  have hd : dot ∈ [(⟨0, 0, 0xffff6b35, true⟩ : TurntableDot), ⟨90, 2, 0xffff6b35, true⟩,
      ⟨180, 4, 0xffff6b35, true⟩, ⟨270, 2, 0xffff6b35, true⟩] := hdot
  simp only [List.mem_cons, List.mem_singleton, List.not_mem_nil, or_false] at hd
  rcases hd with h | h | h | h <;> rw [h] <;>
    exact ⟨⟨by decide!, by decide!⟩, by decide!, by decide!⟩

theorem resizeFlags_length (flags : List Bool) (n : Nat) : (resizeFlags flags n).length = n := by
  simp only [resizeFlags, List.length_append, List.length_take, List.length_replicate]
  omega

theorem resizeFlags_succ (flags : List Bool) :
    resizeFlags flags (flags.length + 1) = flags ++ [false] := by
  simp [resizeFlags, List.take_of_length_le]

theorem removeDot_of_valid (s : Processor) (index : Int)
    (h : 0 ≤ index ∧ index < (s.dots.length : Int)) :
    removeDot s index =
      { s with dots := s.dots.eraseIdx index.toNat,
               triggeredThisRotation :=
                 resizeFlags s.triggeredThisRotation (s.dots.eraseIdx index.toNat).length } := by
  unfold removeDot
  rw [if_pos ⟨h.1, h.2⟩]

theorem removeDot_of_invalid (s : Processor) (index : Int)
    (h : index < 0 ∨ (s.dots.length : Int) ≤ index) : removeDot s index = s := by
  unfold removeDot
  rw [if_neg]
  intro h2
  omega

theorem setStateInformation_flags_length (c : FloatCodec) (s : Processor) (data : List Nat) :
    (setStateInformation c s data).triggeredThisRotation.length =
      (setStateInformation c s data).dots.length := by
  unfold setStateInformation
  simp only []
  split_ifs <;> exact resizeFlags_length _ _

theorem afterDetection_frame (s : Processor) (inp : BlockInput) :
    LoopFrame (beforeDetection s inp).proc (afterDetection s inp).proc := by
  unfold afterDetection
  simp only []
  split_ifs
  · exact dotLoop_frame _ _ _ _ _ _
  · exact LoopFrame.same _

theorem LoopFrame.controls_same {a b : Processor} (h : LoopFrame a b) :
    b.scratchVelocity = a.scratchVelocity ∧ b.isBeingScratched = a.isBeingScratched ∧
      b.currentSpeedMultiplier = a.currentSpeedMultiplier ∧
      b.motorRunning = a.motorRunning ∧ b.speed = a.speed ∧ b.isReversed = a.isReversed ∧
      b.sampleRate = a.sampleRate ∧ b.standaloneBPM = a.standaloneBPM ∧
      b.isPlayingStandalone = a.isPlayingStandalone ∧
      b.totalSamplesProcessed = a.totalSamplesProcessed := by
  rw [h]
  exact ⟨rfl, rfl, rfl, rfl, rfl, rfl, rfl, rfl, rfl, rfl⟩

theorem beforeRotation_controls (s : Processor) (inp : BlockInput) :
    (beforeRotation s inp).proc.isBeingScratched = s.isBeingScratched ∧
      (beforeRotation s inp).proc.scratchVelocity = decayScratchVelocity s inp.numSamples ∧
      (beforeRotation s inp).proc.currentSpeedMultiplier =
        rampSpeedMultiplier s inp.numSamples ∧
      (beforeRotation s inp).proc.currentRotation = s.currentRotation ∧
      (beforeRotation s inp).proc.triggeredThisRotation = s.triggeredThisRotation :=
  ⟨rfl, rfl, rfl, rfl, rfl⟩

theorem decayScratchVelocity_of_zero (s : Processor) (N : Int) (h : s.scratchVelocity = 0) :
    decayScratchVelocity s N = 0 := by
  unfold decayScratchVelocity
  rw [if_neg, h]
  rw [h]
  norm_num

/-- The state a block leaves in the members that steer the rotation. -/
theorem processBlock_controls (s : Processor) (inp : BlockInput) :
    (processBlock s inp).1.scratchVelocity = decayScratchVelocity s inp.numSamples ∧
      (processBlock s inp).1.isBeingScratched = s.isBeingScratched ∧
      (processBlock s inp).1.currentSpeedMultiplier = rampSpeedMultiplier s inp.numSamples ∧
      (processBlock s inp).1.motorRunning = s.motorRunning ∧
      (processBlock s inp).1.speed = s.speed ∧
      (processBlock s inp).1.isReversed = s.isReversed ∧
      (processBlock s inp).1.sampleRate = s.sampleRate ∧
      (processBlock s inp).1.standaloneBPM = s.standaloneBPM ∧
      (processBlock s inp).1.isPlayingStandalone = s.isPlayingStandalone := by
  obtain ⟨h1, h2, h3, h4, h5, h6, h7, h8, h9, _⟩ := (afterDetection_frame s inp).controls_same
  exact ⟨h1, h2, h3, h4, h5, h6, h7, h8, h9⟩

theorem rotationIncrementOf_of_tempo (s : Processor) (inp : BlockInput)
    (hs : s.isBeingScratched = false) (hv : s.scratchVelocity = 0)
    (hp : shouldPlayOf s inp = true ∨ 0 < rampSpeedMultiplier s inp.numSamples) :
    rotationIncrementOf (beforeRotation s inp).proc inp.numSamples (shouldPlayOf s inp)
      (currentBPMOf s inp) = some (tempoAdvance s inp) := by
  have hd := decayScratchVelocity_of_zero s inp.numSamples hv
  obtain ⟨c1, c2, c3, _, _⟩ := beforeRotation_controls s inp
  have e1 : (beforeRotation s inp).proc.speed = s.speed := rfl
  have e2 : (beforeRotation s inp).proc.isReversed = s.isReversed := rfl
  have e3 : (beforeRotation s inp).proc.sampleRate = s.sampleRate := rfl
  unfold rotationIncrementOf
  rw [c1, c2, c3, hd, hs, e1, e2, e3]
  rw [if_neg (by norm_num), if_pos]
  · simp only [tempoAdvance]
    congr 1
    split_ifs <;> ring
  · refine ⟨by simp, by norm_num, ?_⟩
    rcases hp with h | h
    · exact Or.inl h
    · exact Or.inr h

theorem rampSpeedMultiplier_of_fullSpeed (s : Processor) (N : Int) (h : FullSpeed s) :
    rampSpeedMultiplier s N = 1 := by
  obtain ⟨_, _, hm, hc⟩ := h
  unfold rampSpeedMultiplier
  simp only []
  rw [if_pos hm, if_neg (by rw [hc]; norm_num), hc]

theorem processBlock_fullSpeed (s : Processor) (inp : BlockInput) (h : FullSpeed s) :
    FullSpeed (processBlock s inp).1 := by
  obtain ⟨h1, h2, h3, h4, _⟩ := processBlock_controls s inp
  exact ⟨h2.trans h.1, h1.trans (decayScratchVelocity_of_zero s _ h.2.1), h4.trans h.2.2.1,
    h3.trans (rampSpeedMultiplier_of_fullSpeed s _ h)⟩

theorem currentBPMOf_congr (s t : Processor) (inp : BlockInput)
    (h : t.standaloneBPM = s.standaloneBPM) : currentBPMOf t inp = currentBPMOf s inp := by
  unfold currentBPMOf
  rw [h]

theorem runAdvance_fullSpeed (inps : List BlockInput) : ∀ (s : Processor), FullSpeed s →
    runAdvance s inps =
      (inps.map (fun inp => 360 * (currentBPMOf s inp / 60 / 8) * s.speed *
        (if s.isReversed then -1 else 1) * inp.numSamples / s.sampleRate)).sum := by
  induction inps with
  | nil => intro s _; rfl
  | cons inp rest ih =>
    intro s h
    have hinc := rotationIncrementOf_of_tempo s inp h.1 h.2.1
      (Or.inr (by rw [rampSpeedMultiplier_of_fullSpeed s _ h]; norm_num))
    obtain ⟨_, _, _, _, c5, c6, c7, c8, _⟩ := processBlock_controls s inp
    rw [runAdvance, List.map_cons, List.sum_cons, ih _ (processBlock_fullSpeed s inp h)]
    congr 1
    · simp only [blockAdvance, hinc, tempoAdvance, rampSpeedMultiplier_of_fullSpeed s _ h,
        mul_one]
    · rw [c5, c6, c7]
      congr 1
      apply List.map_congr_left
      intro x _
      rw [currentBPMOf_congr s _ x c8]

theorem drainPreviewNotes_eq (S : Int) (sr : ℚ) (l : List PreviewNote) :
    (drainPreviewNotes S sr l).1 = l.map previewNoteOn ∧
    (drainPreviewNotes S sr l).2 =
      l.map (fun p => (⟨p.midiNote, 1, S + truncToInt (sr * (1 / 10))⟩ : ActiveNote)) := by
  induction l with
  | nil => exact ⟨rfl, rfl⟩
  | cons p rest ih =>
    constructor
    · show _ :: (drainPreviewNotes S sr rest).1 = _
      rw [ih.1]
      rfl
    · show _ :: (drainPreviewNotes S sr rest).2 = _
      rw [ih.2]
      rfl

theorem decayScratchVelocity_of_scratched (s : Processor) (N : Int)
    (h : s.isBeingScratched = true) : decayScratchVelocity s N = s.scratchVelocity := by
  unfold decayScratchVelocity
  rw [if_neg]
  simp [h]

/-- A block whose rotation update takes neither branch: the rotation, the flags and the
scratch and ramp results of the first part are final, and the events are those of the
note-off scan and the preview drain. -/
theorem processBlock_of_still (s : Processor) (inp : BlockInput)
    (h : rotationIncrementOf (beforeRotation s inp).proc inp.numSamples (shouldPlayOf s inp)
      (currentBPMOf s inp) = none) :
    (processBlock s inp).1.currentRotation = s.currentRotation ∧
      (processBlock s inp).1.triggeredThisRotation = s.triggeredThisRotation ∧
      (processBlock s inp).1.scratchVelocity = decayScratchVelocity s inp.numSamples ∧
      (processBlock s inp).2 =
        (scanActiveNotes s.totalSamplesProcessed inp.numSamples s.activeNotes).1 ++
          s.previewNotesToSend.map previewNoteOn := by
  have hb : beforeDetection s inp =
      { beforeRotation s inp with proc := { (beforeRotation s inp).proc with
          currentRotation := s.currentRotation,
          triggeredThisRotation := s.triggeredThisRotation } } := by
    unfold beforeDetection advanceRotation
    simp only [h]
    rfl
  have ha : afterDetection s inp = beforeDetection s inp := by
    unfold afterDetection
    simp only []
    rw [if_neg]
    rw [hb]
    exact fun hne => hne rfl
  refine ⟨?_, ?_, ?_, ?_⟩
  · show (afterDetection s inp).proc.currentRotation = _
    rw [ha, hb]
  · show (afterDetection s inp).proc.triggeredThisRotation = _
    rw [ha, hb]
  · show (afterDetection s inp).proc.scratchVelocity = _
    rw [ha, hb]
    rfl
  · show (afterDetection s inp).midi = _
    rw [ha, beforeDetection_midi, (drainPreviewNotes_eq _ _ _).1]

theorem rotationIncrementOf_of_scratched (s : Processor) (N : Int) (shouldPlay : Bool)
    (bpm : ℚ) (h : s.isBeingScratched = true) :
    rotationIncrementOf s N shouldPlay bpm = none := by
  unfold rotationIncrementOf
  rw [if_neg (by simp [h]), if_neg (by simp [h])]

theorem rotationIncrementOf_of_rest (s : Processor) (N : Int) (bpm : ℚ)
    (hv : s.scratchVelocity = 0) (hm : s.currentSpeedMultiplier = 0) :
    rotationIncrementOf s N false bpm = none := by
  unfold rotationIncrementOf
  rw [if_neg (by simp [hv]), if_neg (by simp [hm])]

theorem LoopFrame.preview_same {a b : Processor} (h : LoopFrame a b) :
    b.previewNotesToSend = a.previewNotesToSend := by
  rw [h]

theorem LoopFrame.scratch_same {a b : Processor} (h : LoopFrame a b) :
    b.scratchVelocity = a.scratchVelocity ∧ b.isBeingScratched = a.isBeingScratched ∧
      b.currentSpeedMultiplier = a.currentSpeedMultiplier ∧
      b.totalSamplesProcessed = a.totalSamplesProcessed := by
  rw [h]
  exact ⟨rfl, rfl, rfl, rfl⟩

theorem triggerPreviewNotes_queue (rings : List Int) : ∀ (s : Processor),
    (triggerPreviewNotes s rings).previewNotesToSend =
      s.previewNotesToSend ++
        rings.map (fun r => ({ midiNote := ringToMidiNote s r, timeStamp := 0 } : PreviewNote)) := by
  induction rings with
  | nil => intro s; simp [triggerPreviewNotes]
  | cons r rest ih =>
    intro s
    have h := ih (triggerPreviewNote s r)
    simp only [triggerPreviewNotes, List.foldl_cons] at h ⊢
    rw [h]
    simp only [triggerPreviewNote, List.map_cons, List.append_assoc, List.singleton_append]
    rfl

theorem mouseDragScratch_velocity (distance : ℚ × ℚ → ℚ) (ed : Editor) (s : Processor)
    (currentTime : Int) (position : ℚ × ℚ)
    (ht : 0 < scratchDeltaTime ed currentTime)
    (hr : 1 < scratchRadius distance ed position)
    (hl : 1 / 100 < distance (-(position.2 - ed.turntableCenter.2),
      position.1 - ed.turntableCenter.1)) :
    (mouseDragScratch distance ed s currentTime position).1.scratchVelocity =
        jlimit (-720) 720 (unclampedScratchVelocity distance ed currentTime position) ∧
      (mouseDragScratch distance ed s currentTime position).2.scratchVelocity =
        jlimit (-720) 720 (unclampedScratchVelocity distance ed currentTime position) := by
  unfold scratchDeltaTime at ht
  unfold scratchRadius at hr
  unfold mouseDragScratch
  simp only [gt_iff_lt]
  rw [if_pos ht, if_pos hr, if_pos hl]
  have e : unclampedScratchVelocity distance ed currentTime position =
      -(((position.1 - ed.lastScratchPos.1) / (((currentTime - ed.lastScratchTime : Int) : ℚ) / 1000) *
        (-(position.2 - ed.turntableCenter.2) / distance (-(position.2 - ed.turntableCenter.2),
          position.1 - ed.turntableCenter.1)) +
        (position.2 - ed.lastScratchPos.2) / (((currentTime - ed.lastScratchTime : Int) : ℚ) / 1000) *
        ((position.1 - ed.turntableCenter.1) / distance (-(position.2 - ed.turntableCenter.2),
          position.1 - ed.turntableCenter.1))) /
        distance (position.1 - ed.turntableCenter.1, position.2 - ed.turntableCenter.2) *
        (572958 / 10000)) := by
    simp only [unclampedScratchVelocity, tangentialSpeedOf, scratchRadius, scratchDeltaTime]
    ring
  rw [e]
  exact ⟨rfl, rfl⟩

theorem decayScratchVelocity_step (s : Processor) (N : Int)
    (hs : s.isBeingScratched = false) (hsr : 0 < s.sampleRate) (hN : 0 ≤ N) :
    |decayScratchVelocity s N| ≤ |s.scratchVelocity| ∧
      (0 ≤ s.scratchVelocity → 0 ≤ decayScratchVelocity s N) ∧
      (s.scratchVelocity ≤ 0 → decayScratchVelocity s N ≤ 0) ∧
      (Decaying s.scratchVelocity →
        (decayScratchVelocity s N = 0 ∨ 1 / 10 ≤ |decayScratchVelocity s N|) ∧
        |decayScratchVelocity s N| ≤
          max 0 (1 - velocityReductionOf s N) * |s.scratchVelocity|) := by
  have hr : 0 ≤ velocityReductionOf s N := by
    unfold velocityReductionOf
    have : (0 : ℚ) ≤ (N : ℚ) := by exact_mod_cast hN
    positivity
  have hq : (0 : ℚ) ≤ max 0 (1 - velocityReductionOf s N) := le_max_left _ _
  unfold decayScratchVelocity
  simp only [hs, Bool.not_false, true_and, gt_iff_lt]
  have hred : (4 / 10 / s.sampleRate * (N : ℚ)) = velocityReductionOf s N := rfl
  rw [hred]
  generalize velocityReductionOf s N = r at hr hq ⊢
  generalize s.scratchVelocity = v
  by_cases hc : 1 / 100 < |v|
  · rw [if_pos hc]
    by_cases hpos : 0 < v
    · rw [if_pos hpos, abs_of_pos hpos, jmax_eq_max]
      have hw0 : (0 : ℚ) ≤ max 0 (v - v * r) := le_max_left _ _
      have hwv : max 0 (v - v * r) ≤ v := max_le hpos.le (by nlinarith)
      have hwq : max 0 (v - v * r) ≤ max 0 (1 - r) * v := by
        apply max_le (by positivity)
        have : 1 - r ≤ max 0 (1 - r) := le_max_right _ _
        nlinarith
      by_cases hsmall : |max 0 (v - v * r)| < 1 / 10
      · rw [if_pos hsmall]
        refine ⟨by simp [hpos.le], fun _ => le_refl _, fun _ => le_refl _, fun _ => ⟨Or.inl rfl, ?_⟩⟩
        rw [abs_zero]; positivity
      · rw [if_neg hsmall]
        refine ⟨by rw [abs_of_nonneg hw0]; exact hwv, fun _ => hw0, fun h => absurd h (not_le.2 hpos),
          fun _ => ⟨Or.inr (not_lt.1 hsmall), by rw [abs_of_nonneg hw0]; exact hwq⟩⟩
    · rw [if_neg hpos]
      have hneg : v < 0 := by
        rcases lt_or_eq_of_le (not_lt.1 hpos) with h | h
        · exact h
        · rw [h] at hc; norm_num at hc
      rw [abs_of_neg hneg, jmin_eq_min]
      have hw0 : min 0 (v + -v * r) ≤ (0 : ℚ) := min_le_left _ _
      have hwv : v ≤ min 0 (v + -v * r) := le_min hneg.le (by nlinarith)
      have hwq : -(max 0 (1 - r) * -v) ≤ min 0 (v + -v * r) := by
        apply le_min
        · have : 0 ≤ max 0 (1 - r) * -v := by
            have : 0 ≤ -v := by linarith
            positivity
          linarith
        · have : 1 - r ≤ max 0 (1 - r) := le_max_right _ _
          nlinarith
      by_cases hsmall : |min 0 (v + -v * r)| < 1 / 10
      · rw [if_pos hsmall]
        refine ⟨by simp; linarith, fun _ => le_refl _, fun _ => le_refl _, fun _ => ⟨Or.inl rfl, ?_⟩⟩
        rw [abs_zero]
        have : 0 ≤ -v := by linarith
        positivity
      · rw [if_neg hsmall]
        refine ⟨by rw [abs_of_nonpos hw0]; linarith, fun h => absurd h (not_le.2 hneg), fun _ => hw0,
          fun _ => ⟨Or.inr (not_lt.1 hsmall), by rw [abs_of_nonpos hw0]; linarith⟩⟩
  · rw [if_neg hc]
    refine ⟨le_refl _, fun h => h, fun h => h, fun hd => ?_⟩
    rcases hd with h | h
    · rw [h, abs_zero]
      exact ⟨Or.inl rfl, by simp⟩
    · exact absurd h hc

theorem velocityReductionOf_congr (s t : Processor) (N : Int)
    (h : t.sampleRate = s.sampleRate) : velocityReductionOf t N = velocityReductionOf s N := by
  unfold velocityReductionOf
  rw [h]

theorem runBlocks_cons_fst (s : Processor) (inp : BlockInput) (rest : List BlockInput) :
    (runBlocks s (inp :: rest)).1 = (runBlocks (processBlock s inp).1 rest).1 := rfl

theorem runBlocks_scratch_decay (N : Int) (hN : 0 ≤ N) (inps : List BlockInput) :
    ∀ (s : Processor), s.isBeingScratched = false → 0 < s.sampleRate →
      Decaying s.scratchVelocity → (∀ inp ∈ inps, inp.numSamples = N) →
      (runBlocks s inps).1.isBeingScratched = false ∧
        (runBlocks s inps).1.sampleRate = s.sampleRate ∧
        Decaying (runBlocks s inps).1.scratchVelocity ∧
        (inps ≠ [] → (runBlocks s inps).1.scratchVelocity = 0 ∨
          1 / 10 ≤ |(runBlocks s inps).1.scratchVelocity|) ∧
        |(runBlocks s inps).1.scratchVelocity| ≤
          max 0 (1 - velocityReductionOf s N) ^ inps.length * |s.scratchVelocity| := by
  induction inps with
  | nil =>
    intro s hs _ hd _
    exact ⟨hs, rfl, hd, fun h => absurd rfl h, by simp [runBlocks]⟩
  | cons inp rest ih =>
    intro s hs hsr hd hall
    have hn : inp.numSamples = N := hall inp (List.mem_cons_self _ _)
    obtain ⟨c1, c2, _, _, _, _, c7, _, _⟩ := processBlock_controls s inp
    rw [hn] at c1
    obtain ⟨_, _, _, hstep⟩ := decayScratchVelocity_step s N hs hsr hN
    obtain ⟨hz, hb⟩ := hstep hd
    have hd1 : Decaying (processBlock s inp).1.scratchVelocity := by
      rw [c1]
      rcases hz with h | h
      · exact Or.inl h
      · exact Or.inr (lt_of_lt_of_le (by norm_num) h)
    obtain ⟨i1, i2, i3, i4, i5⟩ := ih (processBlock s inp).1 (c2.trans hs) (by rw [c7]; exact hsr)
      hd1 (fun x hx => hall x (List.mem_cons_of_mem _ hx))
    rw [runBlocks_cons_fst]
    refine ⟨i1, i2.trans c7, i3, fun _ => ?_, ?_⟩
    · cases rest with
      | nil =>
        show (processBlock s inp).1.scratchVelocity = 0 ∨ _ ≤ |(processBlock s inp).1.scratchVelocity|
        rw [c1]
        exact hz
      | cons x xs => exact i4 (List.cons_ne_nil _ _)
    · rw [velocityReductionOf_congr s _ N c7, c1] at i5
      have hq : (0 : ℚ) ≤ max 0 (1 - velocityReductionOf s N) := le_max_left _ _
      calc |(runBlocks (processBlock s inp).1 rest).1.scratchVelocity|
          ≤ max 0 (1 - velocityReductionOf s N) ^ rest.length * |decayScratchVelocity s N| := i5
        _ ≤ max 0 (1 - velocityReductionOf s N) ^ rest.length *
            (max 0 (1 - velocityReductionOf s N) * |s.scratchVelocity|) :=
            mul_le_mul_of_nonneg_left hb (pow_nonneg hq _)
        _ = max 0 (1 - velocityReductionOf s N) ^ (inp :: rest).length * |s.scratchVelocity| := by
            rw [List.length_cons, pow_succ, mul_assoc]

theorem crossed_of_onSweptArc (p c a : ℚ) (hp : 0 ≤ p ∧ p < 360) (hc : 0 ≤ c ∧ c < 360)
    (ha : 0 ≤ a ∧ a < 360) (hlo : 1 / 1000 ≤ |wrappedDelta p c|)
    (hhi : |wrappedDelta p c| ≤ 180) (harc : onSweptArc p c a) : crossed p c a = true := by
  obtain ⟨x, hx0, hxd, hx⟩ := harc
  have hcp : wrappedDelta p c = c - p ∨ wrappedDelta p c = c - p - 360 ∨
      wrappedDelta p c = c - p + 360 := by
    unfold wrappedDelta
    simp only []
    split_ifs <;> simp
  by_cases hd : wrappedDelta p c > 0
  · rw [if_pos hd] at hx
    rw [abs_of_pos hd] at hxd hhi
    rw [crossed_forward p c a hd hlo]
    simp only [decide_eq_true_eq]
    rcases hx with e | e <;> rcases hcp with k | k | k <;>
      (refine ⟨?_, ?_⟩ <;> split_ifs <;> linarith)
  · have hd0 : wrappedDelta p c ≠ 0 := by
      intro h0; rw [h0] at hlo; norm_num at hlo
    have hdn : wrappedDelta p c < 0 := lt_of_le_of_ne (not_lt.1 hd) hd0
    rw [if_neg hd] at hx
    rw [abs_of_neg hdn] at hxd hhi
    rw [crossed_backward p c a hdn hlo]
    simp only [decide_eq_true_eq]
    rcases hx with e | e <;> rcases hcp with k | k | k <;>
      (refine ⟨?_, ?_⟩ <;> split_ifs <;> linarith)

theorem processDot_fired_of_flag (inp : BlockInput) (bpm prev : ℚ) (i : Nat)
    (dot : TurntableDot) (st : BlockState) (hprob : st.proc.probability = 100)
    (hrand : ∀ k, st.proc.random k < 1)
    (h0 : st.proc.triggeredThisRotation.getD i false = false)
    (h1 : (processDot inp bpm prev i dot st).proc.triggeredThisRotation.getD i false = true) :
    processDot inp bpm prev i dot st = fireDot inp bpm prev i dot st := by
  have hpass : st.proc.random st.proc.randomDraws * 100 ≤ st.proc.probability := by
    rw [hprob]; linarith [hrand st.proc.randomDraws]
  unfold processDot at h1 ⊢
  simp only [hpass, decide_True, Bool.not_true, Bool.false_eq_true, if_false] at h1 ⊢
  split_ifs at h1 ⊢
  · rw [h0] at h1; exact absurd h1 (by decide)
  · rfl
  · rw [h0] at h1; exact absurd h1 (by decide)

theorem processBlock_dots (s : Processor) (inp : BlockInput) :
    (processBlock s inp).1.dots = s.dots :=
  (afterDetection_frame s inp).dots_same

theorem processBlock_ringToMidiNote (s : Processor) (inp : BlockInput) (r : Int) :
    ringToMidiNote (processBlock s inp).1 r = ringToMidiNote s r :=
  (afterDetection_frame s inp).note_same r

theorem beforeDetection_flag_clear (s : Processor) (inp : BlockInput) (i : Nat)
    (h : s.triggeredThisRotation.getD i false = false ∨ blockWraps s inp = true) :
    (beforeDetection s inp).proc.triggeredThisRotation.getD i false = false := by
  rw [beforeDetection_flags]
  have hrep : (List.replicate s.triggeredThisRotation.length false).getD i false = false := by
    simp only [List.getD_eq_getElem?_getD, List.getElem?_replicate]
    split_ifs <;> rfl
  split_ifs with hw
  · exact hrep
  · rcases h with h | h
    · exact h
    · exact absurd h hw

theorem LoopFrame.chance_same {a b : Processor} (h : LoopFrame a b) :
    b.probability = a.probability ∧ b.random = a.random := by
  rw [h]
  exact ⟨rfl, rfl⟩

theorem processBlock_chance_same (s : Processor) (inp : BlockInput) :
    (processBlock s inp).1.probability = s.probability ∧
      (processBlock s inp).1.random = s.random :=
  (afterDetection_frame s inp).chance_same

theorem runBlocks_ringToMidiNote (inps : List BlockInput) : ∀ (s : Processor) (r : Int),
    ringToMidiNote (runBlocks s inps).1 r = ringToMidiNote s r := by
  induction inps with
  | nil => intro s r; rfl
  | cons b rest ih =>
    intro s r
    rw [runBlocks_cons_fst, ih, processBlock_ringToMidiNote]

theorem runBlocks_block (pre : List BlockInput) (b : BlockInput) (post : List BlockInput)
    (s : Processor) :
    (runBlocks s (pre ++ b :: post)).2[pre.length]? =
      some (processBlock (runBlocks s pre).1 b).2 := by
  rw [runBlocks_append]
  simp only []
  rw [List.getElem?_append_right (by rw [runBlocks_length]), runBlocks_length, Nat.sub_self]
  simp only [runBlocks, List.getElem?_cons_zero]

/-- The firing iteration of a dot: what `fireDot` does at the dot's turn in the block. -/
theorem dotFires_of_fireDot (s : Processor) (inp : BlockInput) (i : Nat) (dot : TurntableDot)
    (hdot : s.dots[i]? = some dot)
    (hmove : s.currentRotation ≠ (beforeDetection s inp).proc.currentRotation)
    (hfire : dotStep s inp i dot =
      fireDot inp (currentBPMOf s inp) s.currentRotation i dot (stateAtDot s inp i)) :
    DotFires s inp i dot := by
  obtain ⟨fv, sample, r, hm, h2, h3, h4, h5, _⟩ :=
    fireDot_shape inp (currentBPMOf s inp) s.currentRotation i dot (stateAtDot s inp i)
  rw [stateAtDot_ringToMidiNote, ← hfire] at hm
  rw [← hfire] at h2
  refine ⟨fv, sample, r, hm, ?_, h2, h3, h4, h5⟩
  apply processBlock_mem_of_dotStep s inp i dot hdot hmove
  rw [hm]
  exact List.mem_append_right _ (List.mem_singleton_self _)

/-- A dot whose flag is clear after the rotation update and set at the end of the block has
fired in the block, when every roll passes. -/
theorem block_fired_of_flag (s : Processor) (inp : BlockInput) (i : Nat) (dot : TurntableDot)
    (hprob : s.probability = 100) (hrand : ∀ k, s.random k < 1)
    (hdot : s.dots[i]? = some dot)
    (h0 : (beforeDetection s inp).proc.triggeredThisRotation.getD i false = false)
    (h1 : (processBlock s inp).1.triggeredThisRotation.getD i false = true) :
    DotFires s inp i dot := by
  have h1' : (afterDetection s inp).proc.triggeredThisRotation.getD i false = true := h1
  by_cases hmove : s.currentRotation = (beforeDetection s inp).proc.currentRotation
  · have ha : afterDetection s inp = beforeDetection s inp := by
      unfold afterDetection
      simp only []
      rw [if_neg (fun hne => hne hmove)]
    rw [ha, h0] at h1'
    exact absurd h1' (by decide)
  · rw [afterDetection_split s inp i dot hdot hmove,
      dotLoop_flag_before _ _ _ _ _ _ _ (Nat.lt_succ_self i)] at h1'
    have hst : (stateAtDot s inp i).proc.triggeredThisRotation.getD i false = false := by
      rw [stateAtDot_flag]; exact h0
    exact dotFires_of_fireDot s inp i dot hdot hmove
      (processDot_fired_of_flag inp (currentBPMOf s inp) s.currentRotation i dot
        (stateAtDot s inp i) (by rw [stateAtDot_probability]; exact hprob)
        (by rw [stateAtDot_random]; exact hrand) hst h1')

/-- An active dot that the block crosses with its flag clear after the rotation update fires
in the block, when every roll passes. -/
theorem block_fires_of_crossed (s : Processor) (inp : BlockInput) (i : Nat)
    (dot : TurntableDot) (hprob : s.probability = 100) (hrand : ∀ k, s.random k < 1)
    (hdot : s.dots[i]? = some dot) (hactive : dot.active = true)
    (hcross : crossed s.currentRotation (beforeDetection s inp).proc.currentRotation
      dot.angle = true)
    (h0 : (beforeDetection s inp).proc.triggeredThisRotation.getD i false = false) :
    DotFires s inp i dot := by
  have hstep := dotStep_of_crossed s inp i dot hactive hcross h0
  have hpass : (stateAtDot s inp i).proc.random (stateAtDot s inp i).proc.randomDraws * 100 ≤
      s.probability := by
    rw [stateAtDot_random, hprob]
    linarith [hrand (stateAtDot s inp i).proc.randomDraws]
  rw [if_pos hpass] at hstep
  exact dotFires_of_fireDot s inp i dot hdot (crossed_moves _ _ _ hcross) hstep

theorem runBlocks_cons_snd (s : Processor) (inp : BlockInput) (rest : List BlockInput) :
    (runBlocks s (inp :: rest)).2 =
      (processBlock s inp).2 :: (runBlocks (processBlock s inp).1 rest).2 := rfl

/-- When every roll passes, a dot whose flag is clear after the rotation update of the first
block of a run has fired, in its own loop iteration, by the end of the block of the run that
crosses it. -/
theorem fires_by_pass (i : Nat) (dot : TurntableDot) (hactive : dot.active = true)
    (inps : List BlockInput) : ∀ (s : Processor) (inp : BlockInput), s.probability = 100 →
    (∀ k, s.random k < 1) → s.dots[i]? = some dot →
    (beforeDetection s (inps.head?.getD inp)).proc.triggeredThisRotation.getD i false = false →
    crossed (runBlocks s inps).1.currentRotation
      (beforeDetection (runBlocks s inps).1 inp).proc.currentRotation dot.angle = true →
    ∃ (pre : List BlockInput) (b : BlockInput) (post : List BlockInput),
      inps ++ [inp] = pre ++ b :: post ∧ DotFires (runBlocks s pre).1 b i dot := by
  induction inps with
  | nil =>
    intro s inp hprob hrand hdot h0 hcross
    exact ⟨[], inp, [], rfl, block_fires_of_crossed s inp i dot hprob hrand hdot hactive hcross h0⟩
  | cons b rest ih =>
    intro s inp hprob hrand hdot h0 hcross
    by_cases hf : (processBlock s b).1.triggeredThisRotation.getD i false = true
    · exact ⟨[], b, rest ++ [inp], rfl, block_fired_of_flag s b i dot hprob hrand hdot h0 hf⟩
    · have hf' : (processBlock s b).1.triggeredThisRotation.getD i false = false := by
        simpa using hf
      obtain ⟨pre, b', post, he, hfire⟩ := ih (processBlock s b).1 inp
        ((processBlock_chance_same s b).1.trans hprob)
        (by rw [(processBlock_chance_same s b).2]; exact hrand)
        (by rw [processBlock_dots]; exact hdot)
        (beforeDetection_flag_clear _ _ i (Or.inl hf')) hcross
      refine ⟨b :: pre, b', post, ?_, hfire⟩
      rw [List.cons_append, he, List.cons_append]

/-- In a block of `N ≥ 1` samples, at a positive tempo and sample rate at which the swing
delay fits the 32-bit `int`, every event of `processBlock`, in particular every
rotation-triggered note-on, is placed at an intra-block offset in `[0, N-1]`. -/
theorem offsets_in_block_of_swingFits (s : Processor) (inp : BlockInput)
    (hN : 1 ≤ inp.numSamples) (hbpm : 0 < currentBPMOf s inp) (hsr : 0 < s.sampleRate)
    (hfit : SwingFits s.swing (currentBPMOf s inp) s.sampleRate inp.numSamples) :
    ∀ e ∈ (processBlock s inp).2, isNoteOn e = true →
      0 ≤ e.samplePosition ∧ e.samplePosition ≤ inp.numSamples - 1 := by
  have hbefore : ∀ e ∈ (beforeDetection s inp).midi, inBlock inp.numSamples e := by
    rw [beforeDetection_midi]
    intro e he
    rcases List.mem_append.1 he with h | h
    · exact scanActiveNotes_inBlock _ _ _ e h
    · exact drainPreviewNotes_inBlock _ _ _ hN _ e h
  have hall : ∀ e ∈ (afterDetection s inp).midi, inBlock inp.numSamples e := by
    unfold afterDetection
    simp only []
    split_ifs
    · exact dotLoop_inBlock inp _ _ hN hbpm.le _ 0 _ hsr.le hfit hbefore
    · exact hbefore
  intro e he _
  exact hall e he

/-- The velocity of a fired note: with a velocity variation above 0 the note-on of a fired
dot carries the velocity
`clamp (trunc (globalVelocity * (1 + u * velocityVariation/100 * 0.5)), 1, 127)`,
`u = 2 * draw - 1` being the variation draw, for every stored `globalVelocity`, and it lies
in `[1,127]`; with a velocity variation of 0 it carries the stored `globalVelocity` as it
is (as a byte), which is the value of the same formula when the stored velocity lies in
`[1,127]`, as it does after `setGlobalVelocity`. -/
theorem fired_velocity (inp : BlockInput) (bpm prev : ℚ) (i : Nat) (dot : TurntableDot)
    (st : BlockState) :
    (st.proc.velocityVariation > 0 →
      ∃ (velocity sample : Int),
        (fireDot inp bpm prev i dot st).midi = st.midi ++
          [⟨MidiMessage.noteOn 1 (ringToMidiNote st.proc dot.ringIndex) velocity, sample⟩] ∧
        velocity = max 1 (min 127 (truncToInt ((st.proc.globalVelocity : ℚ) *
          (1 + (st.proc.random (st.proc.randomDraws + 1) * 2 - 1) *
            st.proc.velocityVariation / 100 * (1 / 2))))) ∧
        1 ≤ velocity ∧ velocity ≤ 127) ∧
    (st.proc.velocityVariation ≤ 0 →
      ∃ sample : Int,
        (fireDot inp bpm prev i dot st).midi = st.midi ++
          [⟨MidiMessage.noteOn 1 (ringToMidiNote st.proc dot.ringIndex)
            (toUint8 st.proc.globalVelocity), sample⟩] ∧
        (st.proc.velocityVariation = 0 → 1 ≤ st.proc.globalVelocity →
          st.proc.globalVelocity ≤ 127 →
          toUint8 st.proc.globalVelocity = max 1 (min 127 (truncToInt
            ((st.proc.globalVelocity : ℚ) *
              (1 + (st.proc.random (st.proc.randomDraws + 1) * 2 - 1) *
                st.proc.velocityVariation / 100 * (1 / 2))))))) := by
  constructor
  · intro hv
    have hvar : variedVelocity st.proc.globalVelocity st.proc.velocityVariation
        (st.proc.random (st.proc.randomDraws + 1)) =
        max 1 (min 127 (truncToInt ((st.proc.globalVelocity : ℚ) *
          (1 + (st.proc.random (st.proc.randomDraws + 1) * 2 - 1) *
            st.proc.velocityVariation / 100 * (1 / 2))))) := by
      unfold variedVelocity
      rw [jlimit_eq_clamp _ _ _ (by norm_num)]
      congr 3
      ring
    have hmem : 1 ≤ variedVelocity st.proc.globalVelocity st.proc.velocityVariation
        (st.proc.random (st.proc.randomDraws + 1)) ∧
        variedVelocity st.proc.globalVelocity st.proc.velocityVariation
        (st.proc.random (st.proc.randomDraws + 1)) ≤ 127 :=
      jlimit_mem (1 : Int) 127 _ (by norm_num)
    have hbyte : toUint8 (variedVelocity st.proc.globalVelocity st.proc.velocityVariation
        (st.proc.random (st.proc.randomDraws + 1))) =
        variedVelocity st.proc.globalVelocity st.proc.velocityVariation
        (st.proc.random (st.proc.randomDraws + 1)) := by
      unfold toUint8; omega
    refine ⟨variedVelocity st.proc.globalVelocity st.proc.velocityVariation
        (st.proc.random (st.proc.randomDraws + 1)),
      applySwing st.proc.swing st.proc.currentRotation bpm st.proc.sampleRate inp.numSamples
        (crossingSample prev st.proc.currentRotation dot.angle inp.numSamples),
      ?_, hvar, hmem.1, hmem.2⟩
    rw [fireDot_event, if_pos hv, hbyte]
  · intro hv
    refine ⟨applySwing st.proc.swing st.proc.currentRotation bpm st.proc.sampleRate
      inp.numSamples (crossingSample prev st.proc.currentRotation dot.angle inp.numSamples),
      ?_, ?_⟩
    · rw [fireDot_event, if_neg (not_lt.2 hv)]
    · intro hz h1 h2
      have htr : truncToInt ((st.proc.globalVelocity : ℚ) *
          (1 + (st.proc.random (st.proc.randomDraws + 1) * 2 - 1) *
            st.proc.velocityVariation / 100 * (1 / 2))) = st.proc.globalVelocity := by
        rw [hz, mul_zero, zero_div, zero_mul, add_zero, mul_one,
          truncToInt_of_nonneg _ (by exact_mod_cast (by omega : (0 : Int) ≤ st.proc.globalVelocity)),
          Int.floor_intCast]
      rw [htr, min_eq_right h2, max_eq_right h1]
      unfold toUint8
      omega
/-! ## The claims -/

/-- C1, the code at a failing input: with the gate time at 10 ms (441 samples at 44100 Hz)
and blocks of 512 samples, the first block emits the note-on of the dot at 0° at sample 0
and leaves its note-off pending for sample 441; the second block, which starts at sample
512, removes the pending note without emitting anything; the first 20 blocks (10240
samples) contain that note-on and no note-off, and no note is pending after them. -/
theorem short_gate_noteOff_is_dropped :
    (processBlock shortGateProcessor (standaloneBlock 512)).2 =
      [⟨MidiMessage.noteOn 1 48 100, 0⟩] ∧
    (processBlock shortGateProcessor (standaloneBlock 512)).1.activeNotes = [⟨48, 1, 441⟩] ∧
    (processBlock (processBlock shortGateProcessor (standaloneBlock 512)).1
      (standaloneBlock 512)).2 = [] ∧
    (processBlock (processBlock shortGateProcessor (standaloneBlock 512)).1
      (standaloneBlock 512)).1.activeNotes = [] ∧
    absoluteEvents 512 0
      (runBlocks shortGateProcessor (List.replicate 20 (standaloneBlock 512))).2 =
      [(MidiMessage.noteOn 1 48 100, 0)] ∧
    (runBlocks shortGateProcessor (List.replicate 20 (standaloneBlock 512))).1.activeNotes =
      [] := by
  decide!

/-- C2, the code at a failing input: from rotation 0, reversed at speed 4 with a host tempo
of 999 BPM, one block of 8192 samples at 44100 Hz moves the rotation by about -556.7
degrees; the backward wrap adds 360 once and `currentRotation` ends at -240984/1225
(about -196.7), below 0, while the same block played forward ends inside `[0,360)`. -/
theorem backward_wrap_leaves_range :
    0 ≤ fastReverseProcessor.currentRotation ∧ fastReverseProcessor.currentRotation < 360 ∧
    rawRotationOf fastReverseProcessor fastHostBlock = some (-681984 / 1225) ∧
    (processBlock fastReverseProcessor fastHostBlock).1.currentRotation = -240984 / 1225 ∧
    (processBlock fastReverseProcessor fastHostBlock).1.currentRotation < 0 ∧
    (processBlock { fastReverseProcessor with isReversed := false }
      fastHostBlock).1.currentRotation = 240984 / 1225 := by
  decide!

/-- C3, counterexample: at 512 samples per block and 44100 Hz, 344 blocks fall short of the
4 s of one rotation and 345 blocks cover them; the 345 blocks emit five note-ons, the fifth
being the dot at 0° fired again at sample 176128 by the block that wraps. -/
theorem scenario_cover_emits_five_noteOns :
    (344 * 512 < 4 * 44100 ∧ 4 * 44100 ≤ 345 * 512) ∧
    noteOnCount
      (runBlocks (Processor.new zeroRandom) (List.replicate 345 (standaloneBlock 512))).2 ≠ 4 ∧
    absoluteEvents 512 0
      (runBlocks (Processor.new zeroRandom) (List.replicate 345 (standaloneBlock 512))).2 =
      [(MidiMessage.noteOn 1 48 100, 0), (MidiMessage.noteOff 1 48 0, 4410),
       (MidiMessage.noteOn 1 52 100, 44031), (MidiMessage.noteOff 1 52 0, 48441),
       (MidiMessage.noteOn 1 57 100, 88063), (MidiMessage.noteOff 1 57 0, 92473),
       (MidiMessage.noteOn 1 52 100, 132095), (MidiMessage.noteOff 1 52 0, 136505),
       (MidiMessage.noteOn 1 48 100, 176128)] := by
  obtain ⟨e1, _, e3, e4⟩ := scenario_zero
  have hsplit : List.replicate 345 (standaloneBlock 512) =
      List.replicate 344 (standaloneBlock 512) ++ [standaloneBlock 512] :=
    List.replicate_succ' 344 (standaloneBlock 512)
  have hlast : (runBlocks (runBlocks (Processor.new zeroRandom)
      (List.replicate 344 (standaloneBlock 512))).1 [standaloneBlock 512]).2 =
      [[⟨MidiMessage.noteOn 1 48 100, 0⟩]] :=
    congrArg (fun l => [l]) e3
  have hrun : (runBlocks (Processor.new zeroRandom)
      (List.replicate 345 (standaloneBlock 512))).2 =
      (runBlocks (Processor.new zeroRandom) (List.replicate 344 (standaloneBlock 512))).2 ++
        [[⟨MidiMessage.noteOn 1 48 100, 0⟩]] := by
    rw [hsplit, runBlocks_append, hlast]
  refine ⟨by norm_num, ?_, ?_⟩
  · rw [hrun, noteOnCount_append, e4]
    decide
  · rw [hrun, absoluteEvents_append, e1, runBlocks_length, List.length_replicate]
    rfl

/-- C3, amended: for the default processor (dots at 0, 90, 180, 270 degrees on rings 0, 2,
4, 2, 120 BPM, speed 1, motor at full ramp, probability 100, gate 100 ms, 44100 Hz), every
generator with draws in `[0,1)` and every clock, the 344 blocks of 512 samples that lie
inside the first rotation emit exactly four note-ons, one per dot in angular order, at the
absolute samples 0, 44031, 88063 and 132095 (each within one block of a multiple of 44100),
each followed by its note-off 4410 samples (100 ms) later; the rotation then stands at
88064/245 degrees, and the next block, which completes the rotation, wraps and fires the
dot at 0° again at its sample 0. -/
theorem scenario_first_rotation (random : Nat → ℚ)
    (hrand : ∀ k, 0 ≤ random k ∧ random k < 1) (inps : List BlockInput)
    (hlen : inps.length = 344)
    (hinp : ∀ inp ∈ inps, inp.numSamples = 512 ∧ inp.position = none) :
    absoluteEvents 512 0 (runBlocks (Processor.new random) inps).2 =
      [(MidiMessage.noteOn 1 48 100, (0 : Int)), (MidiMessage.noteOff 1 48 0, 4410),
       (MidiMessage.noteOn 1 52 100, 44031), (MidiMessage.noteOff 1 52 0, 48441),
       (MidiMessage.noteOn 1 57 100, 88063), (MidiMessage.noteOff 1 57 0, 92473),
       (MidiMessage.noteOn 1 52 100, 132095), (MidiMessage.noteOff 1 52 0, 136505)] ∧
    (runBlocks (Processor.new random) inps).1.currentRotation = 88064 / 245 ∧
    (∀ next : BlockInput, next.numSamples = 512 → next.position = none →
      (processBlock (runBlocks (Processor.new random) inps).1 next).2 =
        [⟨MidiMessage.noteOn 1 48 100, 0⟩]) := by
  have hc0 : Certain (Processor.new zeroRandom) :=
    ⟨rfl, rfl, fun k => by simp [Processor.new, addDot, updateScaleNotes, zeroRandom]⟩
  have hc : Certain (Processor.new random) :=
    ⟨rfl, rfl, fun k => (hrand k).2⟩
  have hs : SameUpToChance (Processor.new zeroRandom) (Processor.new random) :=
    ⟨random, 0, [], rfl⟩
  obtain ⟨h1, h2⟩ := runBlocks_chance _ _ (sameBlock_replicate 512 344 inps hlen hinp)
    _ _ hs hc0 hc
  obtain ⟨e1, e2, e3, _⟩ := scenario_zero
  refine ⟨(congrArg (absoluteEvents 512 0) h2).trans e1, h1.rotation_eq.trans e2, ?_⟩
  intro next hn hp
  have hnext : SameBlock (standaloneBlock 512) next := ⟨hn, hp⟩
  exact (processBlock_chance _ _ _ _ hnext h1
    (Certain.of_run _ _ hc0) (Certain.of_run _ _ hc)).2.trans e3

/-- C4: the per-block scan of the pending notes is a three-way partition by `noteOffSample`
relative to the block `[S, S+N)`: the note-off events of the block are exactly those of the
pending notes with `S ≤ noteOffSample < S+N`, in order, each at offset `noteOffSample - S`,
which lies in `[0, N-1]`; the scan retains exactly the notes with `noteOffSample ≥ S+N`, in
order, and they head the pending list after the block, followed by one new pending note per
note-on of the block; notes with `noteOffSample < S` yield no event and are not retained. -/
theorem noteOff_scan_partition (s : Processor) (inp : BlockInput) :
    (processBlock s inp).2.filter isNoteOff =
      (s.activeNotes.filter (fun n => decide (s.totalSamplesProcessed ≤ n.noteOffSample ∧
          n.noteOffSample < s.totalSamplesProcessed + inp.numSamples))).map
        (noteOffEvent s.totalSamplesProcessed) ∧
    (∀ e ∈ (processBlock s inp).2, isNoteOff e = true →
      0 ≤ e.samplePosition ∧ e.samplePosition ≤ inp.numSamples - 1) ∧
    (scanActiveNotes s.totalSamplesProcessed inp.numSamples s.activeNotes).2 =
      s.activeNotes.filter
        (fun n => decide (s.totalSamplesProcessed + inp.numSamples ≤ n.noteOffSample)) ∧
    (∃ pushed, (processBlock s inp).1.activeNotes =
      s.activeNotes.filter
        (fun n => decide (s.totalSamplesProcessed + inp.numSamples ≤ n.noteOffSample)) ++ pushed ∧
      pushed.length = ((processBlock s inp).2.filter isNoteOn).length) := by
  obtain ⟨ev, ns, hmidi, hev, hnotes, hlen⟩ := afterDetection_midi s inp
  have hpre := drainPreviewNotes_noteOn s.totalSamplesProcessed s.sampleRate s.previewNotesToSend
  have hscan := scanActiveNotes_noteOff s.totalSamplesProcessed inp.numSamples s.activeNotes
  have hout : (processBlock s inp).2 =
      (scanActiveNotes s.totalSamplesProcessed inp.numSamples s.activeNotes).1 ++
      ((drainPreviewNotes s.totalSamplesProcessed s.sampleRate s.previewNotesToSend).1 ++ ev) := by
    show (afterDetection s inp).midi = _
    rw [hmidi, beforeDetection_midi, List.append_assoc]
  have hon : ∀ e ∈ (drainPreviewNotes s.totalSamplesProcessed s.sampleRate
      s.previewNotesToSend).1 ++ ev, isNoteOn e = true := by
    intro e he
    rcases List.mem_append.1 he with h | h
    · exact hpre.1 e h
    · exact hev e h
  have hoff : (processBlock s inp).2.filter isNoteOff =
      (scanActiveNotes s.totalSamplesProcessed inp.numSamples s.activeNotes).1 := by
    rw [hout, List.filter_append]
    rw [List.filter_eq_self.2 hscan, List.filter_eq_nil_iff.2, List.append_nil]
    intro e he
    rw [isNoteOff_eq_not_isNoteOn, hon e he]
    simp
  refine ⟨?_, ?_, scanActiveNotes_kept _ _ _, ?_⟩
  · rw [hoff, scanActiveNotes_events]
  · intro e he hoffe
    have hmem : e ∈ (processBlock s inp).2.filter isNoteOff := List.mem_filter.2 ⟨he, hoffe⟩
    rw [hoff, scanActiveNotes_events] at hmem
    obtain ⟨n, hn, rfl⟩ := List.mem_map.1 hmem
    have := (List.mem_filter.1 hn).2
    simp only [decide_eq_true_eq] at this
    simp only [noteOffEvent]
    omega
  · refine ⟨(drainPreviewNotes s.totalSamplesProcessed s.sampleRate
      s.previewNotesToSend).2 ++ ns, ?_, ?_⟩
    · show (afterDetection s inp).proc.activeNotes = _
      rw [hnotes, beforeDetection_activeNotes, scanActiveNotes_kept, List.append_assoc]
    · have honf : (processBlock s inp).2.filter isNoteOn =
          (drainPreviewNotes s.totalSamplesProcessed s.sampleRate
            s.previewNotesToSend).1 ++ ev := by
        rw [hout, List.filter_append, List.filter_eq_self.2 hon, List.filter_eq_nil_iff.2,
          List.nil_append]
        intro e he
        have := hscan e he
        rw [isNoteOff_eq_not_isNoteOn] at this
        simpa using this
      rw [honf, List.length_append, List.length_append, hpre.2, hlen]

/-- C5: a dot whose flag is true stays silent until a wrap. In a run of blocks none of which
wraps the rotation, started with the flag of dot `i` set, at every block of the run the flag
is still set at the start, the loop iteration for index `i` leaves the whole block state as
it found it (no note-on, no pending note, no feedback record, no random draw, whatever the
probability and the draws), the records of dot `i` after the block are among those before
it, and the flag is set after the block. -/
theorem flagged_dot_stays_silent (s : Processor) (i : Nat) (pre post : List BlockInput)
    (inp : BlockInput) (hflag : s.triggeredThisRotation.getD i false = true)
    (hrun : noWrapRun s (pre ++ inp :: post)) :
    (runBlocks s pre).1.triggeredThisRotation.getD i false = true ∧
    (∀ dot, dotStep (runBlocks s pre).1 inp i dot = stateAtDot (runBlocks s pre).1 inp i) ∧
    (recordsOf i (processBlock (runBlocks s pre).1 inp).1.recentlyTriggeredDots).Sublist
      (recordsOf i (runBlocks s pre).1.recentlyTriggeredDots) ∧
    (processBlock (runBlocks s pre).1 inp).1.triggeredThisRotation.getD i false = true := by
  obtain ⟨h1, h2⟩ := flagged_run i pre s (inp :: post) hflag hrun
  exact ⟨h1, flagged_block _ inp i h1 h2.1⟩

/-- C6: with probability 100 and every draw of the generator in `[0,1)` (a roll in
`[0,100)`), an active dot that the crossing test reports crossed and whose flag is clear
after the rotation update fires: its loop iteration adds exactly one note-on on channel 1
for the note of its ring, that note-on is among the events of the block, and the iteration
leaves as last feedback record one for this dot with `wasTriggered = true`, the emitted
velocity and the gate time. -/
theorem full_probability_fires (s : Processor) (inp : BlockInput) (i : Nat)
    (dot : TurntableDot) (hprob : s.probability = 100)
    (hrand : ∀ k, 0 ≤ s.random k ∧ s.random k < 1)
    (hdot : s.dots[i]? = some dot) (hactive : dot.active = true)
    (hcross : crossed s.currentRotation (beforeDetection s inp).proc.currentRotation
      dot.angle = true)
    (hflag : (beforeDetection s inp).proc.triggeredThisRotation.getD i false = false) :
    ∃ (finalVelocity sample : Int) (r : TriggeredDotInfo),
      (dotStep s inp i dot).midi = (stateAtDot s inp i).midi ++
        [⟨MidiMessage.noteOn 1 (ringToMidiNote s dot.ringIndex) (toUint8 finalVelocity),
          sample⟩] ∧
      (⟨MidiMessage.noteOn 1 (ringToMidiNote s dot.ringIndex) (toUint8 finalVelocity),
          sample⟩ : MidiEvent) ∈ (processBlock s inp).2 ∧
      (dotStep s inp i dot).proc.recentlyTriggeredDots.getLast? = some r ∧
      r.dotIndex = (i : Int) ∧ r.wasTriggered = true ∧ r.velocity = finalVelocity ∧
      r.gateTimeMs = s.gateTimeMs := by
  have hstep := dotStep_of_crossed s inp i dot hactive hcross hflag
  have hpass : (stateAtDot s inp i).proc.random (stateAtDot s inp i).proc.randomDraws * 100 ≤
      s.probability := by
    rw [stateAtDot_random, hprob]
    have := (hrand (stateAtDot s inp i).proc.randomDraws).2
    linarith
  rw [if_pos hpass] at hstep
  obtain ⟨fv, sample, r, h1, h2, h3, h4, h5, h6⟩ :=
    fireDot_shape inp (currentBPMOf s inp) s.currentRotation i dot (stateAtDot s inp i)
  rw [← hstep, stateAtDot_ringToMidiNote] at h1
  rw [← hstep] at h2
  rw [stateAtDot_gateTimeMs] at h6
  refine ⟨fv, sample, r, h1, ?_, h2, h3, h4, h5, h6⟩
  apply processBlock_mem_of_dotStep s inp i dot hdot (crossed_moves _ _ _ hcross)
  rw [h1]
  exact List.mem_append_right _ (List.mem_singleton_self _)

/-- C7, the code at a failing input: with probability 0 and the draw 0.0 (roll 0), the
gate `probRoll <= probability` passes: the block emits the note-on of the crossed dot at 0°
and records it with `wasTriggered = true`. -/
theorem zero_probability_zero_roll_fires :
    zeroProbabilityProcessor.probability = 0 ∧
    zeroProbabilityProcessor.random 0 * 100 = 0 ∧
    (processBlock zeroProbabilityProcessor (standaloneBlock 512)).2 =
      [⟨MidiMessage.noteOn 1 48 100, 0⟩] ∧
    (processBlock zeroProbabilityProcessor (standaloneBlock 512)).1.recentlyTriggeredDots =
      [⟨0, 0, 100, 100, true, 1⟩] := by
  decide!

/-- C8: when the crossing of an active, unflagged dot fails the probability gate (the roll
exceeds the probability), its loop iteration adds no event and no pending note, appends the
feedback record `{dotIndex, wasTriggered = false, velocity 0, gateTimeMs 0}` after the
clean-up of old records, and sets the flag of the dot, which is still set at the end of the
block; in every later block up to the next wrap the iteration of this index then leaves
the block state unchanged, so the dot cannot fire. -/
theorem probability_miss_consumes_crossing (s : Processor) (inp : BlockInput) (i : Nat)
    (dot : TurntableDot) (hlen : s.triggeredThisRotation.length = s.dots.length)
    (hdot : s.dots[i]? = some dot) (hactive : dot.active = true)
    (hcross : crossed s.currentRotation (beforeDetection s inp).proc.currentRotation
      dot.angle = true)
    (hflag : (beforeDetection s inp).proc.triggeredThisRotation.getD i false = false)
    (hmiss : ¬ ((stateAtDot s inp i).proc.random (stateAtDot s inp i).proc.randomDraws * 100 ≤
      s.probability)) :
    (dotStep s inp i dot).midi = (stateAtDot s inp i).midi ∧
    (dotStep s inp i dot).proc.activeNotes = (stateAtDot s inp i).proc.activeNotes ∧
    (dotStep s inp i dot).proc.recentlyTriggeredDots =
      eraseOld (inp.clock (stateAtDot s inp i).clockReads)
          (stateAtDot s inp i).proc.recentlyTriggeredDots ++
        [{ dotIndex := i, timestamp := inp.clock (stateAtDot s inp i).clockReads,
           velocity := 0, gateTimeMs := 0, wasTriggered := false,
           beatCount := (stateAtDot s inp i).proc.swingBeatCounter }] ∧
    (dotStep s inp i dot).proc.triggeredThisRotation.getD i false = true ∧
    (processBlock s inp).1.triggeredThisRotation.getD i false = true ∧
    (∀ (pre post : List BlockInput) (later : BlockInput),
      noWrapRun (processBlock s inp).1 (pre ++ later :: post) →
      ∀ dot', dotStep (runBlocks (processBlock s inp).1 pre).1 later i dot' =
        stateAtDot (runBlocks (processBlock s inp).1 pre).1 later i) := by
  have hstep := dotStep_of_crossed s inp i dot hactive hcross hflag
  rw [if_neg hmiss] at hstep
  have hi : i < s.triggeredThisRotation.length := by
    rw [hlen]
    rcases Nat.lt_or_ge i s.dots.length with h | h
    · exact h
    · rw [List.getElem?_eq_none h] at hdot; cases hdot
  have hset : (dotStep s inp i dot).proc.triggeredThisRotation.getD i false = true := by
    rw [hstep]
    simp only [missDot]
    apply getD_set_self
    rw [stateAtDot_flags_length]
    exact hi
  have hend := processBlock_flag_of_dotStep s inp i dot hdot (crossed_moves _ _ _ hcross) i hset
  refine ⟨by rw [hstep]; rfl, by rw [hstep]; rfl, ?_, hset, hend, ?_⟩
  · rw [hstep]
    simp only [missDot]
    rw [eraseOld_push (inp.clock (stateAtDot s inp i).clockReads) _ _ rfl]
  · intro pre post later hrun
    obtain ⟨h1, h2⟩ := flagged_run i pre _ (later :: post) hend hrun
    exact (flagged_block _ later i h1 h2.1).1

/-- C9: direction symmetry of the crossing test. For angles `p`, `c` in `[0,360)` whose
wrapped difference `d` satisfies `0.001 ≤ |d| ≤ 180` and a dot angle `a` in `[0,360)` on the
arc swept from `p` to `c`, the test reports the dot crossed for the block rotating from `p`
to `c` and for the block rotating back from `c` to `p`. -/
theorem crossing_symmetry (p c a : ℚ) (hp : 0 ≤ p ∧ p < 360) (hc : 0 ≤ c ∧ c < 360)
    (ha : 0 ≤ a ∧ a < 360) (hlo : 1 / 1000 ≤ |wrappedDelta p c|)
    (hhi : |wrappedDelta p c| ≤ 180) (harc : onSweptArc p c a) :
    crossed p c a = true ∧ crossed c p a = true := by
  obtain ⟨x, hx0, hxd, hx⟩ := harc
  have hswap := wrappedDelta_swap p c
  have hlo' : 1 / 1000 ≤ |wrappedDelta c p| := by rw [hswap, abs_neg]; exact hlo
  have hcp : wrappedDelta p c = c - p ∨ wrappedDelta p c = c - p - 360 ∨
      wrappedDelta p c = c - p + 360 := by
    unfold wrappedDelta
    simp only []
    split_ifs <;> simp
  by_cases hd : wrappedDelta p c > 0
  · rw [if_pos hd] at hx
    rw [abs_of_pos hd] at hxd hhi
    have hd' : wrappedDelta c p < 0 := by rw [hswap]; linarith
    rw [crossed_forward p c a hd hlo, crossed_backward c p a hd' hlo', hswap]
    simp only [decide_eq_true_eq]
    rcases hx with e | e <;> rcases hcp with k | k | k <;>
      (refine ⟨⟨?_, ?_⟩, ⟨?_, ?_⟩⟩ <;> split_ifs <;> linarith)
  · have hd0 : wrappedDelta p c ≠ 0 := by
      intro h0; rw [h0] at hlo; norm_num at hlo
    have hdn : wrappedDelta p c < 0 := lt_of_le_of_ne (not_lt.1 hd) hd0
    rw [if_neg hd] at hx
    rw [abs_of_neg hdn] at hxd hhi
    have hd' : wrappedDelta c p > 0 := by rw [hswap]; linarith
    rw [crossed_backward p c a hdn hlo, crossed_forward c p a hd' hlo', hswap]
    simp only [decide_eq_true_eq]
    rcases hx with e | e <;> rcases hcp with k | k | k <;>
      (refine ⟨⟨?_, ?_⟩, ⟨?_, ?_⟩⟩ <;> split_ifs <;> linarith)

/-- C10: when the rotation update of the block wraps (the advanced angle is below 0 or at
least 360, on the scratch-momentum or the tempo-driven path), every entry of
`triggeredThisRotation` is false right after the update, the vector keeping its length;
when the update does not wrap (or does not advance), the flags are unchanged. -/
theorem wrap_resets_all_flags (s : Processor) (inp : BlockInput) :
    (blockWraps s inp = true →
      (beforeDetection s inp).proc.triggeredThisRotation =
        List.replicate s.triggeredThisRotation.length false) ∧
    (blockWraps s inp = false →
      (beforeDetection s inp).proc.triggeredThisRotation = s.triggeredThisRotation) := by
  constructor
  · intro h
    rw [beforeDetection_flags, if_pos h]
  · intro h
    rw [beforeDetection_flags, h]
    simp

/-- C11, the code at a failing input: at a tempo so low that the swing delay in samples
exceeds the range of the 32-bit `int swingOffset`, a swung note-on leaves the block. With
swing 100, a host tempo of 0.0001 BPM at 44100 Hz (a 16th note of 6615000000 samples) and
the disc thrown at 90 degrees per second, the block of 512 samples crosses the dot at 12
degrees at offset 246 and ends in subdivision 1; the conversion of the delay yields
`INT_MIN`, and the note-on is emitted at sample `INT_MIN + 246`, below 0. -/
theorem slow_tempo_swing_leaves_block :
    thrownSwungProcessor.swing = 100 ∧
    currentBPMOf thrownSwungProcessor slowHostBlock = 1 / 10000 ∧
    sixteenthOf (beforeDetection thrownSwungProcessor slowHostBlock).proc.currentRotation =
      1 ∧
    crossingSample thrownSwungProcessor.currentRotation
      (beforeDetection thrownSwungProcessor slowHostBlock).proc.currentRotation 12 512 =
      246 ∧
    truncToInt (60 / (1 / 10000 : ℚ) / 4 * swingDelayRatio 100 * 44100) = 6615000000 ∧
    swingOffsetOf 100 (1 / 10000) 44100 = -2147483648 ∧
    (processBlock thrownSwungProcessor slowHostBlock).2 =
      [⟨MidiMessage.noteOn 1 48 100, -2147483402⟩] := by
  refine ⟨by decide!, by decide!, by decide!, by decide!, by decide!, by decide!, by decide!⟩

/-- C14, the code at a failing input: a processor whose stored velocity is 0 (written by
`setStateInformation`, which stores the `int` of the blob as it is) and whose velocity
variation is 0 emits its note-on with velocity 0, outside `[1,127]`, where the clamp formula
gives 1; the same processor with a velocity variation of 50 percent emits velocity 1, the
clamp being applied on that path only. -/
theorem unvaried_velocity_is_not_clamped :
    zeroVelocityProcessor.globalVelocity = 0 ∧ zeroVelocityProcessor.velocityVariation = 0 ∧
    (processBlock zeroVelocityProcessor (standaloneBlock 512)).2 =
      [⟨MidiMessage.noteOn 1 48 0, 0⟩] ∧
    max 1 (min 127 (truncToInt ((0 : ℚ) * (1 + (0 * 2 - 1) * 0 / 100 * (1 / 2))))) = 1 ∧
    (processBlock (setVelocityVariation zeroVelocityProcessor 50) (standaloneBlock 512)).2 =
      [⟨MidiMessage.noteOn 1 48 1, 0⟩] := by
  refine ⟨by decide!, by decide!, by decide!, by decide!, by decide!⟩

/-- C15: once the scale notes are up to date (`updateScaleNotes`, as after construction,
`setScale`, `setRootNote` and `setStateInformation`), `ringToMidiNote` equals its reference
definition: for `0 ≤ r` below the number of rings it is `rootNote + 12*baseOctave +
interval_r + 12*octaveShift`, where `interval_r` is the `r`-th entry of the interval list of
the current scale and the number of rings is the length of that list minus one; for every
other `r` it is 60; and the notes are strictly increasing in `r` over the rings. -/
theorem ringToMidiNote_reference (s : Processor) (r : Int) :
    ringToMidiNote (updateScaleNotes s) r = ringToMidiNoteSpec s r ∧
    ((updateScaleNotes s).scaleNotes.length : Int) =
      ((getScaleIntervals s.currentScale).length : Int) - 1 ∧
    (∀ r' : Int, 0 ≤ r → r < r' → r' < ((updateScaleNotes s).scaleNotes.length : Int) →
      ringToMidiNote (updateScaleNotes s) r < ringToMidiNote (updateScaleNotes s) r') := by
  have hlen := updateScaleNotes_length s
  have hin : ∀ x : Int, 0 ≤ x → x < ((updateScaleNotes s).scaleNotes.length : Int) →
      ringToMidiNote (updateScaleNotes s) x =
        s.rootNote + s.baseOctave * 12 + (getScaleIntervals s.currentScale).getD x.toNat 0 +
          s.octaveShift * 12 := by
    intro x hx0 hx1
    unfold ringToMidiNote
    rw [if_pos ⟨hx0, hx1⟩, updateScaleNotes_note s x.toNat (by omega)]
    rfl
  refine ⟨?_, hlen, ?_⟩
  · unfold ringToMidiNoteSpec
    by_cases hr : 0 ≤ r ∧ r < ((updateScaleNotes s).scaleNotes.length : Int)
    · rw [hin r hr.1 hr.2, if_pos ⟨hr.1, by rw [← hlen]; exact hr.2⟩]
      ring
    · rw [if_neg (by rw [← hlen]; exact hr)]
      unfold ringToMidiNote
      rw [if_neg hr]
  · intro r' h0 hlt hr'
    rw [hin r h0 (by omega), hin r' (by omega) hr']
    have hpw := (scale_table s.currentScale).1
    have hn : r.toNat < r'.toNat := by omega
    have hb : r'.toNat < (getScaleIntervals s.currentScale).length := by omega
    have := List.pairwise_iff_getElem.1 hpw r.toNat r'.toNat (by omega) hb hn
    rw [List.getD_eq_getElem _ _ (by omega : r.toNat < _), List.getD_eq_getElem _ _ hb]
    omega

/-- C16: for every scale type (any value of the enumeration, the `default` branch
included) `getScaleIntervals` is strictly ascending, starts with 0, ends with 12 and stays
within `[0,12]`; after `updateScaleNotes` the per-ring list holds one note per interval
other than the terminal 12, each `rootNote + 12*baseOctave + interval`, so its length is
the number of intervals minus one, between 5 and 12. -/
theorem scale_intervals_and_notes (s : Processor) (scale : ScaleType) :
    List.Pairwise (fun a b => a < b) (getScaleIntervals scale) ∧
    (getScaleIntervals scale).head? = some 0 ∧
    (getScaleIntervals scale).getLast? = some 12 ∧
    (∀ x ∈ getScaleIntervals scale, 0 ≤ x ∧ x ≤ 12) ∧
    (updateScaleNotes s).scaleNotes =
      (getScaleIntervals s.currentScale).dropLast.map
        (fun interval => s.rootNote + s.baseOctave * 12 + interval) ∧
    (updateScaleNotes s).scaleNotes.length = (getScaleIntervals s.currentScale).length - 1 ∧
    5 ≤ (updateScaleNotes s).scaleNotes.length ∧ (updateScaleNotes s).scaleNotes.length ≤ 12 := by
  obtain ⟨h1, h2, h3, h4, _, _, _⟩ := scale_table scale
  obtain ⟨_, _, _, _, h5, h6, h7⟩ := scale_table s.currentScale
  have hnotes : (updateScaleNotes s).scaleNotes =
      (getScaleIntervals s.currentScale).dropLast.map
        (fun interval => s.rootNote + s.baseOctave * 12 + interval) := h5 _
  have hlen : (updateScaleNotes s).scaleNotes.length =
      (getScaleIntervals s.currentScale).length - 1 := by
    rw [hnotes, List.length_map, List.length_dropLast]
  exact ⟨h1, h2, h3, h4, hnotes, hlen, by rw [hlen]; exact h6, by rw [hlen]; exact h7⟩

/-- C17: state round trip. For a processor whose persisted members hold values of their
C++ types, `setStateInformation`, applied in any processor to the bytes written by
`getStateInformation`, restores speed, scale type, root note, the dot sequence (length,
order, and each dot's angle, ring index, colour and active flag), `globalVelocity`,
`gateTimeMs`, `isReversed`, `probability`, `velocityVariation` and `swing`, and leaves
`scaleNotes` as `updateScaleNotes` computes them for the restored scale and root. -/
theorem state_round_trip (c : FloatCodec) (s t : Processor) (h : Storable c s) :
    (setStateInformation c t (getStateInformation c s)).speed = s.speed ∧
    (setStateInformation c t (getStateInformation c s)).currentScale = s.currentScale ∧
    (setStateInformation c t (getStateInformation c s)).rootNote = s.rootNote ∧
    (setStateInformation c t (getStateInformation c s)).dots = s.dots ∧
    (setStateInformation c t (getStateInformation c s)).globalVelocity = s.globalVelocity ∧
    (setStateInformation c t (getStateInformation c s)).gateTimeMs = s.gateTimeMs ∧
    (setStateInformation c t (getStateInformation c s)).isReversed = s.isReversed ∧
    (setStateInformation c t (getStateInformation c s)).probability = s.probability ∧
    (setStateInformation c t (getStateInformation c s)).velocityVariation =
      s.velocityVariation ∧
    (setStateInformation c t (getStateInformation c s)).swing = s.swing ∧
    (setStateInformation c t (getStateInformation c s)).scaleNotes =
      scaleNotesFrom (s.rootNote + t.baseOctave * 12) (getScaleIntervals s.currentScale) := by
  obtain ⟨hspeed, hscale, hroot, hlen, hdots, hvel, hgate, hprob, hvar, hswing⟩ := h
  have hcount : isInt32 (s.dots.length : Int) := ⟨by omega, hlen⟩
  have hne : ∀ rest : List Nat, isExhausted (writeInt s.globalVelocity ++ rest) = false :=
    fun rest => rfl
  unfold setStateInformation getStateInformation
  simp only [List.append_assoc]
  rw [readFloat_writeFloat c _ _ hspeed]
  simp only []
  rw [readInt_writeInt _ _ hscale]
  simp only []
  rw [readInt_writeInt _ _ hroot]
  simp only []
  rw [readInt_writeInt _ _ hcount]
  simp only [Int.toNat_ofNat]
  rw [readDots_writeDots c _ _ hdots]
  simp only [hne, Bool.not_false, if_true]
  rw [readInt_writeInt _ _ hvel]
  simp only []
  rw [readFloat_writeFloat c _ _ hgate]
  simp only []
  rw [readBool_writeBool]
  simp only []
  rw [readFloat_writeFloat c _ _ hprob]
  simp only []
  rw [readFloat_writeFloat c _ _ hvar]
  simp only []
  have hlast := readFloat_writeFloat c s.swing [] hswing
  rw [List.append_nil] at hlast
  rw [hlast]
  simp only [updateScaleNotes, and_self]

/-- C18, the code at a failing input: a legacy blob (no parameter block) loaded into a
processor whose parameters the user has changed (velocity 64, gate 250 ms, probability 50,
variation 30, swing 60) leaves those values in place instead of the defaults 100, 100.0,
100.0, 0.0, 0.0; loaded into a fresh processor it leaves the defaults. -/
theorem legacy_load_keeps_current_parameters :
    (setStateInformation binary32 tweakedProcessor
      (legacyStateInformation binary32 (Processor.new zeroRandom))).globalVelocity = 64 ∧
    (setStateInformation binary32 tweakedProcessor
      (legacyStateInformation binary32 (Processor.new zeroRandom))).gateTimeMs = 250 ∧
    (setStateInformation binary32 tweakedProcessor
      (legacyStateInformation binary32 (Processor.new zeroRandom))).probability = 50 ∧
    (setStateInformation binary32 tweakedProcessor
      (legacyStateInformation binary32 (Processor.new zeroRandom))).velocityVariation = 30 ∧
    (setStateInformation binary32 tweakedProcessor
      (legacyStateInformation binary32 (Processor.new zeroRandom))).swing = 60 ∧
    (setStateInformation binary32 (Processor.new zeroRandom)
      (legacyStateInformation binary32 (Processor.new zeroRandom))).probability = 100 := by
  decide!

/-- C19, the code at a failing input: the 89-byte state of the default processor, cut after
79 bytes (inside the probability field) and loaded into a fresh processor, leaves
probability 0 where the default is 100; cut after 72 bytes (right after the velocity
field) it also leaves gate time 0 where the default is 100. -/
theorem truncated_block_reads_zero :
    (getStateInformation binary32 (Processor.new zeroRandom)).length = 89 ∧
    (Processor.new zeroRandom).probability = 100 ∧
    (Processor.new zeroRandom).gateTimeMs = 100 ∧
    (setStateInformation binary32 (Processor.new zeroRandom)
      ((getStateInformation binary32 (Processor.new zeroRandom)).take 79)).probability = 0 ∧
    (setStateInformation binary32 (Processor.new zeroRandom)
      ((getStateInformation binary32 (Processor.new zeroRandom)).take 79)).gateTimeMs = 100 ∧
    (setStateInformation binary32 (Processor.new zeroRandom)
      ((getStateInformation binary32 (Processor.new zeroRandom)).take 72)).gateTimeMs = 0 ∧
    (setStateInformation binary32 (Processor.new zeroRandom)
      ((getStateInformation binary32 (Processor.new zeroRandom)).take 72)).probability = 0 := by
  decide!

/-- C20: each clamping setter stores the clamp of its argument, so the stored value lies in
the domain; feeding the stored value back to the setter changes nothing (idempotence), and an
in-range argument is stored unchanged. `setGlobalVelocity` clamps to `[1,127]`, `setProbability`,
`setVelocityVariation` and `setSwing` to `[0,100]`, `setOctaveShift` to `[-2,2]`,
`setRootNote` to `[0,11]` and recomputes the scale notes, `setGateTime` stores
`max(10, t)`. -/
theorem setters_clamp (s : Processor) :
    (∀ v : Int, (setGlobalVelocity s v).globalVelocity = max 1 (min 127 v) ∧
      1 ≤ (setGlobalVelocity s v).globalVelocity ∧ (setGlobalVelocity s v).globalVelocity ≤ 127 ∧
      setGlobalVelocity (setGlobalVelocity s v) (setGlobalVelocity s v).globalVelocity = setGlobalVelocity s v ∧
      (1 ≤ v → v ≤ 127 → (setGlobalVelocity s v).globalVelocity = v)) ∧
    (∀ x : ℚ, (setProbability s x).probability = max 0 (min 100 x) ∧
      0 ≤ (setProbability s x).probability ∧ (setProbability s x).probability ≤ 100 ∧
      setProbability (setProbability s x) (setProbability s x).probability = setProbability s x ∧
      (0 ≤ x → x ≤ 100 → (setProbability s x).probability = x)) ∧
    (∀ x : ℚ, (setVelocityVariation s x).velocityVariation = max 0 (min 100 x) ∧
      0 ≤ (setVelocityVariation s x).velocityVariation ∧
      (setVelocityVariation s x).velocityVariation ≤ 100 ∧
      setVelocityVariation (setVelocityVariation s x) (setVelocityVariation s x).velocityVariation = setVelocityVariation s x ∧
      (0 ≤ x → x ≤ 100 → (setVelocityVariation s x).velocityVariation = x)) ∧
    (∀ x : ℚ, (setSwing s x).swing = max 0 (min 100 x) ∧
      0 ≤ (setSwing s x).swing ∧ (setSwing s x).swing ≤ 100 ∧
      setSwing (setSwing s x) (setSwing s x).swing = setSwing s x ∧
      (0 ≤ x → x ≤ 100 → (setSwing s x).swing = x)) ∧
    (∀ k : Int, (setOctaveShift s k).octaveShift = max (-2) (min 2 k) ∧
      -2 ≤ (setOctaveShift s k).octaveShift ∧ (setOctaveShift s k).octaveShift ≤ 2 ∧
      setOctaveShift (setOctaveShift s k) (setOctaveShift s k).octaveShift = setOctaveShift s k ∧
      (-2 ≤ k → k ≤ 2 → (setOctaveShift s k).octaveShift = k)) ∧
    (∀ r : Int, (setRootNote s r).rootNote = max 0 (min 11 r) ∧
      0 ≤ (setRootNote s r).rootNote ∧ (setRootNote s r).rootNote ≤ 11 ∧
      (setRootNote s r).scaleNotes =
        scaleNotesFrom ((setRootNote s r).rootNote + s.baseOctave * 12)
          (getScaleIntervals s.currentScale) ∧
      setRootNote (setRootNote s r) (setRootNote s r).rootNote = setRootNote s r ∧
      (0 ≤ r → r ≤ 11 → (setRootNote s r).rootNote = r)) ∧
    (∀ t : ℚ, (setGateTime s t).gateTimeMs = max 10 t ∧ 10 ≤ (setGateTime s t).gateTimeMs ∧
      setGateTime (setGateTime s t) (setGateTime s t).gateTimeMs = setGateTime s t ∧
      (10 ≤ t → (setGateTime s t).gateTimeMs = t)) := by
  refine ⟨?_, ?_, ?_, ?_, ?_, ?_, ?_⟩
  · intro v
    exact ⟨jlimit_eq_clamp 1 127 v (by norm_num), (jlimit_mem 1 127 v (by norm_num)).1,
      (jlimit_mem 1 127 v (by norm_num)).2,
      by simp only [setGlobalVelocity, jlimit_idem (1 : Int) 127 v (by norm_num)], fun h1 h2 => jlimit_of_mem 1 127 v h1 h2⟩
  · intro x
    exact ⟨jlimit_eq_clamp 0 100 x (by norm_num), (jlimit_mem 0 100 x (by norm_num)).1,
      (jlimit_mem 0 100 x (by norm_num)).2,
      by simp only [setProbability, jlimit_idem (0 : ℚ) 100 x (by norm_num)], fun h1 h2 => jlimit_of_mem 0 100 x h1 h2⟩
  · intro x
    exact ⟨jlimit_eq_clamp 0 100 x (by norm_num), (jlimit_mem 0 100 x (by norm_num)).1,
      (jlimit_mem 0 100 x (by norm_num)).2,
      by simp only [setVelocityVariation, jlimit_idem (0 : ℚ) 100 x (by norm_num)], fun h1 h2 => jlimit_of_mem 0 100 x h1 h2⟩
  · intro x
    exact ⟨jlimit_eq_clamp 0 100 x (by norm_num), (jlimit_mem 0 100 x (by norm_num)).1,
      (jlimit_mem 0 100 x (by norm_num)).2,
      by simp only [setSwing, jlimit_idem (0 : ℚ) 100 x (by norm_num)], fun h1 h2 => jlimit_of_mem 0 100 x h1 h2⟩
  · intro k
    exact ⟨jlimit_eq_clamp (-2) 2 k (by norm_num), (jlimit_mem (-2) 2 k (by norm_num)).1,
      (jlimit_mem (-2) 2 k (by norm_num)).2,
      by simp only [setOctaveShift, jlimit_idem (-2 : Int) 2 k (by norm_num)], fun h1 h2 => jlimit_of_mem (-2) 2 k h1 h2⟩
  · intro r
    exact ⟨jlimit_eq_clamp 0 11 r (by norm_num), (jlimit_mem 0 11 r (by norm_num)).1,
      (jlimit_mem 0 11 r (by norm_num)).2, rfl,
      by simp only [setRootNote, updateScaleNotes, jlimit_idem (0 : Int) 11 r (by norm_num)],
      fun h1 h2 => jlimit_of_mem 0 11 r h1 h2⟩
  · intro t
    refine ⟨jmax_eq_max 10 t, ?_, ?_, ?_⟩
    · show (10 : ℚ) ≤ jmax 10 t
      rw [jmax_eq_max]; exact le_max_left _ _
    · simp only [setGateTime, jmax_eq_max, max_eq_right (le_max_left (10 : ℚ) t)]
    · intro h
      show jmax 10 t = t
      rw [jmax_eq_max]; exact max_eq_right h

/-- C21: from any state in which `triggeredThisRotation` is as long as `dots`, the two
lengths are equal again after `addDot`, after `removeDot` with any index, valid or not,
after `clearAllDots` and after `setStateInformation`; and `addDot` appends to the dots an
active dot with the given angle, ring and colour, and to the flags an unset flag. -/
theorem flags_track_dots (c : FloatCodec) (s : Processor) (angle : ℚ) (ringIndex : Int)
    (color : Nat) (index : Int) (data : List Nat)
    (h : s.triggeredThisRotation.length = s.dots.length) :
    (addDot s angle ringIndex color).triggeredThisRotation.length =
        (addDot s angle ringIndex color).dots.length ∧
      (removeDot s index).triggeredThisRotation.length = (removeDot s index).dots.length ∧
      (clearAllDots s).triggeredThisRotation.length = (clearAllDots s).dots.length ∧
      (setStateInformation c s data).triggeredThisRotation.length =
        (setStateInformation c s data).dots.length ∧
      (addDot s angle ringIndex color).dots =
        s.dots ++ [{ angle := angle, ringIndex := ringIndex, color := color, active := true }] ∧
      (addDot s angle ringIndex color).triggeredThisRotation =
        s.triggeredThisRotation ++ [false] := by
  refine ⟨resizeFlags_length _ _, ?_, rfl, setStateInformation_flags_length c s data, rfl, ?_⟩
  · by_cases hv : 0 ≤ index ∧ index < (s.dots.length : Int)
    · rw [removeDot_of_valid s index hv]
      exact resizeFlags_length _ _
    · rw [removeDot_of_invalid s index (by omega)]
      exact h
  · have e : (addDot s angle ringIndex color).triggeredThisRotation =
        resizeFlags s.triggeredThisRotation (s.triggeredThisRotation.length + 1) := by
      simp only [addDot, List.length_append, List.length_singleton, h]
    rw [e]
    exact resizeFlags_succ _

/-- C22: when the processor is not scratched and has no scratch velocity, and the transport
plays or the ramp multiplier is positive after the ramp step, the rotation update of a
block of `N` samples adds `360 * (BPM / 60 / 8) * speed * sign * multiplier * N / sampleRate`
degrees, and `currentRotation` grows by exactly that when the block does not wrap. Hence at
full motor speed, at 120 BPM and speed 1, blocks that total `4 * sampleRate` samples add
exactly 360 degrees (minus 360 when reversed). -/
theorem tempo_rotation_advance (s : Processor) (inp : BlockInput) (inps : List BlockInput) :
    (s.isBeingScratched = false → s.scratchVelocity = 0 →
      (shouldPlayOf s inp = true ∨ 0 < rampSpeedMultiplier s inp.numSamples) →
      blockAdvance s inp = tempoAdvance s inp ∧
      (blockWraps s inp = false →
        (processBlock s inp).1.currentRotation = s.currentRotation + tempoAdvance s inp)) ∧
    (FullSpeed s → s.speed = 1 → 0 < s.sampleRate →
      (∀ b ∈ inps, currentBPMOf s b = 120) →
      (((inps.map (fun b => b.numSamples)).sum : Int) : ℚ) = 4 * s.sampleRate →
      runAdvance s inps = if s.isReversed then -360 else 360) := by
  constructor
  · intro hs hv hp
    have hinc := rotationIncrementOf_of_tempo s inp hs hv hp
    refine ⟨by simp only [blockAdvance, hinc], ?_⟩
    intro hw
    show (afterDetection s inp).proc.currentRotation = _
    rw [(afterDetection_frame s inp).rotation_same]
    unfold blockWraps rawRotationOf at hw
    simp only [hinc, decide_eq_false_iff_not, not_or, not_lt, not_le] at hw
    have hr : (beforeRotation s inp).proc.currentRotation = s.currentRotation := rfl
    rw [hr] at hw
    unfold beforeDetection advanceRotation
    simp only [hinc, wrapRotation, hr]
    rw [if_neg (not_lt.2 hw.1), if_neg (not_le.2 hw.2)]
  · intro hf hspeed hsr hbpm hsum
    rw [runAdvance_fullSpeed inps s hf]
    have e : ∀ (l : List BlockInput), (∀ b ∈ l, currentBPMOf s b = 120) →
        (l.map (fun inp => 360 * (currentBPMOf s inp / 60 / 8) * s.speed *
          (if s.isReversed then -1 else 1) * inp.numSamples / s.sampleRate)).sum =
        90 * (if s.isReversed then -1 else 1) / s.sampleRate *
          (((l.map (fun b => b.numSamples)).sum : Int) : ℚ) := by
      intro l
      induction l with
      | nil => intro _; simp
      | cons b l ih =>
        intro hl
        rw [List.map_cons, List.sum_cons, List.map_cons, List.sum_cons,
          ih (fun x hx => hl x (List.mem_cons_of_mem _ hx)), hl b (List.mem_cons_self _ _),
          hspeed]
        push_cast
        ring
    rw [e inps hbpm, hsum]
    have hne : s.sampleRate ≠ 0 := ne_of_gt hsr
    split_ifs <;> field_simp <;> ring

/-- C23, counterexample: a block at rest still emits a note-on. The default processor with
the motor off, the multiplier at 0, the transport stopped, no scratch and a preview note
queued by a click on ring 0 keeps its rotation through a block of 512 samples, and the block
emits the note-on of the preview. -/
theorem resting_block_emits_preview :
    restingPreviewProcessor.isBeingScratched = false ∧
      restingPreviewProcessor.scratchVelocity = 0 ∧
      shouldPlayOf restingPreviewProcessor (standaloneBlock 512) = false ∧
      rampSpeedMultiplier restingPreviewProcessor 512 = 0 ∧
      (processBlock restingPreviewProcessor (standaloneBlock 512)).1.currentRotation =
        restingPreviewProcessor.currentRotation ∧
      (processBlock restingPreviewProcessor (standaloneBlock 512)).2 =
        [⟨MidiMessage.noteOn 1 48 100, 0⟩] := by
  refine ⟨by decide!, by decide!, by decide!, by decide!, by decide!, by decide!⟩

/-- C23, amended: while `isBeingScratched` is set, `processBlock` leaves `currentRotation`,
`scratchVelocity` and the triggered flags unchanged; and when the processor is not
scratched, its scratch velocity is 0, the transport is not playing and the ramp multiplier
is 0 after the ramp step, `currentRotation` and the flags are unchanged as well. In both
cases the events of the block are the note-offs of the scan followed by the note-ons of the
queued previews, so no rotation-triggered note-on is emitted, and no note-on at all when no
preview is queued. -/
theorem rotation_is_gated (s : Processor) (inp : BlockInput) :
    (s.isBeingScratched = true →
      (processBlock s inp).1.currentRotation = s.currentRotation ∧
      (processBlock s inp).1.scratchVelocity = s.scratchVelocity ∧
      (processBlock s inp).1.triggeredThisRotation = s.triggeredThisRotation ∧
      (processBlock s inp).2 =
        (scanActiveNotes s.totalSamplesProcessed inp.numSamples s.activeNotes).1 ++
          s.previewNotesToSend.map previewNoteOn ∧
      (s.previewNotesToSend = [] → ∀ e ∈ (processBlock s inp).2, isNoteOn e = false)) ∧
    (s.isBeingScratched = false → s.scratchVelocity = 0 → shouldPlayOf s inp = false →
      rampSpeedMultiplier s inp.numSamples = 0 →
      (processBlock s inp).1.currentRotation = s.currentRotation ∧
      (processBlock s inp).1.scratchVelocity = s.scratchVelocity ∧
      (processBlock s inp).1.triggeredThisRotation = s.triggeredThisRotation ∧
      (processBlock s inp).2 =
        (scanActiveNotes s.totalSamplesProcessed inp.numSamples s.activeNotes).1 ++
          s.previewNotesToSend.map previewNoteOn ∧
      (s.previewNotesToSend = [] → ∀ e ∈ (processBlock s inp).2, isNoteOn e = false)) := by
  have key : ∀ (_ : rotationIncrementOf (beforeRotation s inp).proc inp.numSamples
      (shouldPlayOf s inp) (currentBPMOf s inp) = none)
      (_ : decayScratchVelocity s inp.numSamples = s.scratchVelocity),
      (processBlock s inp).1.currentRotation = s.currentRotation ∧
      (processBlock s inp).1.scratchVelocity = s.scratchVelocity ∧
      (processBlock s inp).1.triggeredThisRotation = s.triggeredThisRotation ∧
      (processBlock s inp).2 =
        (scanActiveNotes s.totalSamplesProcessed inp.numSamples s.activeNotes).1 ++
          s.previewNotesToSend.map previewNoteOn ∧
      (s.previewNotesToSend = [] → ∀ e ∈ (processBlock s inp).2, isNoteOn e = false) := by
    intro h hd
    obtain ⟨h1, h2, h3, h4⟩ := processBlock_of_still s inp h
    refine ⟨h1, h3.trans hd, h2, h4, ?_⟩
    intro hq e he
    rw [h4, hq, List.map_nil, List.append_nil] at he
    have := scanActiveNotes_noteOff _ _ _ e he
    rw [isNoteOff_eq_not_isNoteOn] at this
    simpa using this
  constructor
  · intro hs
    exact key (rotationIncrementOf_of_scratched _ _ _ _ hs)
      (decayScratchVelocity_of_scratched s _ hs)
  · intro _ hv hp hm
    have hd := decayScratchVelocity_of_zero s inp.numSamples hv
    refine key ?_ (hd.trans hv.symm)
    rw [hp]
    exact rotationIncrementOf_of_rest _ _ _ ((beforeRotation_controls s inp).2.1.trans hd)
      ((beforeRotation_controls s inp).2.2.1.trans hm)

/-- C24: the calls `triggerPreviewNote (r_1)`, ..., `triggerPreviewNote (r_k)` append to the
preview queue, in call order, the notes `ringToMidiNote (r_i)` of the scale at the time of
the calls. Whatever the processor does between the calls and the next block, that block
emits, after its note-offs and before any rotation-triggered note-on, one note-on per
queued preview in queue order, on channel 1 with velocity 100 at sample offset 0; it adds
for each a pending note-off at `totalSamplesProcessed` plus the integer part of
`0.1 * sampleRate` (its floor when the sample rate is not negative), after the notes kept
by the scan; and it leaves the queue empty, so that no later block drains them again. -/
theorem preview_notes_drain (s t : Processor) (rings : List Int) (inp : BlockInput) :
    (triggerPreviewNotes s rings).previewNotesToSend =
        s.previewNotesToSend ++
          rings.map (fun r => ({ midiNote := ringToMidiNote s r, timeStamp := 0 } : PreviewNote)) ∧
      (∃ ev ns, (processBlock t inp).2 =
          (scanActiveNotes t.totalSamplesProcessed inp.numSamples t.activeNotes).1 ++
            t.previewNotesToSend.map previewNoteOn ++ ev ∧
        (∀ e ∈ ev, isNoteOn e = true) ∧
        (processBlock t inp).1.activeNotes =
          (scanActiveNotes t.totalSamplesProcessed inp.numSamples t.activeNotes).2 ++
            t.previewNotesToSend.map (fun p => (⟨p.midiNote, 1,
              t.totalSamplesProcessed + truncToInt (t.sampleRate * (1 / 10))⟩ : ActiveNote)) ++
            ns ∧
        ns.length = ev.length) ∧
      (0 ≤ t.sampleRate → truncToInt (t.sampleRate * (1 / 10)) = ⌊(1 / 10) * t.sampleRate⌋) ∧
      (processBlock t inp).1.previewNotesToSend = [] ∧
      (drainPreviewNotes (processBlock t inp).1.totalSamplesProcessed
        (processBlock t inp).1.sampleRate (processBlock t inp).1.previewNotesToSend).1 = [] := by
  have hq : (processBlock t inp).1.previewNotesToSend = [] :=
    (afterDetection_frame t inp).preview_same
  refine ⟨triggerPreviewNotes_queue rings s, ?_, ?_, hq, ?_⟩
  · obtain ⟨ev, ns, h1, h2, h3, h4⟩ := afterDetection_midi t inp
    refine ⟨ev, ns, ?_, h2, ?_, h4⟩
    · show (afterDetection t inp).midi = _
      rw [h1, beforeDetection_midi, (drainPreviewNotes_eq _ _ _).1]
    · show (afterDetection t inp).proc.activeNotes = _
      rw [h3, beforeDetection_activeNotes, (drainPreviewNotes_eq _ _ _).2]
  · intro h
    rw [truncToInt_of_nonneg _ (by positivity), mul_comm]
  · rw [hq]
    rfl

/-- C25: in the scratch branch of `mouseDrag`, for a pointer motion with `deltaTime > 0` and
`radius > 1` (the distance being invariant under quarter turns, as the Euclidean length is),
the scratch velocity stored in the editor and in the processor is
`-(tangentialSpeed / radius) * 57.2958` clamped to the range from -720 to 720: its
magnitude is at most 720, and it is exactly 720 when the unclamped magnitude is 720 or
more. -/
theorem scratch_velocity_is_clamped (distance : ℚ × ℚ → ℚ) (ed : Editor) (s : Processor)
    (currentTime : Int) (position : ℚ × ℚ)
    (hd : ∀ p : ℚ × ℚ, distance (-p.2, p.1) = distance p)
    (ht : 0 < scratchDeltaTime ed currentTime)
    (hr : 1 < scratchRadius distance ed position) :
    (mouseDragScratch distance ed s currentTime position).1.scratchVelocity =
        max (-720) (min 720 (unclampedScratchVelocity distance ed currentTime position)) ∧
      (mouseDragScratch distance ed s currentTime position).2.scratchVelocity =
        (mouseDragScratch distance ed s currentTime position).1.scratchVelocity ∧
      |(mouseDragScratch distance ed s currentTime position).1.scratchVelocity| ≤ 720 ∧
      (720 ≤ |unclampedScratchVelocity distance ed currentTime position| →
        |(mouseDragScratch distance ed s currentTime position).1.scratchVelocity| = 720) := by
  have hl : 1 / 100 < distance (-(position.2 - ed.turntableCenter.2),
      position.1 - ed.turntableCenter.1) := by
    have h := hd (position.1 - ed.turntableCenter.1, position.2 - ed.turntableCenter.2)
    simp only at h
    rw [h]
    unfold scratchRadius at hr
    linarith
  obtain ⟨h1, h2⟩ := mouseDragScratch_velocity distance ed s currentTime position ht hr hl
  have hc := jlimit_eq_clamp (-720 : ℚ) 720
    (unclampedScratchVelocity distance ed currentTime position) (by norm_num)
  have hm := jlimit_mem (-720 : ℚ) 720
    (unclampedScratchVelocity distance ed currentTime position) (by norm_num)
  rw [h2, h1]
  refine ⟨hc, rfl, abs_le.2 hm, ?_⟩
  intro hbig
  rw [hc]
  rcases le_abs.1 hbig with h | h
  · rw [min_eq_left h, max_eq_right (by norm_num)]
    norm_num
  · have h' : unclampedScratchVelocity distance ed currentTime position ≤ -720 := by linarith
    rw [min_eq_right (by linarith), max_eq_left h']
    norm_num

/-- C26, the code at a failing input: the lower tolerance of the crossing window is never
reached, because a negative distance is moved up by 360 before the comparison. Moving
forward from 10 to 11 degrees, a dot at 9.7 degrees, 0.3 degrees behind the previous angle, is not crossed, while a dot at
11.3 degrees, 0.3 degrees beyond the new angle, is; moving backward from 11 to 10 degrees,
a dot at 11.3 degrees is not crossed, while a dot at 9.7 degrees is. -/
theorem tolerance_is_one_sided :
    wrappedDelta 10 11 = 1 ∧
      crossed 10 11 (97 / 10) = false ∧ crossed 10 11 (113 / 10) = true ∧
      wrappedDelta 11 10 = -1 ∧
      crossed 11 10 (113 / 10) = false ∧ crossed 11 10 (97 / 10) = true := by
  refine ⟨by decide!, by decide!, by decide!, by decide!, by decide!, by decide!⟩

/-- C27: released scratch momentum dies out. For a processor that is not scratched, with a
scratch velocity `v` such that `0.01 < |v| ≤ 720`, a positive sample rate and blocks of a
fixed length `N ≥ 1`: at every point of the run, the next `processBlock` leaves `|v|` no
larger and does not flip the sign of `v`, and the velocity it leaves is either exactly 0 or
at least 0.1 in magnitude; and there is a number of blocks, depending only on `N` and the
sample rate, after which `v` is exactly 0 and stays 0 for any longer run. -/
theorem scratch_momentum_dies_out (s : Processor) (N : Int)
    (hs : s.isBeingScratched = false) (hlo : 1 / 100 < |s.scratchVelocity|)
    (hhi : |s.scratchVelocity| ≤ 720) (hsr : 0 < s.sampleRate) (hN : 1 ≤ N) :
    (∀ (inps : List BlockInput) (inp : BlockInput),
      (∀ b ∈ inps, b.numSamples = N) → inp.numSamples = N →
      |(processBlock (runBlocks s inps).1 inp).1.scratchVelocity| ≤
          |(runBlocks s inps).1.scratchVelocity| ∧
        (0 ≤ (runBlocks s inps).1.scratchVelocity →
          0 ≤ (processBlock (runBlocks s inps).1 inp).1.scratchVelocity) ∧
        ((runBlocks s inps).1.scratchVelocity ≤ 0 →
          (processBlock (runBlocks s inps).1 inp).1.scratchVelocity ≤ 0) ∧
        ((processBlock (runBlocks s inps).1 inp).1.scratchVelocity = 0 ∨
          1 / 10 ≤ |(processBlock (runBlocks s inps).1 inp).1.scratchVelocity|)) ∧
    ∃ K : Nat, ∀ inps : List BlockInput, (∀ b ∈ inps, b.numSamples = N) → K ≤ inps.length →
      (runBlocks s inps).1.scratchVelocity = 0 := by
  have hN0 : (0 : Int) ≤ N := by omega
  constructor
  · intro inps inp hall hn
    obtain ⟨r1, r2, r3, _, _⟩ := runBlocks_scratch_decay N hN0 inps s hs hsr (Or.inr hlo) hall
    obtain ⟨c1, _⟩ := processBlock_controls (runBlocks s inps).1 inp
    rw [c1, hn]
    obtain ⟨a1, a2, a3, a4⟩ :=
      decayScratchVelocity_step (runBlocks s inps).1 N r1 (by rw [r2]; exact hsr) hN0
    exact ⟨a1, a2, a3, (a4 r3).1⟩
  · have hr : 0 < velocityReductionOf s N := by
      unfold velocityReductionOf
      have : (0 : ℚ) < (N : ℚ) := by exact_mod_cast (by omega : (0 : Int) < N)
      positivity
    have hq0 : (0 : ℚ) ≤ max 0 (1 - velocityReductionOf s N) := le_max_left _ _
    have hq1 : max 0 (1 - velocityReductionOf s N) < 1 := max_lt (by norm_num) (by linarith)
    obtain ⟨K, hK⟩ := exists_pow_lt_of_lt_one (by norm_num : (0 : ℚ) < 1 / 7200) hq1
    refine ⟨K, fun inps hall hlen => ?_⟩
    obtain ⟨_, _, _, r4, r5⟩ := runBlocks_scratch_decay N hN0 inps s hs hsr (Or.inr hlo) hall
    have hne : inps ≠ [] := by
      intro h
      rw [h] at hlen
      have : K = 0 := by simpa using hlen
      rw [this] at hK
      norm_num at hK
    have hpow : max 0 (1 - velocityReductionOf s N) ^ inps.length < 1 / 7200 :=
      lt_of_le_of_lt (pow_le_pow_of_le_one hq0 hq1.le hlen) hK
    have hsmall : |(runBlocks s inps).1.scratchVelocity| < 1 / 10 := by
      have hv0 : (0 : ℚ) ≤ |s.scratchVelocity| := abs_nonneg _
      have hp0 : (0 : ℚ) ≤ max 0 (1 - velocityReductionOf s N) ^ inps.length := pow_nonneg hq0 _
      calc |(runBlocks s inps).1.scratchVelocity|
          ≤ max 0 (1 - velocityReductionOf s N) ^ inps.length * |s.scratchVelocity| := r5
        _ ≤ max 0 (1 - velocityReductionOf s N) ^ inps.length * 720 :=
            mul_le_mul_of_nonneg_left hhi hp0
        _ < 1 / 10 := by linarith
    rcases r4 hne with h | h
    · exact h
    · exact absurd hsmall (not_lt.2 h)

/-- C28, the code at a failing input: `removeDot` erases the dot at the index but drops the
last flag, so the flags of the dots behind the index move to their successors. In the default processor with only the
dot at 0 degrees flagged, `removeDot (0)` leaves the dots at 90, 180 and 270 degrees with
the flags `true, false, false`: the dot at 90 degrees, unflagged before the removal, is
flagged after it. An index out of range changes nothing. -/
theorem removeDot_shifts_flags :
    firstFlaggedProcessor.dots.map (fun dot => dot.angle) = [0, 90, 180, 270] ∧
      firstFlaggedProcessor.triggeredThisRotation = [true, false, false, false] ∧
      (removeDot firstFlaggedProcessor 0).dots = firstFlaggedProcessor.dots.eraseIdx 0 ∧
      (removeDot firstFlaggedProcessor 0).dots.map (fun dot => dot.angle) = [90, 180, 270] ∧
      (removeDot firstFlaggedProcessor 0).triggeredThisRotation = [true, false, false] ∧
      firstFlaggedProcessor.triggeredThisRotation.getD 1 false = false ∧
      (removeDot firstFlaggedProcessor 0).triggeredThisRotation.getD 0 false = true ∧
      (removeDot firstFlaggedProcessor 0).triggeredThisRotation =
        firstFlaggedProcessor.triggeredThisRotation.dropLast ∧
      (removeDot firstFlaggedProcessor (-1)).dots = firstFlaggedProcessor.dots ∧
      (removeDot firstFlaggedProcessor 4).triggeredThisRotation =
        firstFlaggedProcessor.triggeredThisRotation := by
  refine ⟨by decide!, by decide!, by decide!, by decide!, by decide!, by decide!, by decide!,
    by decide!, by decide!, by decide!⟩

/-- C29, the code at a failing input: two tempo-driven forward blocks that together advance
about 2.09 degrees make one dot emit two note-ons. From 358.6 degrees with every flag clear,
at 120 BPM, speed 1, probability 100, 512 samples per block at 44100 Hz (256/245 degrees per
block): the first block does not wrap and fires the dot at 0 degrees, which lies 0.36 degrees
beyond the end of its arc, inside the tolerance; the second block wraps, clears the flags
before the detection and fires the same dot again. Both note-ons are for note 48, the note
of ring 0, and no other dot fires. -/
theorem wrap_refires_early_dot :
    nearEndProcessor.probability = 100 ∧
      nearEndProcessor.triggeredThisRotation = [false, false, false, false] ∧
      nearEndProcessor.dots.map (fun dot => dot.angle) = [0, 90, 180, 270] ∧
      ringToMidiNote nearEndProcessor 0 = 48 ∧
      blockAdvance nearEndProcessor (standaloneBlock 512) = 256 / 245 ∧
      runAdvance nearEndProcessor [standaloneBlock 512, standaloneBlock 512] = 512 / 245 ∧
      blockWraps nearEndProcessor (standaloneBlock 512) = false ∧
      (processBlock nearEndProcessor (standaloneBlock 512)).1.currentRotation = 88113 / 245 ∧
      blockWraps (processBlock nearEndProcessor (standaloneBlock 512)).1 (standaloneBlock 512)
        = true ∧
      (runBlocks nearEndProcessor [standaloneBlock 512, standaloneBlock 512]).2 =
        [[⟨MidiMessage.noteOn 1 48 100, 0⟩], [⟨MidiMessage.noteOn 1 48 100, 0⟩]] ∧
      noteOnCount (runBlocks nearEndProcessor [standaloneBlock 512, standaloneBlock 512]).2
        = 2 := by
  refine ⟨by decide!, by decide!, by decide!, by decide!, by decide!, by decide!, by decide!,
    by decide!, by decide!, by decide!, by decide!⟩

/-- C30, counterexample: at a small advance per block the note-on of a pass comes several
blocks before the block whose arc contains the dot. The default processor with a fifth dot
at 0.6 degrees, from rotation 0 with every flag clear, at 120 BPM, speed 1, probability 100
and 64 samples per block at 44100 Hz advances 32/245 degrees per block. The fifth block
sweeps the arc from 128/245 to 160/245 degrees, which contains 0.6 degrees, but the note-on
of the dot (note 50) is emitted in the first block, inside the tolerance of 0.5 degrees, and
the second to sixth blocks emit nothing. -/
theorem slow_pass_fires_early :
    lateDotProcessor.probability = 100 ∧
      lateDotProcessor.dots[4]? = some ⟨3 / 5, 1, 0xffff6b35, true⟩ ∧
      ringToMidiNote lateDotProcessor 1 = 50 ∧
      blockAdvance lateDotProcessor (standaloneBlock 64) = 32 / 245 ∧
      (runBlocks lateDotProcessor (List.replicate 4 (standaloneBlock 64))).1.currentRotation
        = 128 / 245 ∧
      (runBlocks lateDotProcessor (List.replicate 5 (standaloneBlock 64))).1.currentRotation
        = 160 / 245 ∧
      (128 / 245 : ℚ) ≤ 3 / 5 ∧ (3 / 5 : ℚ) ≤ 160 / 245 ∧
      (runBlocks lateDotProcessor (List.replicate 6 (standaloneBlock 64))).2 =
        [[⟨MidiMessage.noteOn 1 48 100, 0⟩, ⟨MidiMessage.noteOn 1 50 100, 63⟩],
          [], [], [], [], []] := by
  refine ⟨by decide!, by decide!, by decide!, by decide!, by decide!, by decide!, by decide!,
    by decide!, by decide!⟩

/-- C30, amended: no skipped pass. With probability 100 and every draw below 1, take a run
of blocks without dot edits and an active dot whose flag is clear when the run starts, or
whose run starts with a wrapping block. If the rotation of the last block of the run, taken
as the crossing test takes it (current minus previous angle, the short way round), is
between 0.001 and 180 degrees, both angles and the angle of the dot lie in `[0, 360)`, and
the swept arc contains the angle of the dot, then in some block of the run, the last one at
the latest, the loop iteration of this dot fires: it emits a note-on on channel 1 for the
note of the ring of the dot, which is among the events of that block of the run, and leaves
a feedback record of the dot with `wasTriggered = true`. For a run of that one block the
note-on is in the block itself. -/
theorem no_skipped_pass (s : Processor) (inps : List BlockInput) (inp : BlockInput) (i : Nat)
    (dot : TurntableDot) (hprob : s.probability = 100) (hrand : ∀ k, s.random k < 1)
    (hdot : s.dots[i]? = some dot) (hactive : dot.active = true)
    (hclear : s.triggeredThisRotation.getD i false = false ∨
      blockWraps s (inps.head?.getD inp) = true)
    (hp : 0 ≤ (runBlocks s inps).1.currentRotation ∧
      (runBlocks s inps).1.currentRotation < 360)
    (hcur : 0 ≤ (beforeDetection (runBlocks s inps).1 inp).proc.currentRotation ∧
      (beforeDetection (runBlocks s inps).1 inp).proc.currentRotation < 360)
    (ha : 0 ≤ dot.angle ∧ dot.angle < 360)
    (hlo : 1 / 1000 ≤ wrappedDelta (runBlocks s inps).1.currentRotation
      (beforeDetection (runBlocks s inps).1 inp).proc.currentRotation)
    (hhi : wrappedDelta (runBlocks s inps).1.currentRotation
      (beforeDetection (runBlocks s inps).1 inp).proc.currentRotation ≤ 180)
    (harc : onSweptArc (runBlocks s inps).1.currentRotation
      (beforeDetection (runBlocks s inps).1 inp).proc.currentRotation dot.angle) :
    ∃ (pre : List BlockInput) (b : BlockInput) (post : List BlockInput),
      inps ++ [inp] = pre ++ b :: post ∧
      DotFires (runBlocks s pre).1 b i dot ∧
      ringToMidiNote (runBlocks s pre).1 dot.ringIndex = ringToMidiNote s dot.ringIndex ∧
      (runBlocks s (inps ++ [inp])).2[pre.length]? =
        some (processBlock (runBlocks s pre).1 b).2 := by
  have hpos : 0 < wrappedDelta (runBlocks s inps).1.currentRotation
      (beforeDetection (runBlocks s inps).1 inp).proc.currentRotation :=
    lt_of_lt_of_le (by norm_num) hlo
  have hcross := crossed_of_onSweptArc _ _ _ hp hcur ha
    (by rw [abs_of_pos hpos]; exact hlo) (by rw [abs_of_pos hpos]; exact hhi) harc
  obtain ⟨pre, b, post, he, hfire⟩ := fires_by_pass i dot hactive inps s inp hprob hrand hdot
    (beforeDetection_flag_clear _ _ i hclear) hcross
  refine ⟨pre, b, post, he, hfire, runBlocks_ringToMidiNote pre s _, ?_⟩
  rw [he]
  exact runBlocks_block pre b post s

/-! ## Witnesses -/

/-- Witness of `scenario_first_rotation`: every draw 0 and 344 standalone blocks. -/
theorem scenario_first_rotation_witness :
    absoluteEvents 512 0
      (runBlocks (Processor.new zeroRandom) (List.replicate 344 (standaloneBlock 512))).2 =
      [(MidiMessage.noteOn 1 48 100, (0 : Int)), (MidiMessage.noteOff 1 48 0, 4410),
       (MidiMessage.noteOn 1 52 100, 44031), (MidiMessage.noteOff 1 52 0, 48441),
       (MidiMessage.noteOn 1 57 100, 88063), (MidiMessage.noteOff 1 57 0, 92473),
       (MidiMessage.noteOn 1 52 100, 132095), (MidiMessage.noteOff 1 52 0, 136505)] :=
  (scenario_first_rotation zeroRandom
    (fun _ => ⟨le_refl (0 : ℚ), (zero_lt_one : (0 : ℚ) < 1)⟩)
    (List.replicate 344 (standaloneBlock 512)) (List.length_replicate _ _)
    (fun inp h => by rw [List.eq_of_mem_replicate h]; exact ⟨rfl, rfl⟩)).1

/-- Witness of `flagged_dot_stays_silent`: the dot at 0° is flagged, the first block sweeps
over it without wrapping, emits nothing and leaves the flag set. -/
theorem flagged_dot_stays_silent_witness :
    firstFlaggedProcessor.triggeredThisRotation.getD 0 false = true ∧
    blockWraps firstFlaggedProcessor (standaloneBlock 512) = false ∧
    (processBlock firstFlaggedProcessor (standaloneBlock 512)).1.triggeredThisRotation.getD
      0 false = true :=
  ⟨by decide!, by decide!,
    (flagged_dot_stays_silent firstFlaggedProcessor 0 [] [] (standaloneBlock 512) (by decide!)
      ⟨by decide!, trivial⟩).2.2.2⟩

/-- Witness of `full_probability_fires`: the dot at 0° of the default processor fires in
the first block. -/
theorem full_probability_fires_witness :
    ∃ (v t : Int), (⟨MidiMessage.noteOn 1 (ringToMidiNote (Processor.new zeroRandom) 0)
      (toUint8 v), t⟩ : MidiEvent) ∈
        (processBlock (Processor.new zeroRandom) (standaloneBlock 512)).2 := by
  obtain ⟨v, t, _, _, h, _⟩ := full_probability_fires (Processor.new zeroRandom)
    (standaloneBlock 512) 0 ⟨0, 0, 0xffff6b35, true⟩ rfl
    (fun _ => ⟨le_refl (0 : ℚ), (zero_lt_one : (0 : ℚ) < 1)⟩) (by decide!) rfl (by decide!)
    (by decide!)
  exact ⟨v, t, h⟩

/-- Witness of `probability_miss_consumes_crossing`: probability 50 and the roll 75 at the
dot at 0° of the default processor. -/
theorem probability_miss_consumes_crossing_witness :
    (dotStep halfProbabilityProcessor (standaloneBlock 512) 0
      ⟨0, 0, 0xffff6b35, true⟩).midi =
        (stateAtDot halfProbabilityProcessor (standaloneBlock 512) 0).midi ∧
    (processBlock halfProbabilityProcessor (standaloneBlock 512)).1.triggeredThisRotation.getD
      0 false = true :=
  have h := probability_miss_consumes_crossing halfProbabilityProcessor (standaloneBlock 512) 0
    ⟨0, 0, 0xffff6b35, true⟩ (by decide!) (by decide!) rfl (by decide!) (by decide!)
    (by decide!)
  ⟨h.1, h.2.2.2.2.1⟩

/-- Witness of `crossing_symmetry`: the block from 350° to 10° and back, dot at 0°. -/
theorem crossing_symmetry_witness : crossed 350 10 0 = true ∧ crossed 10 350 0 = true :=
  crossing_symmetry 350 10 0 (by norm_num) (by norm_num) (by norm_num) (by decide!)
    (by decide!) ⟨10, by norm_num, by decide!, by decide!⟩

/-- Witness of `wrap_resets_all_flags`: half a degree before 360° the first block wraps
and clears the four flags. -/
theorem wrap_resets_all_flags_witness :
    blockWraps nearWrapProcessor (standaloneBlock 512) = true ∧
    (beforeDetection nearWrapProcessor (standaloneBlock 512)).proc.triggeredThisRotation =
      [false, false, false, false] :=
  ⟨by decide!, (wrap_resets_all_flags nearWrapProcessor (standaloneBlock 512)).1 (by decide!)⟩

/-- Witness of `state_round_trip`: the state of the default processor loaded into the
processor with changed parameters. -/
theorem state_round_trip_witness :
    (setStateInformation binary32 tweakedProcessor
      (getStateInformation binary32 (Processor.new zeroRandom))).probability = 100 ∧
    (setStateInformation binary32 tweakedProcessor
      (getStateInformation binary32 (Processor.new zeroRandom))).dots =
      (Processor.new zeroRandom).dots :=
  have h := state_round_trip binary32 (Processor.new zeroRandom) tweakedProcessor
    storable_default
  ⟨h.2.2.2.2.2.2.2.1, h.2.2.2.1⟩

/-- Witness of `flags_track_dots`: the default processor, a fifth dot, the removal of the
second dot, and a load of the empty data. -/
theorem flags_track_dots_witness :
    (Processor.new zeroRandom).triggeredThisRotation.length =
        (Processor.new zeroRandom).dots.length ∧
      (addDot (Processor.new zeroRandom) 45 1 255).triggeredThisRotation =
        (Processor.new zeroRandom).triggeredThisRotation ++ [false] :=
  ⟨by decide, (flags_track_dots binary32 (Processor.new zeroRandom) 45 1 255 1 [] (by decide)).2.2.2.2.2⟩

/-- Witness of `tempo_rotation_advance`: the default processor (120 BPM, speed 1, 44100 Hz),
a block of 512 samples, and two blocks of 88200 samples, which total four seconds. -/
theorem tempo_rotation_advance_witness :
    ((Processor.new zeroRandom).isBeingScratched = false ∧
      (Processor.new zeroRandom).scratchVelocity = 0 ∧
      0 < rampSpeedMultiplier (Processor.new zeroRandom) (standaloneBlock 512).numSamples ∧
      blockWraps (Processor.new zeroRandom) (standaloneBlock 512) = false ∧
      (processBlock (Processor.new zeroRandom) (standaloneBlock 512)).1.currentRotation =
        (Processor.new zeroRandom).currentRotation +
          tempoAdvance (Processor.new zeroRandom) (standaloneBlock 512)) ∧
    (FullSpeed (Processor.new zeroRandom) ∧ (Processor.new zeroRandom).speed = 1 ∧
      0 < (Processor.new zeroRandom).sampleRate ∧
      (∀ b ∈ [standaloneBlock 88200, standaloneBlock 88200],
        currentBPMOf (Processor.new zeroRandom) b = 120) ∧
      ((([standaloneBlock 88200, standaloneBlock 88200].map
        (fun b => b.numSamples)).sum : Int) : ℚ) = 4 * (Processor.new zeroRandom).sampleRate ∧
      runAdvance (Processor.new zeroRandom) [standaloneBlock 88200, standaloneBlock 88200] =
        if (Processor.new zeroRandom).isReversed then -360 else 360) :=
  ⟨⟨by decide!, by decide!, by decide!, by decide!,
      ((tempo_rotation_advance (Processor.new zeroRandom) (standaloneBlock 512) []).1
        (by decide!) (by decide!) (Or.inr (by decide!))).2 (by decide!)⟩,
    ⟨⟨by decide!, by decide!, by decide!, by decide!⟩, by decide!, by decide!, by decide!,
      by decide!,
      (tempo_rotation_advance (Processor.new zeroRandom) (standaloneBlock 512)
        [standaloneBlock 88200, standaloneBlock 88200]).2
        ⟨by decide!, by decide!, by decide!, by decide!⟩ (by decide!) (by decide!)
        (by decide!) (by decide!)⟩⟩

/-- Witness of `rotation_is_gated`: the default processor held by the pointer, and the
resting processor with its queued preview. -/
theorem rotation_is_gated_witness :
    (heldProcessor.isBeingScratched = true ∧
      (processBlock heldProcessor (standaloneBlock 512)).1.currentRotation =
        heldProcessor.currentRotation) ∧
    (restingPreviewProcessor.isBeingScratched = false ∧
      restingPreviewProcessor.scratchVelocity = 0 ∧
      shouldPlayOf restingPreviewProcessor (standaloneBlock 512) = false ∧
      rampSpeedMultiplier restingPreviewProcessor (standaloneBlock 512).numSamples = 0 ∧
      (processBlock restingPreviewProcessor (standaloneBlock 512)).1.currentRotation =
        restingPreviewProcessor.currentRotation) :=
  ⟨⟨by decide!, ((rotation_is_gated heldProcessor (standaloneBlock 512)).1 (by decide!)).1⟩,
    ⟨by decide!, by decide!, by decide!, by decide!,
      ((rotation_is_gated restingPreviewProcessor (standaloneBlock 512)).2
        (by decide!) (by decide!) (by decide!) (by decide!)).1⟩⟩

/-- Witness of `preview_notes_drain`: previews of rings 0 and 2 on the default processor. -/
theorem preview_notes_drain_witness :
    (0 : ℚ) ≤ (triggerPreviewNotes (Processor.new zeroRandom) [0, 2]).sampleRate ∧
      truncToInt ((triggerPreviewNotes (Processor.new zeroRandom) [0, 2]).sampleRate * (1 / 10)) =
        ⌊(1 / 10) * (triggerPreviewNotes (Processor.new zeroRandom) [0, 2]).sampleRate⌋ :=
  ⟨by decide!, (preview_notes_drain (Processor.new zeroRandom)
    (triggerPreviewNotes (Processor.new zeroRandom) [0, 2]) [0, 2]
    (standaloneBlock 512)).2.2.1 (by decide!)⟩

/-- Witness of `scratch_velocity_is_clamped`: the pointer moves from (100, -10) to (100, 0)
at radius 100 in 1 ms, an angular speed of 5729.58 degrees per second, which is stored
as 720 in magnitude. -/
theorem scratch_velocity_is_clamped_witness :
    (∀ p : ℚ × ℚ, axisDistance (-p.2, p.1) = axisDistance p) ∧
      0 < scratchDeltaTime scratchingEditor 1 ∧
      1 < scratchRadius axisDistance scratchingEditor (100, 0) ∧
      720 ≤ |unclampedScratchVelocity axisDistance scratchingEditor 1 (100, 0)| ∧
      |(mouseDragScratch axisDistance scratchingEditor (Processor.new zeroRandom) 1
        (100, 0)).1.scratchVelocity| = 720 :=
  ⟨fun p => by simp only [axisDistance, abs_neg]; exact add_comm _ _, by decide!, by decide!,
    by decide!,
    (scratch_velocity_is_clamped axisDistance scratchingEditor (Processor.new zeroRandom) 1
      (100, 0) (fun p => by simp only [axisDistance, abs_neg]; exact add_comm _ _)
      (by decide!) (by decide!)).2.2.2 (by decide!)⟩

/-- Witness of `scratch_momentum_dies_out`: the default processor thrown at 720 degrees per
second, in blocks of 512 samples. -/
theorem scratch_momentum_dies_out_witness :
    (setScratchVelocity (Processor.new zeroRandom) 720).isBeingScratched = false ∧
      1 / 100 < |(setScratchVelocity (Processor.new zeroRandom) 720).scratchVelocity| ∧
      |(setScratchVelocity (Processor.new zeroRandom) 720).scratchVelocity| ≤ 720 ∧
      0 < (setScratchVelocity (Processor.new zeroRandom) 720).sampleRate ∧
      (1 : Int) ≤ 512 ∧
      ∃ K : Nat, ∀ inps : List BlockInput, (∀ b ∈ inps, b.numSamples = 512) →
        K ≤ inps.length →
        (runBlocks (setScratchVelocity (Processor.new zeroRandom) 720) inps).1.scratchVelocity
          = 0 :=
  ⟨by decide!, by decide!, by decide!, by decide!, by decide,
    (scratch_momentum_dies_out (setScratchVelocity (Processor.new zeroRandom) 720) 512
      (by decide!) (by decide!) (by decide!) (by decide!) (by decide)).2⟩

/-- Witness of `no_skipped_pass`: the default processor with a fifth dot at 0.6 degrees and
five blocks of 64 samples, the fifth of which sweeps the arc from 128/245 to 160/245
degrees. -/
theorem no_skipped_pass_witness :
    lateDotProcessor.probability = 100 ∧ (∀ k, lateDotProcessor.random k < 1) ∧
      lateDotProcessor.dots[4]? = some ⟨3 / 5, 1, 0xffff6b35, true⟩ ∧
      lateDotProcessor.triggeredThisRotation.getD 4 false = false ∧
      (0 ≤ (runBlocks lateDotProcessor
          (List.replicate 4 (standaloneBlock 64))).1.currentRotation ∧
        (runBlocks lateDotProcessor
          (List.replicate 4 (standaloneBlock 64))).1.currentRotation < 360) ∧
      (0 ≤ (beforeDetection (runBlocks lateDotProcessor
          (List.replicate 4 (standaloneBlock 64))).1 (standaloneBlock 64)).proc.currentRotation ∧
        (beforeDetection (runBlocks lateDotProcessor
          (List.replicate 4 (standaloneBlock 64))).1 (standaloneBlock 64)).proc.currentRotation
          < 360) ∧
      1 / 1000 ≤ wrappedDelta (runBlocks lateDotProcessor
          (List.replicate 4 (standaloneBlock 64))).1.currentRotation
        (beforeDetection (runBlocks lateDotProcessor
          (List.replicate 4 (standaloneBlock 64))).1 (standaloneBlock 64)).proc.currentRotation ∧
      wrappedDelta (runBlocks lateDotProcessor
          (List.replicate 4 (standaloneBlock 64))).1.currentRotation
        (beforeDetection (runBlocks lateDotProcessor
          (List.replicate 4 (standaloneBlock 64))).1 (standaloneBlock 64)).proc.currentRotation
        ≤ 180 ∧
      onSweptArc (runBlocks lateDotProcessor
          (List.replicate 4 (standaloneBlock 64))).1.currentRotation
        (beforeDetection (runBlocks lateDotProcessor
          (List.replicate 4 (standaloneBlock 64))).1 (standaloneBlock 64)).proc.currentRotation
        (3 / 5) ∧
      ∃ (pre : List BlockInput) (b : BlockInput) (post : List BlockInput),
        List.replicate 4 (standaloneBlock 64) ++ [standaloneBlock 64] = pre ++ b :: post ∧
        DotFires (runBlocks lateDotProcessor pre).1 b 4 ⟨3 / 5, 1, 0xffff6b35, true⟩ :=
  ⟨by decide!, fun _ => (by decide! : (0 : ℚ) < 1), by decide!, by decide!,
    ⟨by decide!, by decide!⟩, ⟨by decide!, by decide!⟩, by decide!, by decide!,
    ⟨19 / 245, by decide!, by decide!, by decide!⟩,
    (no_skipped_pass lateDotProcessor (List.replicate 4 (standaloneBlock 64))
      (standaloneBlock 64) 4 ⟨3 / 5, 1, 0xffff6b35, true⟩ (by decide!)
      (fun _ => (by decide! : (0 : ℚ) < 1)) (by decide!) rfl (Or.inl (by decide!))
      ⟨by decide!, by decide!⟩ ⟨by decide!, by decide!⟩ ⟨by decide!, by decide!⟩ (by decide!)
      (by decide!) ⟨19 / 245, by decide!, by decide!, by decide!⟩).imp
      (fun _ h => h.imp (fun _ h => h.imp (fun _ h => ⟨h.1, h.2.1⟩)))⟩

end Skald
